import Mathlib

/-! # TKE vertical-mixing closure: backend dispatch and memory views

A shallow embedding of the CPU backend of the TKE library
(`src/backends/CPU/TKE_cpu.hpp`, `src/backends/CPU/cpu_memory.hpp`) and of the
view declarations of `src/cuda_memory.hpp`.

Conventions of the embedding:

* a C++ `int` is an `Int`; the result of an `int` multiplication or addition
  that the library stores in an `int` is passed through `wrap_int`
  (two's-complement, 32 bit);
* a raw pointer is an address `Ptr`, the null pointer is address `0`;
* the template parameter `T` of the backend (the floating-point type) is a type
  parameter `T` of the embedding;
* a member function that mutates `this` becomes a function returning the new
  backend, together with the list of calls it issued (its trace).
-/

namespace TKE

/-! ## Machine integers and pointers -/

/-- Raw buffer address (`double *`, `int *`). -/
abbrev Ptr := Nat

/-- The null pointer. -/
def nullptr : Ptr := 0

/-- Largest value of a 32-bit `int`. -/
def INT_MAX : Int := 2147483647

/-- Smallest value of a 32-bit `int`. -/
def INT_MIN : Int := -2147483648

/-- The value an arithmetic result takes when stored in a 32-bit `int`
(two's-complement wrap-around). -/
def wrap_int (x : Int) : Int := (x + 2147483648) % 4294967296 - 2147483648

/-- The value an arithmetic result takes when stored in a 64-bit `size_t`. -/
def wrap_size (x : Int) : Nat := (x % 18446744073709551616).toNat

/-- The constant `sizeof(double)`. -/
def sizeof_double : Nat := 8

/-- The constant `sizeof(int)`. -/
def sizeof_int : Nat := 4

/-! ## Field views (`Kokkos::mdspan` with `dextents<int, N>`, `layout_right`) -/

/-- A 1D view `mdspan<_, dextents<int, 1>>`: data handle and one `int` extent. -/
structure mdspan_1d where
  data : Ptr
  extent0 : Int
deriving DecidableEq

/-- A 2D view `mdspan<_, dextents<int, 2>>`. -/
structure mdspan_2d where
  data : Ptr
  extent0 : Int
  extent1 : Int
deriving DecidableEq

/-- A 3D view `mdspan<_, dextents<int, 3>>`. -/
structure mdspan_3d where
  data : Ptr
  extent0 : Int
  extent1 : Int
  extent2 : Int
deriving DecidableEq

/-- The alias `mdspan_1d_double`. -/
abbrev mdspan_1d_double := mdspan_1d
/-- The alias `mdspan_2d_double`. -/
abbrev mdspan_2d_double := mdspan_2d
/-- The alias `mdspan_3d_double`. -/
abbrev mdspan_3d_double := mdspan_3d
/-- The alias `mdspan_1d_int`. -/
abbrev mdspan_1d_int := mdspan_1d
/-- The alias `mdspan_2d_int`. -/
abbrev mdspan_2d_int := mdspan_2d
/-- The alias `mdspan_3d_int`. -/
abbrev mdspan_3d_int := mdspan_3d

/-- A default-constructed view: null data handle, all extents zero. -/
def mdspan_1d.empty : mdspan_1d := { data := nullptr, extent0 := 0 }
/-- A default-constructed view: null data handle, all extents zero. -/
def mdspan_2d.empty : mdspan_2d := { data := nullptr, extent0 := 0, extent1 := 0 }
/-- A default-constructed view: null data handle, all extents zero. -/
def mdspan_3d.empty : mdspan_3d :=
  { data := nullptr, extent0 := 0, extent1 := 0, extent2 := 0 }

/-- Element offset of index `i0` in a 1D view (`layout_right`, index type `int`). -/
def mdspan_1d.offset (_v : mdspan_1d) (i0 : Int) : Int := i0

/-- Element offset of `(i0, i1)` in a 2D view: `i0 * extent1 + i1`, every
intermediate result being an `int`. -/
def mdspan_2d.offset (v : mdspan_2d) (i0 i1 : Int) : Int :=
  wrap_int (wrap_int (i0 * v.extent1) + i1)

/-- Element offset of `(i0, i1, i2)` in a 3D view:
`(i0 * extent1 + i1) * extent2 + i2`, every intermediate result being an `int`. -/
def mdspan_3d.offset (v : mdspan_3d) (i0 i1 i2 : Int) : Int :=
  wrap_int (wrap_int (wrap_int (wrap_int (i0 * v.extent1) + i1) * v.extent2) + i2)

/-- The multi-indices a 1D view describes as in range. -/
def mdspan_1d.in_range (v : mdspan_1d) (i0 : Int) : Prop := 0 ≤ i0 ∧ i0 < v.extent0

/-- The multi-indices a 2D view describes as in range. -/
def mdspan_2d.in_range (v : mdspan_2d) (i : Int × Int) : Prop :=
  (0 ≤ i.1 ∧ i.1 < v.extent0) ∧ (0 ≤ i.2 ∧ i.2 < v.extent1)

/-- The multi-indices a 3D view describes as in range. -/
def mdspan_3d.in_range (v : mdspan_3d) (i : Int × Int × Int) : Prop :=
  (0 ≤ i.1 ∧ i.1 < v.extent0) ∧ (0 ≤ i.2.1 ∧ i.2.1 < v.extent1) ∧
    (0 ≤ i.2.2 ∧ i.2.2 < v.extent2)

instance (v : mdspan_1d) (i0 : Int) : Decidable (v.in_range i0) := by
  unfold mdspan_1d.in_range; infer_instance

instance (v : mdspan_2d) (i : Int × Int) : Decidable (v.in_range i) := by
  unfold mdspan_2d.in_range; infer_instance

instance (v : mdspan_3d) (i : Int × Int × Int) : Decidable (v.in_range i) := by
  unfold mdspan_3d.in_range; infer_instance

/-! ## CPU memory policy (`cpu_mdspan_impl`) -/

namespace cpu_mdspan_impl

/-- The overload `memview(double *data, int nlevs)`. -/
def memview_1d (data : Ptr) (nlevs : Int) : mdspan_1d :=
  { data := data, extent0 := nlevs }

/-- The overloads `memview(double *data, int nblocks, int nproma)` and
`memview(int *data, int nblocks, int nproma)`. -/
def memview_2d (data : Ptr) (nblocks nproma : Int) : mdspan_2d :=
  { data := data, extent0 := nblocks, extent1 := nproma }

/-- The overloads `memview(double *data, int nblocks, int nlevs, int nproma)` and
`memview(int *data, int nblocks, int nlevs, int nproma)`. -/
def memview_3d (data : Ptr) (nblocks nlevs nproma : Int) : mdspan_3d :=
  { data := data, extent0 := nblocks, extent1 := nlevs, extent2 := nproma }

/-- Byte count of `malloc(dim1 * sizeof(elem))`: the `int` is converted to
`size_t` and the product taken in `size_t`. -/
def malloc_bytes_1d (dim1 : Int) (elem_size : Nat) : Nat :=
  wrap_size (dim1 * elem_size)

/-- Byte count of `malloc(dim1 * dim2 * sizeof(elem))`: `dim1 * dim2` is an `int`
product, then converted to `size_t`. -/
def malloc_bytes_2d (dim1 dim2 : Int) (elem_size : Nat) : Nat :=
  wrap_size (wrap_int (dim1 * dim2) * elem_size)

/-- Byte count of `malloc(dim1 * dim2 * dim3 * sizeof(elem))`: the product of the
three dimensions is an `int` product, then converted to `size_t`. -/
def malloc_bytes_3d (dim1 dim2 dim3 : Int) (elem_size : Nat) : Nat :=
  wrap_size (wrap_int (wrap_int (dim1 * dim2) * dim3) * elem_size)

/-- The overloads `memview_malloc(double *field, int dim1)` (`elem_size = 8`) and
`memview_malloc(int *field, int dim1)` (`elem_size = 4`). `malloc` is what the
allocator answers to this request; the parameter `field` is overwritten by it. -/
def memview_malloc_1d (malloc : Nat → Ptr) (elem_size : Nat) (_field : Ptr)
    (dim1 : Int) : mdspan_1d :=
  let field := malloc (malloc_bytes_1d dim1 elem_size)
  { data := field, extent0 := dim1 }

/-- The overloads `memview_malloc(double *field, int dim1, int dim2)` and
`memview_malloc(int *field, int dim1, int dim2)`. -/
def memview_malloc_2d (malloc : Nat → Ptr) (elem_size : Nat) (_field : Ptr)
    (dim1 dim2 : Int) : mdspan_2d :=
  let field := malloc (malloc_bytes_2d dim1 dim2 elem_size)
  { data := field, extent0 := dim1, extent1 := dim2 }

/-- The overloads `memview_malloc(double *field, int dim1, int dim2, int dim3)` and
`memview_malloc(int *field, int dim1, int dim2, int dim3)`. -/
def memview_malloc_3d (malloc : Nat → Ptr) (elem_size : Nat) (_field : Ptr)
    (dim1 dim2 dim3 : Int) : mdspan_3d :=
  let field := malloc (malloc_bytes_3d dim1 dim2 dim3 elem_size)
  { data := field, extent0 := dim1, extent1 := dim2, extent2 := dim3 }

end cpu_mdspan_impl

/-! ## Field bundles

The view structures follow the declarations of `src/cuda_memory.hpp`
(`t_cvmix_view`, `t_patch_view`, `t_ocean_state_view`, `t_atmo_fluxes_view`,
`t_atmos_for_ocean_view`, `t_tke_internal_view`), with the view types of the CPU
memory policy; the structures of raw pointers have one pointer per view, under
the same name. -/

/-- Modelled from the spec: the raw pointers of the bundle `t_cvmix`
(closure input and output fields); the structure `t_cvmix_base` is declared in
`src/shared/interface/data_struct.hpp`, not under `src/`, and has one pointer
for each view of the bundle. -/
structure t_cvmix_base where
  tke : Ptr
  tke_plc : Ptr
  hlc : Ptr
  wlc : Ptr
  u_stokes : Ptr
  a_veloc_v : Ptr
  a_temp_v : Ptr
  a_salt_v : Ptr
  iwe_Tdis : Ptr
  cvmix_dummy_1 : Ptr
  cvmix_dummy_2 : Ptr
  cvmix_dummy_3 : Ptr
  tke_Tbpr : Ptr
  tke_Tspr : Ptr
  tke_Tdif : Ptr
  tke_Tdis : Ptr
  tke_Twin : Ptr
  tke_Tiwf : Ptr
  tke_Tbck : Ptr
  tke_Ttot : Ptr
  tke_Lmix : Ptr
  tke_Pr : Ptr
deriving DecidableEq

/-- Views of the bundle `t_cvmix`: closure input and output fields. -/
structure t_cvmix_view where
  tke : mdspan_3d
  tke_plc : mdspan_3d
  hlc : mdspan_2d
  wlc : mdspan_3d
  u_stokes : mdspan_2d
  a_veloc_v : mdspan_3d
  a_temp_v : mdspan_3d
  a_salt_v : mdspan_3d
  iwe_Tdis : mdspan_3d
  cvmix_dummy_1 : mdspan_3d
  cvmix_dummy_2 : mdspan_3d
  cvmix_dummy_3 : mdspan_3d
  tke_Tbpr : mdspan_3d
  tke_Tspr : mdspan_3d
  tke_Tdif : mdspan_3d
  tke_Tdis : mdspan_3d
  tke_Twin : mdspan_3d
  tke_Tiwf : mdspan_3d
  tke_Tbck : mdspan_3d
  tke_Ttot : mdspan_3d
  tke_Lmix : mdspan_3d
  tke_Pr : mdspan_3d
deriving DecidableEq

/-- The default-constructed bundle of views (every view empty). -/
def t_cvmix_view.empty : t_cvmix_view :=
  { tke := mdspan_3d.empty,
    tke_plc := mdspan_3d.empty,
    hlc := mdspan_2d.empty,
    wlc := mdspan_3d.empty,
    u_stokes := mdspan_2d.empty,
    a_veloc_v := mdspan_3d.empty,
    a_temp_v := mdspan_3d.empty,
    a_salt_v := mdspan_3d.empty,
    iwe_Tdis := mdspan_3d.empty,
    cvmix_dummy_1 := mdspan_3d.empty,
    cvmix_dummy_2 := mdspan_3d.empty,
    cvmix_dummy_3 := mdspan_3d.empty,
    tke_Tbpr := mdspan_3d.empty,
    tke_Tspr := mdspan_3d.empty,
    tke_Tdif := mdspan_3d.empty,
    tke_Tdis := mdspan_3d.empty,
    tke_Twin := mdspan_3d.empty,
    tke_Tiwf := mdspan_3d.empty,
    tke_Tbck := mdspan_3d.empty,
    tke_Ttot := mdspan_3d.empty,
    tke_Lmix := mdspan_3d.empty,
    tke_Pr := mdspan_3d.empty }

/-- Modelled from the spec: `fill_struct_memview` of `src/backends/TKE_backend.hpp`
(not under `src/`) for `t_cvmix_base`: "builds a Field View over every external
pointer", with the wrap function of the CPU memory policy; a 3D field has
extents `(nblocks, nlevs, nproma)`, a 2D field `(nblocks, nproma)`, a 1D field
`(nlevs)`. -/
def fill_struct_memview_cvmix (p : t_cvmix_base) (nblocks nlevs nproma : Int) : t_cvmix_view :=
  { tke := cpu_mdspan_impl.memview_3d p.tke nblocks nlevs nproma,
    tke_plc := cpu_mdspan_impl.memview_3d p.tke_plc nblocks nlevs nproma,
    hlc := cpu_mdspan_impl.memview_2d p.hlc nblocks nproma,
    wlc := cpu_mdspan_impl.memview_3d p.wlc nblocks nlevs nproma,
    u_stokes := cpu_mdspan_impl.memview_2d p.u_stokes nblocks nproma,
    a_veloc_v := cpu_mdspan_impl.memview_3d p.a_veloc_v nblocks nlevs nproma,
    a_temp_v := cpu_mdspan_impl.memview_3d p.a_temp_v nblocks nlevs nproma,
    a_salt_v := cpu_mdspan_impl.memview_3d p.a_salt_v nblocks nlevs nproma,
    iwe_Tdis := cpu_mdspan_impl.memview_3d p.iwe_Tdis nblocks nlevs nproma,
    cvmix_dummy_1 := cpu_mdspan_impl.memview_3d p.cvmix_dummy_1 nblocks nlevs nproma,
    cvmix_dummy_2 := cpu_mdspan_impl.memview_3d p.cvmix_dummy_2 nblocks nlevs nproma,
    cvmix_dummy_3 := cpu_mdspan_impl.memview_3d p.cvmix_dummy_3 nblocks nlevs nproma,
    tke_Tbpr := cpu_mdspan_impl.memview_3d p.tke_Tbpr nblocks nlevs nproma,
    tke_Tspr := cpu_mdspan_impl.memview_3d p.tke_Tspr nblocks nlevs nproma,
    tke_Tdif := cpu_mdspan_impl.memview_3d p.tke_Tdif nblocks nlevs nproma,
    tke_Tdis := cpu_mdspan_impl.memview_3d p.tke_Tdis nblocks nlevs nproma,
    tke_Twin := cpu_mdspan_impl.memview_3d p.tke_Twin nblocks nlevs nproma,
    tke_Tiwf := cpu_mdspan_impl.memview_3d p.tke_Tiwf nblocks nlevs nproma,
    tke_Tbck := cpu_mdspan_impl.memview_3d p.tke_Tbck nblocks nlevs nproma,
    tke_Ttot := cpu_mdspan_impl.memview_3d p.tke_Ttot nblocks nlevs nproma,
    tke_Lmix := cpu_mdspan_impl.memview_3d p.tke_Lmix nblocks nlevs nproma,
    tke_Pr := cpu_mdspan_impl.memview_3d p.tke_Pr nblocks nlevs nproma }

/-- Modelled from the spec: the raw pointers of the bundle `t_patch`
(grid geometry); the structure `t_patch_base` is declared in
`src/shared/interface/data_struct.hpp`, not under `src/`, and has one pointer
for each view of the bundle. -/
structure t_patch_base where
  depth_CellInterface : Ptr
  prism_center_dist_c : Ptr
  inv_prism_center_dist_c : Ptr
  prism_thick_c : Ptr
  dolic_c : Ptr
  dolic_e : Ptr
  zlev_i : Ptr
  wet_c : Ptr
  edges_cell_idx : Ptr
  edges_cell_blk : Ptr
deriving DecidableEq

/-- Views of the bundle `t_patch`: grid geometry. -/
structure t_patch_view where
  depth_CellInterface : mdspan_3d
  prism_center_dist_c : mdspan_3d
  inv_prism_center_dist_c : mdspan_3d
  prism_thick_c : mdspan_3d
  dolic_c : mdspan_2d
  dolic_e : mdspan_2d
  zlev_i : mdspan_1d
  wet_c : mdspan_3d
  edges_cell_idx : mdspan_3d
  edges_cell_blk : mdspan_3d
deriving DecidableEq

/-- The default-constructed bundle of views (every view empty). -/
def t_patch_view.empty : t_patch_view :=
  { depth_CellInterface := mdspan_3d.empty,
    prism_center_dist_c := mdspan_3d.empty,
    inv_prism_center_dist_c := mdspan_3d.empty,
    prism_thick_c := mdspan_3d.empty,
    dolic_c := mdspan_2d.empty,
    dolic_e := mdspan_2d.empty,
    zlev_i := mdspan_1d.empty,
    wet_c := mdspan_3d.empty,
    edges_cell_idx := mdspan_3d.empty,
    edges_cell_blk := mdspan_3d.empty }

/-- Modelled from the spec: `fill_struct_memview` of `src/backends/TKE_backend.hpp`
(not under `src/`) for `t_patch_base`: "builds a Field View over every external
pointer", with the wrap function of the CPU memory policy; a 3D field has
extents `(nblocks, nlevs, nproma)`, a 2D field `(nblocks, nproma)`, a 1D field
`(nlevs)`. -/
def fill_struct_memview_patch (p : t_patch_base) (nblocks nlevs nproma : Int) : t_patch_view :=
  { depth_CellInterface := cpu_mdspan_impl.memview_3d p.depth_CellInterface nblocks nlevs nproma,
    prism_center_dist_c := cpu_mdspan_impl.memview_3d p.prism_center_dist_c nblocks nlevs nproma,
    inv_prism_center_dist_c := cpu_mdspan_impl.memview_3d p.inv_prism_center_dist_c nblocks nlevs nproma,
    prism_thick_c := cpu_mdspan_impl.memview_3d p.prism_thick_c nblocks nlevs nproma,
    dolic_c := cpu_mdspan_impl.memview_2d p.dolic_c nblocks nproma,
    dolic_e := cpu_mdspan_impl.memview_2d p.dolic_e nblocks nproma,
    zlev_i := cpu_mdspan_impl.memview_1d p.zlev_i nlevs,
    wet_c := cpu_mdspan_impl.memview_3d p.wet_c nblocks nlevs nproma,
    edges_cell_idx := cpu_mdspan_impl.memview_3d p.edges_cell_idx nblocks nlevs nproma,
    edges_cell_blk := cpu_mdspan_impl.memview_3d p.edges_cell_blk nblocks nlevs nproma }

/-- Modelled from the spec: the raw pointers of the bundle `t_ocean_state`
(ocean state); the structure `t_ocean_state_base` is declared in
`src/shared/interface/data_struct.hpp`, not under `src/`, and has one pointer
for each view of the bundle. -/
structure t_ocean_state_base where
  temp : Ptr
  salt : Ptr
  stretch_c : Ptr
  eta_c : Ptr
  p_vn_x1 : Ptr
  p_vn_x2 : Ptr
  p_vn_x3 : Ptr
deriving DecidableEq

/-- Views of the bundle `t_ocean_state`: ocean state. -/
structure t_ocean_state_view where
  temp : mdspan_3d
  salt : mdspan_3d
  stretch_c : mdspan_2d
  eta_c : mdspan_2d
  p_vn_x1 : mdspan_3d
  p_vn_x2 : mdspan_3d
  p_vn_x3 : mdspan_3d
deriving DecidableEq

/-- The default-constructed bundle of views (every view empty). -/
def t_ocean_state_view.empty : t_ocean_state_view :=
  { temp := mdspan_3d.empty,
    salt := mdspan_3d.empty,
    stretch_c := mdspan_2d.empty,
    eta_c := mdspan_2d.empty,
    p_vn_x1 := mdspan_3d.empty,
    p_vn_x2 := mdspan_3d.empty,
    p_vn_x3 := mdspan_3d.empty }

/-- Modelled from the spec: `fill_struct_memview` of `src/backends/TKE_backend.hpp`
(not under `src/`) for `t_ocean_state_base`: "builds a Field View over every external
pointer", with the wrap function of the CPU memory policy; a 3D field has
extents `(nblocks, nlevs, nproma)`, a 2D field `(nblocks, nproma)`, a 1D field
`(nlevs)`. -/
def fill_struct_memview_ocean_state (p : t_ocean_state_base) (nblocks nlevs nproma : Int) : t_ocean_state_view :=
  { temp := cpu_mdspan_impl.memview_3d p.temp nblocks nlevs nproma,
    salt := cpu_mdspan_impl.memview_3d p.salt nblocks nlevs nproma,
    stretch_c := cpu_mdspan_impl.memview_2d p.stretch_c nblocks nproma,
    eta_c := cpu_mdspan_impl.memview_2d p.eta_c nblocks nproma,
    p_vn_x1 := cpu_mdspan_impl.memview_3d p.p_vn_x1 nblocks nlevs nproma,
    p_vn_x2 := cpu_mdspan_impl.memview_3d p.p_vn_x2 nblocks nlevs nproma,
    p_vn_x3 := cpu_mdspan_impl.memview_3d p.p_vn_x3 nblocks nlevs nproma }

/-- Modelled from the spec: the raw pointers of the bundle `t_atmo_fluxes`
(wind stress); the structure `t_atmo_fluxes_base` is declared in
`src/shared/interface/data_struct.hpp`, not under `src/`, and has one pointer
for each view of the bundle. -/
structure t_atmo_fluxes_base where
  stress_xw : Ptr
  stress_yw : Ptr
deriving DecidableEq

/-- Views of the bundle `t_atmo_fluxes`: wind stress. -/
structure t_atmo_fluxes_view where
  stress_xw : mdspan_2d
  stress_yw : mdspan_2d
deriving DecidableEq

/-- The default-constructed bundle of views (every view empty). -/
def t_atmo_fluxes_view.empty : t_atmo_fluxes_view :=
  { stress_xw := mdspan_2d.empty,
    stress_yw := mdspan_2d.empty }

/-- Modelled from the spec: `fill_struct_memview` of `src/backends/TKE_backend.hpp`
(not under `src/`) for `t_atmo_fluxes_base`: a 2D view `(nblocks, nproma)` over every
pointer of the bundle. -/
def fill_struct_memview_atmo_fluxes (p : t_atmo_fluxes_base) (nblocks nproma : Int) : t_atmo_fluxes_view :=
  { stress_xw := cpu_mdspan_impl.memview_2d p.stress_xw nblocks nproma,
    stress_yw := cpu_mdspan_impl.memview_2d p.stress_yw nblocks nproma }

/-- Modelled from the spec: the raw pointers of the bundle `t_atmos_for_ocean`
(10 m wind speed); the structure `t_atmos_for_ocean_base` is declared in
`src/shared/interface/data_struct.hpp`, not under `src/`, and has one pointer
for each view of the bundle. -/
structure t_atmos_for_ocean_base where
  fu10 : Ptr
deriving DecidableEq

/-- Views of the bundle `t_atmos_for_ocean`: 10 m wind speed. -/
structure t_atmos_for_ocean_view where
  fu10 : mdspan_2d
deriving DecidableEq

/-- The default-constructed bundle of views (every view empty). -/
def t_atmos_for_ocean_view.empty : t_atmos_for_ocean_view :=
  { fu10 := mdspan_2d.empty }

/-- Modelled from the spec: `fill_struct_memview` of `src/backends/TKE_backend.hpp`
(not under `src/`) for `t_atmos_for_ocean_base`: a 2D view `(nblocks, nproma)` over every
pointer of the bundle. -/
def fill_struct_memview_atmos_for_ocean (p : t_atmos_for_ocean_base) (nblocks nproma : Int) : t_atmos_for_ocean_view :=
  { fu10 := cpu_mdspan_impl.memview_2d p.fu10 nblocks nproma }

/-- Modelled from the spec: the raw pointers of the bundle `t_sea_ice`
(sea-ice concentration); the structure `t_sea_ice_base` is declared in
`src/shared/interface/data_struct.hpp`, not under `src/`, and has one pointer
for each view of the bundle. -/
structure t_sea_ice_base where
  concsum : Ptr
deriving DecidableEq

/-- Modelled from the spec: the views of the bundle `t_sea_ice`, the sea-ice
concentration (the buffer `concsum` of `examples/example_basic.cpp`); the
structure is declared in `src/shared/interface/data_struct.hpp`, not under `src/`. -/
structure t_sea_ice_view where
  concsum : mdspan_2d
deriving DecidableEq

/-- The default-constructed bundle of views (every view empty). -/
def t_sea_ice_view.empty : t_sea_ice_view :=
  { concsum := mdspan_2d.empty }

/-- Modelled from the spec: `fill_struct_memview` of `src/backends/TKE_backend.hpp`
(not under `src/`) for `t_sea_ice_base`: a 2D view `(nblocks, nproma)` over every
pointer of the bundle. -/
def fill_struct_memview_sea_ice (p : t_sea_ice_base) (nblocks nproma : Int) : t_sea_ice_view :=
  { concsum := cpu_mdspan_impl.memview_2d p.concsum nblocks nproma }

/-- Internal scratch views (`t_tke_internal_view`), owned by the backend. -/
structure t_tke_internal_view where
  forc_tke_surf_2D : mdspan_1d
  dzw_stretched : mdspan_2d
  dzt_stretched : mdspan_2d
  tke_old : mdspan_2d
  tke_Av : mdspan_3d
  tke_kv : mdspan_2d
  Nsqr : mdspan_2d
  Ssqr : mdspan_2d
  a_dif : mdspan_2d
  b_dif : mdspan_2d
  c_dif : mdspan_2d
  a_tri : mdspan_2d
  b_tri : mdspan_2d
  c_tri : mdspan_2d
  d_tri : mdspan_2d
  sqrttke : mdspan_2d
  forc : mdspan_2d
  ke : mdspan_2d
  cp : mdspan_2d
  dp : mdspan_2d
  tke_upd : mdspan_2d
  tke_unrest : mdspan_2d
deriving DecidableEq

/-- The default-constructed bundle of views (every view empty). -/
def t_tke_internal_view.empty : t_tke_internal_view :=
  { forc_tke_surf_2D := mdspan_1d.empty,
    dzw_stretched := mdspan_2d.empty,
    dzt_stretched := mdspan_2d.empty,
    tke_old := mdspan_2d.empty,
    tke_Av := mdspan_3d.empty,
    tke_kv := mdspan_2d.empty,
    Nsqr := mdspan_2d.empty,
    Ssqr := mdspan_2d.empty,
    a_dif := mdspan_2d.empty,
    b_dif := mdspan_2d.empty,
    c_dif := mdspan_2d.empty,
    a_tri := mdspan_2d.empty,
    b_tri := mdspan_2d.empty,
    c_tri := mdspan_2d.empty,
    d_tri := mdspan_2d.empty,
    sqrttke := mdspan_2d.empty,
    forc := mdspan_2d.empty,
    ke := mdspan_2d.empty,
    cp := mdspan_2d.empty,
    dp := mdspan_2d.empty,
    tke_upd := mdspan_2d.empty,
    tke_unrest := mdspan_2d.empty }

/-! ## The backend (`TKE_backend`, `TKE_cpu`) -/

/-- The constants `p_constant`: the scalar arguments of the `TKE_cpu`
constructor, immutable after construction. -/
structure t_constant (T : Type) where
  nproma : Int
  nlevs : Int
  nblocks : Int
  vert_mix_type : Int
  vmix_idemix_tke : Int
  vert_cor_type : Int
  dtime : T
  OceanReferenceDensity : T
  grav : T
  l_lc : Int
  clc : T
  ReferencePressureIndbars : T
  pi : T
deriving DecidableEq

/-- Modelled from the spec: the closure constants `p_constant_tke` (declared in
`src/shared/interface/data_struct.hpp`, not under `src/`); of its tunables only
the minimum floor of the updated TKE is named by the spec. -/
structure t_constant_tke (T : Type) where
  tke_min : T
deriving DecidableEq

/-- The state of a backend object: constants, internal scratch views, the six
bundles of external views and the flag `m_is_view_init`. -/
structure TKE_backend (T : Type) where
  p_constant : t_constant T
  p_constant_tke : t_constant_tke T
  p_internal_view : t_tke_internal_view
  p_patch_view : t_patch_view
  p_cvmix_view : t_cvmix_view
  ocean_state_view : t_ocean_state_view
  atmos_fluxes_view : t_atmo_fluxes_view
  p_as_view : t_atmos_for_ocean_view
  p_sea_ice_view : t_sea_ice_view
  m_is_view_init : Bool
deriving DecidableEq

/-- The arguments of one `calc_impl` call: six pointers to bundles of raw
pointers and the two range descriptors (edges first, then cells). -/
structure calc_args where
  p_patch : t_patch_base
  p_cvmix : t_cvmix_base
  ocean_state : t_ocean_state_base
  atmos_fluxes : t_atmo_fluxes_base
  p_as : t_atmos_for_ocean_base
  p_sea_ice : t_sea_ice_base
  edges_block_size : Int
  edges_start_block : Int
  edges_end_block : Int
  edges_start_index : Int
  edges_end_index : Int
  cells_block_size : Int
  cells_start_block : Int
  cells_end_block : Int
  cells_start_index : Int
  cells_end_index : Int
deriving DecidableEq

/-- Modelled from the spec: `get_index_range` of `src/shared/utils.hpp` (not
under `src/`): the in-block column range of block `jb` is "clamped to
`[start_index, end_index]` only at the first and last block, full range
elsewhere"; columns of a block are numbered from `0` (the example's full block
is `[0, nproma - 1]`). Returns `(start_idx, end_idx)`. -/
def get_index_range (block_size start_block end_block start_index end_index jb : Int) :
    Int × Int :=
  (if jb = start_block then start_index else 0,
   if jb = end_block then end_index else block_size - 1)

/-- The arguments of one `calc_impl_cells<T>` invocation. -/
structure cells_call (T : Type) where
  blockNo : Int
  start_index : Int
  end_index : Int
  p_patch : t_patch_view
  p_cvmix : t_cvmix_view
  ocean_state : t_ocean_state_view
  atmos_fluxes : t_atmo_fluxes_view
  p_as : t_atmos_for_ocean_view
  p_sea_ice : t_sea_ice_view
  p_internal : t_tke_internal_view
  p_constant : t_constant T
  p_constant_tke : t_constant_tke T
deriving DecidableEq

/-- The arguments of one `calc_impl_edges<T>` invocation. -/
structure edges_call (T : Type) where
  blockNo : Int
  start_index : Int
  end_index : Int
  p_patch : t_patch_view
  p_cvmix : t_cvmix_view
  p_internal : t_tke_internal_view
  p_constant : t_constant T
deriving DecidableEq

/-- The calls a `calc_impl` issues, in program order. -/
inductive Event (T : Type) where
  | fill_cvmix (p : t_cvmix_base) (nblocks nlevs nproma : Int)
  | fill_patch (p : t_patch_base) (nblocks nlevs nproma : Int)
  | fill_ocean_state (p : t_ocean_state_base) (nblocks nlevs nproma : Int)
  | fill_atmo_fluxes (p : t_atmo_fluxes_base) (nblocks nproma : Int)
  | fill_atmos_for_ocean (p : t_atmos_for_ocean_base) (nblocks nproma : Int)
  | fill_sea_ice (p : t_sea_ice_base) (nblocks nproma : Int)
  | cells (c : cells_call T)
  | edges (c : edges_call T)
deriving DecidableEq

/-- An event is the construction of a bundle of external views. -/
def Event.is_fill {T : Type} : Event T → Bool
  | .cells _ => false
  | .edges _ => false
  | _ => true

/-- An event is a cell-kernel invocation. -/
def Event.is_cells {T : Type} : Event T → Bool
  | .cells _ => true
  | _ => false

/-- An event is an edge-kernel invocation. -/
def Event.is_edges {T : Type} : Event T → Bool
  | .edges _ => true
  | _ => false

/-- The cell-kernel invocations of a trace, in order. -/
def cells_calls {T : Type} : List (Event T) → List (cells_call T)
  | [] => []
  | .cells c :: tr => c :: cells_calls tr
  | _ :: tr => cells_calls tr

/-- The edge-kernel invocations of a trace, in order. -/
def edges_calls {T : Type} : List (Event T) → List (edges_call T)
  | [] => []
  | .edges c :: tr => c :: edges_calls tr
  | _ :: tr => edges_calls tr

/-- The kernel invocations of a trace (cell and edge), in order. -/
def kernel_calls {T : Type} (tr : List (Event T)) : List (Event T) :=
  tr.filter (fun e => !e.is_fill)

/-- The loop `for (int jb = start; jb <= end; jb++)` as long as no increment
overflows: the values `jb` takes, in order, the counter being an unbounded
integer. The first argument bounds the number of iterations. For `int` ranges
with `end < INT_MAX` this is the loop of the source (`for_blocks_int_exits`);
`for_blocks_int` is the loop with its `int` counter, which does not exit when
`end = INT_MAX`. -/
def for_blocks : Nat → Int → Int → List Int
  | 0, _, _ => []
  | n + 1, jb, end_block =>
    if jb ≤ end_block then jb :: for_blocks n (jb + 1) end_block else []

/-- The blocks visited by `for (int jb = start_block; jb <= end_block; jb++)`
when no increment overflows, that is when `end_block < INT_MAX`; the loop
evaluates its test `end_block + 1 - start_block` times with success and once
more to exit, and the bound given here lets it do so. -/
def block_loop (start_block end_block : Int) : List Int :=
  for_blocks ((end_block + 1 - start_block).toNat + 1) start_block end_block

/-- The first statement of `calc_impl`: when the flag is not set, fill the six
bundles of views from the pointers of this call and set the flag. Returns the
new backend and the `fill_struct_memview` calls made. -/
def init_views {T : Type} (b : TKE_backend T) (a : calc_args) :
    TKE_backend T × List (Event T) :=
  if !b.m_is_view_init then
    let nblocks := b.p_constant.nblocks
    let nlevs := b.p_constant.nlevs
    let nproma := b.p_constant.nproma
    ({ b with
        p_cvmix_view := fill_struct_memview_cvmix a.p_cvmix nblocks nlevs nproma,
        p_patch_view := fill_struct_memview_patch a.p_patch nblocks nlevs nproma,
        ocean_state_view :=
          fill_struct_memview_ocean_state a.ocean_state nblocks nlevs nproma,
        atmos_fluxes_view := fill_struct_memview_atmo_fluxes a.atmos_fluxes nblocks nproma,
        p_as_view := fill_struct_memview_atmos_for_ocean a.p_as nblocks nproma,
        p_sea_ice_view := fill_struct_memview_sea_ice a.p_sea_ice nblocks nproma,
        m_is_view_init := true },
     [Event.fill_cvmix a.p_cvmix nblocks nlevs nproma,
      Event.fill_patch a.p_patch nblocks nlevs nproma,
      Event.fill_ocean_state a.ocean_state nblocks nlevs nproma,
      Event.fill_atmo_fluxes a.atmos_fluxes nblocks nproma,
      Event.fill_atmos_for_ocean a.p_as nblocks nproma,
      Event.fill_sea_ice a.p_sea_ice nblocks nproma])
  else (b, [])

/-- The body of the loop over cells for block `jb`: the `calc_impl_cells<T>`
invocation with the range of `get_index_range`. -/
def cells_body {T : Type} (b : TKE_backend T) (a : calc_args) (jb : Int) : cells_call T :=
  let r := get_index_range a.cells_block_size a.cells_start_block a.cells_end_block
    a.cells_start_index a.cells_end_index jb
  { blockNo := jb, start_index := r.1, end_index := r.2,
    p_patch := b.p_patch_view, p_cvmix := b.p_cvmix_view,
    ocean_state := b.ocean_state_view, atmos_fluxes := b.atmos_fluxes_view,
    p_as := b.p_as_view, p_sea_ice := b.p_sea_ice_view,
    p_internal := b.p_internal_view, p_constant := b.p_constant,
    p_constant_tke := b.p_constant_tke }

/-- The body of the loop over edges for block `jb`: the `calc_impl_edges<T>`
invocation with the range of `get_index_range`. -/
def edges_body {T : Type} (b : TKE_backend T) (a : calc_args) (jb : Int) : edges_call T :=
  let r := get_index_range a.edges_block_size a.edges_start_block a.edges_end_block
    a.edges_start_index a.edges_end_index jb
  { blockNo := jb, start_index := r.1, end_index := r.2,
    p_patch := b.p_patch_view, p_cvmix := b.p_cvmix_view,
    p_internal := b.p_internal_view, p_constant := b.p_constant }

/-- The member function `TKE_cpu::calc_impl`: the new backend and the trace of
the call (view construction, then the loop over cells, then the loop over
edges). The kernels receive the views and constants and hold no reference to
the backend object. The loop counters do not overflow here; `calc_impl_int` is
the call with the `int` counters, and returns this result for every call whose
block ranges end below `INT_MAX` (`calc_impl_int_returns`). -/
def calc_impl {T : Type} (b : TKE_backend T) (a : calc_args) :
    TKE_backend T × List (Event T) :=
  let s := init_views b a
  let b1 := s.1
  (b1,
   s.2
    ++ (block_loop a.cells_start_block a.cells_end_block).map
        (fun jb => Event.cells (cells_body b1 a jb))
    ++ (block_loop a.edges_start_block a.edges_end_block).map
        (fun jb => Event.edges (edges_body b1 a jb)))

/-- A sequence of `calc_impl` calls on one backend: the final backend and the
trace of each call, in call order. -/
def calc_seq {T : Type} : TKE_backend T → List calc_args → TKE_backend T × List (List (Event T))
  | b, [] => (b, [])
  | b, a :: rest =>
    let r := calc_impl b a
    let q := calc_seq r.1 rest
    (q.1, r.2 :: q.2)

/-- The backend states along a sequence of `calc_impl` calls: the state after
each call, in call order. -/
def calc_states {T : Type} : TKE_backend T → List calc_args → List (TKE_backend T)
  | _, [] => []
  | b, a :: rest => (calc_impl b a).1 :: calc_states (calc_impl b a).1 rest

/-- The effect of one event on the buffers `M`, given the effect of the two
kernels: constructing a view reads and writes no buffer. -/
def run_event {T M : Type} (cell_kernel : cells_call T → M → M)
    (edge_kernel : edges_call T → M → M) : Event T → M → M
  | .cells c, m => cell_kernel c m
  | .edges c, m => edge_kernel c m
  | _, m => m

/-- The effect of a trace on the buffers, event after event. -/
def run_trace {T M : Type} (cell_kernel : cells_call T → M → M)
    (edge_kernel : edges_call T → M → M) (tr : List (Event T)) (m : M) : M :=
  tr.foldl (fun m e => run_event cell_kernel edge_kernel e m) m

/-! ## The example driver (`examples/example_basic.cpp`) -/

/-- The constants of `main`, with `T` the rationals. -/
def example_constant : t_constant ℚ :=
  { nproma := 25, nlevs := 40, nblocks := 1, vert_mix_type := 2, vmix_idemix_tke := 4,
    vert_cor_type := 0, dtime := 0, OceanReferenceDensity := 1025022 / 1000,
    grav := 980665 / 100000, l_lc := 0, clc := 15 / 100,
    ReferencePressureIndbars := 1035 * (980665 / 100000) / 10000,
    pi := 314159265358979323846264338327950288 / 100000000000000000000000000000000000 }

/-- A backend on which `calc` has not been called yet: constants of `main`,
default-constructed views, flag not set. -/
def example_backend : TKE_backend ℚ :=
  { p_constant := example_constant,
    p_constant_tke := { tke_min := 1 / 1000000 },
    p_internal_view := t_tke_internal_view.empty,
    p_patch_view := t_patch_view.empty,
    p_cvmix_view := t_cvmix_view.empty,
    ocean_state_view := t_ocean_state_view.empty,
    atmos_fluxes_view := t_atmo_fluxes_view.empty,
    p_as_view := t_atmos_for_ocean_view.empty,
    p_sea_ice_view := t_sea_ice_view.empty,
    m_is_view_init := false }

/-- The arguments of the `calc` call of `main`; the buffers of `main` are given
the addresses `base + 1`, `base + 2`, ... in the order of their allocation
(`main` allocates no velocity buffer: those three pointers are null). -/
def example_args (base : Nat) : calc_args :=
  { p_patch :=
      { depth_CellInterface := base + 1, prism_center_dist_c := base + 2,
        inv_prism_center_dist_c := base + 3, prism_thick_c := base + 4,
        dolic_c := base + 5, dolic_e := base + 6, zlev_i := base + 7, wet_c := base + 8,
        edges_cell_idx := base + 9, edges_cell_blk := base + 10 },
    ocean_state :=
      { temp := base + 11, salt := base + 12, stretch_c := base + 13, eta_c := base + 14,
        p_vn_x1 := nullptr, p_vn_x2 := nullptr, p_vn_x3 := nullptr },
    p_cvmix :=
      { tke := base + 15, tke_plc := base + 16, hlc := base + 17, wlc := base + 18,
        u_stokes := base + 19, a_veloc_v := base + 20, a_temp_v := base + 21,
        a_salt_v := base + 22, iwe_Tdis := base + 23, cvmix_dummy_1 := base + 24,
        cvmix_dummy_2 := base + 25, cvmix_dummy_3 := base + 26, tke_Tbpr := base + 27,
        tke_Tspr := base + 28, tke_Tdif := base + 29, tke_Tdis := base + 30,
        tke_Twin := base + 31, tke_Tiwf := base + 32, tke_Tbck := base + 33,
        tke_Ttot := base + 34, tke_Lmix := base + 35, tke_Pr := base + 36 },
    atmos_fluxes := { stress_xw := base + 37, stress_yw := base + 38 },
    p_as := { fu10 := base + 39 },
    p_sea_ice := { concsum := base + 40 },
    edges_block_size := 1, edges_start_block := 0, edges_end_block := 1 - 1,
    edges_start_index := 0, edges_end_index := 25 - 1,
    cells_block_size := 1, cells_start_block := 0, cells_end_block := 1 - 1,
    cells_start_index := 0, cells_end_index := 25 - 1 }

/-! ## Observations on backends and kernel invocations -/

/-- The six bundles of external views. -/
structure view_bundles where
  p_cvmix : t_cvmix_view
  p_patch : t_patch_view
  ocean_state : t_ocean_state_view
  atmos_fluxes : t_atmo_fluxes_view
  p_as : t_atmos_for_ocean_view
  p_sea_ice : t_sea_ice_view
deriving DecidableEq

/-- The six bundles of external views a backend holds. -/
def TKE_backend.bundles {T : Type} (b : TKE_backend T) : view_bundles :=
  { p_cvmix := b.p_cvmix_view, p_patch := b.p_patch_view,
    ocean_state := b.ocean_state_view, atmos_fluxes := b.atmos_fluxes_view,
    p_as := b.p_as_view, p_sea_ice := b.p_sea_ice_view }

/-- The six bundles of external views handed to a cell-kernel invocation. -/
def cells_call.bundles {T : Type} (c : cells_call T) : view_bundles :=
  { p_cvmix := c.p_cvmix, p_patch := c.p_patch, ocean_state := c.ocean_state,
    atmos_fluxes := c.atmos_fluxes, p_as := c.p_as, p_sea_ice := c.p_sea_ice }

/-- The six bundles of views over the pointers of the call `a`, with the domain
sizes of the constants `k`. -/
def built_bundles {T : Type} (k : t_constant T) (a : calc_args) : view_bundles :=
  { p_cvmix := fill_struct_memview_cvmix a.p_cvmix k.nblocks k.nlevs k.nproma,
    p_patch := fill_struct_memview_patch a.p_patch k.nblocks k.nlevs k.nproma,
    ocean_state := fill_struct_memview_ocean_state a.ocean_state k.nblocks k.nlevs k.nproma,
    atmos_fluxes := fill_struct_memview_atmo_fluxes a.atmos_fluxes k.nblocks k.nproma,
    p_as := fill_struct_memview_atmos_for_ocean a.p_as k.nblocks k.nproma,
    p_sea_ice := fill_struct_memview_sea_ice a.p_sea_ice k.nblocks k.nproma }

/-- The six `fill_struct_memview` calls over the pointers of the call `a`, in
program order. -/
def built_events {T : Type} (k : t_constant T) (a : calc_args) : List (Event T) :=
  [Event.fill_cvmix a.p_cvmix k.nblocks k.nlevs k.nproma,
   Event.fill_patch a.p_patch k.nblocks k.nlevs k.nproma,
   Event.fill_ocean_state a.ocean_state k.nblocks k.nlevs k.nproma,
   Event.fill_atmo_fluxes a.atmos_fluxes k.nblocks k.nproma,
   Event.fill_atmos_for_ocean a.p_as k.nblocks k.nproma,
   Event.fill_sea_ice a.p_sea_ice k.nblocks k.nproma]

/-- The view-construction calls of a trace, in order. -/
def fill_calls {T : Type} (tr : List (Event T)) : List (Event T) :=
  tr.filter (fun e => e.is_fill)

/-- Block and in-block range of a cell-kernel invocation. -/
def cells_call.range {T : Type} (c : cells_call T) : Int × Int × Int :=
  (c.blockNo, c.start_index, c.end_index)

/-- Block and in-block range of an edge-kernel invocation. -/
def edges_call.range {T : Type} (c : edges_call T) : Int × Int × Int :=
  (c.blockNo, c.start_index, c.end_index)

/-! ## What a view addresses -/

/-- A 1D view addresses exactly a buffer of `n` elements: its offset map is a
bijection from the in-range indices onto the offsets `0, ..., n - 1`. -/
def mdspan_1d.addresses (v : mdspan_1d) (n : Int) : Prop :=
  Set.BijOn (fun i0 : Int => v.offset i0) {i0 | v.in_range i0} (Set.Ico 0 n)

/-- A 2D view addresses exactly a buffer of `n` elements. -/
def mdspan_2d.addresses (v : mdspan_2d) (n : Int) : Prop :=
  Set.BijOn (fun i : Int × Int => v.offset i.1 i.2) {i | v.in_range i} (Set.Ico 0 n)

/-- A 3D view addresses exactly a buffer of `n` elements. -/
def mdspan_3d.addresses (v : mdspan_3d) (n : Int) : Prop :=
  Set.BijOn (fun i : Int × Int × Int => v.offset i.1 i.2.1 i.2.2) {i | v.in_range i}
    (Set.Ico 0 n)

/-! ## Construction of the CPU backend -/

/-- How a call that may abort the process ends. -/
inductive Outcome (α : Type) where
  | returned (a : α)
  | aborted
deriving DecidableEq

/-- Modelled from the spec: the constructor of `TKE_backend`
(`src/backends/TKE_backend.hpp`, not under `src/`): it stores the constants, the
views are default-constructed and the flag is "Uninitialized". -/
def TKE_backend.init {T : Type} (k : t_constant T) (ktke : t_constant_tke T) : TKE_backend T :=
  { p_constant := k,
    p_constant_tke := ktke,
    p_internal_view := t_tke_internal_view.empty,
    p_patch_view := t_patch_view.empty,
    p_cvmix_view := t_cvmix_view.empty,
    ocean_state_view := t_ocean_state_view.empty,
    atmos_fluxes_view := t_atmo_fluxes_view.empty,
    p_as_view := t_atmos_for_ocean_view.empty,
    p_sea_ice_view := t_sea_ice_view.empty,
    m_is_view_init := false }

/-- Modelled from the spec: the allocations of `internal_fields_malloc`
(`src/backends/TKE_backend.hpp`, not under `src/`) with the CPU memory policy:
every internal scratch field is made by "allocate-and-wrap", one `memview_malloc`
call per field. `malloc i` is what the allocator answers to the `i`-th request,
`dims i` the dimensions the backend fixes for the `i`-th field (fields numbered
in declaration order). -/
def internal_fields_wrap (malloc : Nat → Nat → Ptr) (dims : Nat → Int × Int × Int) :
    t_tke_internal_view :=
  { forc_tke_surf_2D :=
      cpu_mdspan_impl.memview_malloc_1d (malloc 0) sizeof_double nullptr (dims 0).1,
    dzw_stretched :=
      cpu_mdspan_impl.memview_malloc_2d (malloc 1) sizeof_double nullptr (dims 1).1
        (dims 1).2.1,
    dzt_stretched :=
      cpu_mdspan_impl.memview_malloc_2d (malloc 2) sizeof_double nullptr (dims 2).1
        (dims 2).2.1,
    tke_old :=
      cpu_mdspan_impl.memview_malloc_2d (malloc 3) sizeof_double nullptr (dims 3).1
        (dims 3).2.1,
    tke_Av :=
      cpu_mdspan_impl.memview_malloc_3d (malloc 4) sizeof_double nullptr (dims 4).1
        (dims 4).2.1 (dims 4).2.2,
    tke_kv :=
      cpu_mdspan_impl.memview_malloc_2d (malloc 5) sizeof_double nullptr (dims 5).1
        (dims 5).2.1,
    Nsqr :=
      cpu_mdspan_impl.memview_malloc_2d (malloc 6) sizeof_double nullptr (dims 6).1
        (dims 6).2.1,
    Ssqr :=
      cpu_mdspan_impl.memview_malloc_2d (malloc 7) sizeof_double nullptr (dims 7).1
        (dims 7).2.1,
    a_dif :=
      cpu_mdspan_impl.memview_malloc_2d (malloc 8) sizeof_double nullptr (dims 8).1
        (dims 8).2.1,
    b_dif :=
      cpu_mdspan_impl.memview_malloc_2d (malloc 9) sizeof_double nullptr (dims 9).1
        (dims 9).2.1,
    c_dif :=
      cpu_mdspan_impl.memview_malloc_2d (malloc 10) sizeof_double nullptr (dims 10).1
        (dims 10).2.1,
    a_tri :=
      cpu_mdspan_impl.memview_malloc_2d (malloc 11) sizeof_double nullptr (dims 11).1
        (dims 11).2.1,
    b_tri :=
      cpu_mdspan_impl.memview_malloc_2d (malloc 12) sizeof_double nullptr (dims 12).1
        (dims 12).2.1,
    c_tri :=
      cpu_mdspan_impl.memview_malloc_2d (malloc 13) sizeof_double nullptr (dims 13).1
        (dims 13).2.1,
    d_tri :=
      cpu_mdspan_impl.memview_malloc_2d (malloc 14) sizeof_double nullptr (dims 14).1
        (dims 14).2.1,
    sqrttke :=
      cpu_mdspan_impl.memview_malloc_2d (malloc 15) sizeof_double nullptr (dims 15).1
        (dims 15).2.1,
    forc :=
      cpu_mdspan_impl.memview_malloc_2d (malloc 16) sizeof_double nullptr (dims 16).1
        (dims 16).2.1,
    ke :=
      cpu_mdspan_impl.memview_malloc_2d (malloc 17) sizeof_double nullptr (dims 17).1
        (dims 17).2.1,
    cp :=
      cpu_mdspan_impl.memview_malloc_2d (malloc 18) sizeof_double nullptr (dims 18).1
        (dims 18).2.1,
    dp :=
      cpu_mdspan_impl.memview_malloc_2d (malloc 19) sizeof_double nullptr (dims 19).1
        (dims 19).2.1,
    tke_upd :=
      cpu_mdspan_impl.memview_malloc_2d (malloc 20) sizeof_double nullptr (dims 20).1
        (dims 20).2.1,
    tke_unrest :=
      cpu_mdspan_impl.memview_malloc_2d (malloc 21) sizeof_double nullptr (dims 21).1
        (dims 21).2.1 }

/-- The base pointers of the internal scratch views, in declaration order. -/
def t_tke_internal_view.handles (v : t_tke_internal_view) : List Ptr :=
  [v.forc_tke_surf_2D.data,
   v.dzw_stretched.data,
   v.dzt_stretched.data,
   v.tke_old.data,
   v.tke_Av.data,
   v.tke_kv.data,
   v.Nsqr.data,
   v.Ssqr.data,
   v.a_dif.data,
   v.b_dif.data,
   v.c_dif.data,
   v.a_tri.data,
   v.b_tri.data,
   v.c_tri.data,
   v.d_tri.data,
   v.sqrttke.data,
   v.forc.data,
   v.ke.data,
   v.cp.data,
   v.dp.data,
   v.tke_upd.data,
   v.tke_unrest.data]

/-- Modelled from the spec: `internal_fields_malloc` of `src/backends/TKE_backend.hpp`
(not under `src/`) with the CPU memory policy. The scratch fields are allocated
and wrapped by `memview_malloc`; "the only fatal condition is scratch-allocation
failure at construction, which aborts", "either a call runs to completion or the
process aborts on allocation failure": when the allocation of a field failed,
that is when `memview_malloc` handed back a view over the null buffer, the
process aborts; otherwise the views are those of the backend. -/
def internal_fields_malloc (malloc : Nat → Nat → Ptr) (dims : Nat → Int × Int × Int) :
    Outcome t_tke_internal_view :=
  if nullptr ∈ (internal_fields_wrap malloc dims).handles then Outcome.aborted
  else Outcome.returned (internal_fields_wrap malloc dims)

/-- The constructor `TKE_cpu::TKE_cpu`: the base-class constructor, then
`internal_fields_malloc` with the CPU memory policy; the body has no other
statement that touches the backend, and it ends the process only where
`internal_fields_malloc` does. -/
def TKE_cpu.new {T : Type} (k : t_constant T) (ktke : t_constant_tke T)
    (malloc : Nat → Nat → Ptr) (dims : Nat → Int × Int × Int) : Outcome (TKE_backend T) :=
  let b := TKE_backend.init k ktke
  match internal_fields_malloc malloc dims with
  | Outcome.returned v => Outcome.returned { b with p_internal_view := v }
  | Outcome.aborted => Outcome.aborted

/-- An allocator that fails on every request. -/
def malloc_failing : Nat → Nat → Ptr := fun _ _ => nullptr

/-- An allocator that succeeds on every request: the `i`-th request gets the
address `4096 * (i + 1)`. -/
def malloc_succeeding : Nat → Nat → Ptr := fun i _ => 4096 * (i + 1)

/-- Scratch dimensions for the example: every field gets `(nlevs, nproma, 1)` of
`main`, read as far as its rank goes. -/
def example_dims : Nat → Int × Int × Int := fun _ => (40, 25, 1)

/-! ## The cell kernel: tridiagonal solve and floor (from the spec) -/

/-- A tridiagonal system over the vertical levels of one column: sub-diagonal
`a`, diagonal `b`, super-diagonal `c`, right-hand side `d` (the scratch rows
`a_tri`, `b_tri`, `c_tri`, `d_tri` of `t_tke_internal_view`). -/
structure tridiag (K : Type) where
  a : Nat → K
  b : Nat → K
  c : Nat → K
  d : Nat → K

/-- Modelled from the spec: forward elimination of the Thomas algorithm, the
row `cp` of modified super-diagonal coefficients (`calc_impl_cells` is in
`src/backends/CPU/cpu_kernels.hpp`, not under `src/`). -/
def thomas_cp {K : Type} [Field K] (s : tridiag K) : Nat → K
  | 0 => s.c 0 / s.b 0
  | k + 1 => s.c (k + 1) / (s.b (k + 1) - thomas_cp s k * s.a (k + 1))

/-- Modelled from the spec: the divisor of level `k` in the forward
elimination. -/
def thomas_den {K : Type} [Field K] (s : tridiag K) : Nat → K
  | 0 => s.b 0
  | k + 1 => s.b (k + 1) - thomas_cp s k * s.a (k + 1)

/-- Modelled from the spec: forward elimination of the Thomas algorithm, the
row `dp` of modified right-hand sides. -/
def thomas_dp {K : Type} [Field K] (s : tridiag K) : Nat → K
  | 0 => s.d 0 / s.b 0
  | k + 1 => (s.d (k + 1) - thomas_dp s k * s.a (k + 1))
      / (s.b (k + 1) - thomas_cp s k * s.a (k + 1))

/-- Modelled from the spec: back-substitution of the Thomas algorithm from the
last level `last` upwards; the argument counts the levels above `last`. -/
def thomas_back {K : Type} [Field K] (s : tridiag K) (last : Nat) : Nat → K
  | 0 => thomas_dp s last
  | j + 1 => thomas_dp s (last - (j + 1)) - thomas_cp s (last - (j + 1)) * thomas_back s last j

/-- Modelled from the spec: "solve the tridiagonal system by forward elimination
and back-substitution (Thomas algorithm)"; the value of the solution of the
system of `n` levels at level `k`. -/
def solve_tridiag {K : Type} [Field K] (s : tridiag K) (n : Nat) (k : Nat) : K :=
  thomas_back s (n - 1) (n - 1 - k)

/-- The left-hand side of row `k` of a system of `n` levels at the profile `x`:
`a_k * x_(k-1) + b_k * x_k + c_k * x_(k+1)`, the first row having no
sub-diagonal entry and the last row no super-diagonal entry. -/
def row_lhs {K : Type} [Field K] (s : tridiag K) (n : Nat) (x : Nat → K) (k : Nat) : K :=
  (if k = 0 then 0 else s.a k * x (k - 1)) + s.b k * x k
    + (if k + 1 = n then 0 else s.c k * x (k + 1))

/-- Strict row diagonal dominance of a system of `n` levels: in every row the
diagonal entry exceeds in absolute value the sum of the absolute values of the
off-diagonal entries of that row. -/
def diag_dominant {K : Type} [LinearOrderedField K] (s : tridiag K) (n : Nat) : Prop :=
  ∀ k : Nat, k < n →
    (if k = 0 then 0 else |s.a k|) + (if k + 1 = n then 0 else |s.c k|) < |s.b k|

/-- Modelled from the spec: step 5 of the cell kernel, "clip updated TKE to a
minimum floor". -/
def clip_tke {K : Type} [LinearOrderedField K] (tke_min x : K) : K :=
  if x < tke_min then tke_min else x

/-- Modelled from the spec: steps 4 and 5 of the cell kernel at level `k` of one
column: the clipped solution of the column's system on the active levels
`0 .. dolic - 1`, the old value on the other levels. -/
def tke_column_update {K : Type} [LinearOrderedField K] (tke_min : K) (sys : tridiag K)
    (dolic k : Int) (old : K) : K :=
  if 0 ≤ k ∧ k < dolic then clip_tke tke_min (solve_tridiag sys dolic.toNat k.toNat) else old

/-- Modelled from the spec: the effect of one `calc_impl_cells` invocation on the
TKE field (indexed by block, level, column): every column `start_index <= jc <=
end_index` of block `blockNo` gets its updated profile. `assemble` stands for
steps 1 to 3 (the system of a column, from whatever the inputs are), `dolic_c`
for the bottom index of each column. -/
def calc_impl_cells {K : Type} [LinearOrderedField K]
    (assemble : cells_call K → Int → (Int → Int → Int → K) → tridiag K)
    (dolic_c : Int → Int → Int) (c : cells_call K) (tke : Int → Int → Int → K) :
    Int → Int → Int → K :=
  fun jb k jc =>
    if jb = c.blockNo ∧ c.start_index ≤ jc ∧ jc ≤ c.end_index then
      tke_column_update c.p_constant_tke.tke_min (assemble c jc tke) (dolic_c jb jc) k
        (tke jb k jc)
    else tke jb k jc

/-- Modelled from the spec: the edge kernel "produces the edge-resident viscosity
field"; it writes no TKE. -/
def calc_impl_edges_tke {K : Type} (_c : edges_call K) (tke : Int → Int → Int → K) :
    Int → Int → Int → K := tke

/-- A system of two levels for the examples: rows `2 x0 + x1 = 3` and
`x0 + 3 x1 = 4`, with solution `(1, 1)`. -/
def example_system : tridiag ℚ :=
  { a := fun _ => 1, b := fun k => if k = 0 then 2 else 3, c := fun _ => 1,
    d := fun k => if k = 0 then 3 else 4 }

/-- Row diagonal dominance in the usual, non-strict sense: in every row the
diagonal entry is at least, in absolute value, the sum of the absolute values of
the off-diagonal entries. -/
def diag_dominant_weak {K : Type} [LinearOrderedField K] (s : tridiag K) (n : Nat) : Prop :=
  ∀ k : Nat, k < n →
    (if k = 0 then 0 else |s.a k|) + (if k + 1 = n then 0 else |s.c k|) ≤ |s.b k|

/-- A system of two levels with rows `x0 + x1 = 1` and `x0 + x1 = 2`. -/
def singular_system : tridiag ℚ :=
  { a := fun _ => 1, b := fun _ => 1, c := fun _ => 1, d := fun k => if k = 0 then 1 else 2 }

/-- The element at offset `off`, of `elem_size` bytes, lies inside an allocation
of `bytes` bytes. -/
def inside_allocation (bytes elem_size : Nat) (off : Int) : Prop :=
  0 ≤ off ∧ (off + 1) * (elem_size : Int) ≤ (bytes : Int)

instance (bytes elem_size : Nat) (off : Int) : Decidable (inside_allocation bytes elem_size off) := by
  unfold inside_allocation; infer_instance

/-! ## GPU memory policy (`cuda_mdspan_impl`, `src/cuda_memory.hpp`) -/

/-- A 2D device view `cuda::std::mdspan<_, extents<size_t, dyn, dyn>>`
(`mdspan_2d_double` of `src/cuda_memory.hpp`): data handle and two `size_t`
extents. -/
structure cuda_mdspan_2d where
  data : Ptr
  extent0 : Nat
  extent1 : Nat
deriving DecidableEq

/-- Element offset of `(i0, i1)` in a 2D device view: `i0 * extent1 + i1`, the
indices converted to `size_t` and every intermediate result being a `size_t`. -/
def cuda_mdspan_2d.offset (v : cuda_mdspan_2d) (i0 i1 : Int) : Nat :=
  wrap_size (((wrap_size ((wrap_size i0 * v.extent1 : Nat) : Int) + wrap_size i1 : Nat) : Int))

/-- The multi-indices a 2D device view describes as in range. -/
def cuda_mdspan_2d.in_range (v : cuda_mdspan_2d) (i : Int × Int) : Prop :=
  (0 ≤ i.1 ∧ i.1 < (v.extent0 : Int)) ∧ (0 ≤ i.2 ∧ i.2 < (v.extent1 : Int))

instance (v : cuda_mdspan_2d) (i : Int × Int) : Decidable (v.in_range i) := by
  unfold cuda_mdspan_2d.in_range; infer_instance

/-- The function `cuda_mdspan_impl::memview_2d_impl(double *data, int nblocks, int
nproma)`: the two `int` arguments are converted to the `size_t` extents. -/
def cuda_mdspan_impl.memview_2d_impl (data : Ptr) (nblocks nproma : Int) : cuda_mdspan_2d :=
  { data := data, extent0 := wrap_size nblocks, extent1 := wrap_size nproma }

/-! ## GPU backend: kernel launch (`TKE_gpu::launch_kernel`) -/

/-- A launch policy, the template argument of `launch_kernel`: its static member
`launch(threadsPerBlock, blocksPerGrid, func, args)`, acting on a device state
`σ`. -/
structure launch_policy (σ : Type) where
  launch : Int → Int → Ptr → Ptr → σ → σ

/-- The member function template `TKE_gpu::launch_kernel<launch_policy>`; its body
reads and writes no member of the backend. -/
def TKE_gpu.launch_kernel {σ : Type} (P : launch_policy σ)
    (threadsPerBlock blocksPerGrid : Int) (func args : Ptr) : σ → σ :=
  P.launch threadsPerBlock blocksPerGrid func args

/-- One call of the launch interface as the spec words it:
"launch(unitsPerGroup, groupCount, kernel, args)". -/
structure launch_call where
  unitsPerGroup : Int
  groupCount : Int
  kernel : Ptr
  args : Ptr
deriving DecidableEq

/-- A launch policy together with a record of the calls made to it: the state is
the state of the policy and the list of calls so far, oldest first. -/
def launch_policy.traced {σ : Type} (P : launch_policy σ) : launch_policy (σ × List launch_call) :=
  { launch := fun u g k a s =>
      (P.launch u g k a s.1,
       s.2 ++ [{ unitsPerGroup := u, groupCount := g, kernel := k, args := a }]) }

/-! ## The edge kernel (from the spec) -/

/-- Modelled from the spec: the levels of an edge, "every vertical level down to
the shallower neighbor's `dolic`"; when one neighbour is invalid the other one
alone counts (the "fallback"), and an edge without a valid neighbour has no level
(`calc_impl_edges` is in `src/backends/CPU/cpu_kernels.hpp`, not under `src/`).
A neighbour is a pair `(block, index)`; `valid` tells the valid neighbours and
`dolic_c` is the bottom index of a cell column. -/
def edge_levels (valid : Int → Int → Bool) (dolic_c : Int → Int → Int)
    (n1 n2 : Int × Int) : Int :=
  if valid n1.1 n1.2 = true ∧ valid n2.1 n2.2 = true then
    min (dolic_c n1.1 n1.2) (dolic_c n2.1 n2.2)
  else if valid n1.1 n1.2 = true then dolic_c n1.1 n1.2
  else if valid n2.1 n2.2 = true then dolic_c n2.1 n2.2
  else 0

/-- Modelled from the spec: the value interpolated to an edge at level `k`, an
"arithmetic combination" of the cell-centred viscosity `tke_Av` of the two
neighbours (their mean), "with fallback when one neighbor is invalid" (the value
of the valid one). -/
def edge_interpolate {K : Type} [LinearOrderedField K] (valid : Int → Int → Bool)
    (tke_Av : Int → Int → Int → K) (n1 n2 : Int × Int) (k : Int) : K :=
  if valid n1.1 n1.2 = true ∧ valid n2.1 n2.2 = true then
    (tke_Av n1.1 k n1.2 + tke_Av n2.1 k n2.2) / 2
  else if valid n1.1 n1.2 = true then tke_Av n1.1 k n1.2
  else tke_Av n2.1 k n2.2

/-- Modelled from the spec: the effect of one `calc_impl_edges` invocation on the
edge viscosity field (indexed by block, level, edge): for every edge `start_index
<= je <= end_index` of block `blockNo` and every level of that edge, the value
interpolated from the two neighbouring cells, which the maps `edges_cell_blk` and
`edges_cell_idx` (block, neighbour `0` or `1`, edge) give; every other entry
keeps its value. The cell-centred viscosity `tke_Av` is read and not written. -/
def calc_impl_edges {K : Type} [LinearOrderedField K] (valid : Int → Int → Bool)
    (dolic_c : Int → Int → Int) (edges_cell_blk edges_cell_idx : Int → Int → Int → Int)
    (tke_Av : Int → Int → Int → K) (c : edges_call K) (a_veloc_v : Int → Int → Int → K) :
    Int → Int → Int → K :=
  fun jb k je =>
    if jb = c.blockNo ∧ (c.start_index ≤ je ∧ je ≤ c.end_index) ∧
        (0 ≤ k ∧ k < edge_levels valid dolic_c
          (edges_cell_blk jb 0 je, edges_cell_idx jb 0 je)
          (edges_cell_blk jb 1 je, edges_cell_idx jb 1 je)) then
      edge_interpolate valid tke_Av
        (edges_cell_blk jb 0 je, edges_cell_idx jb 0 je)
        (edges_cell_blk jb 1 je, edges_cell_idx jb 1 je) k
    else a_veloc_v jb k je

/-- Modelled from the spec: the cell kernel computes cell-centred fields; the
"edge-resident viscosity field" is produced by the edge kernel, and a cell-kernel
invocation leaves it as it is. -/
def calc_impl_cells_edge_field {K : Type} (_c : cells_call K)
    (a_veloc_v : Int → Int → Int → K) : Int → Int → Int → K := a_veloc_v

/-! ## The diagnostics of the cell kernel (from the spec) -/

/-- The diagnostic fields the cell kernel writes back, by the names of their views
in `t_cvmix_view`: buoyancy production, shear production, vertical diffusion,
dissipation, wind input, internal-wave input, background loss, total tendency,
mixing length, Prandtl number. -/
inductive diagnostic where
  | tke_Tbpr
  | tke_Tspr
  | tke_Tdif
  | tke_Tdis
  | tke_Twin
  | tke_Tiwf
  | tke_Tbck
  | tke_Ttot
  | tke_Lmix
  | tke_Pr
deriving DecidableEq

/-- The fields a cell-kernel invocation updates in place: the TKE and the
diagnostic fields, each indexed by block, level, column. -/
structure cell_fields (K : Type) where
  tke : Int → Int → Int → K
  diag : diagnostic → Int → Int → Int → K

/-- Modelled from the spec: what the computation on one column has before it, "a
column is active down to its `dolic` index, no computation below it": the TKE
and the other level-dependent input fields (named by `F`) on the levels `0 ..
dolic - 1` of that column, and nothing of the other levels. -/
structure active_inputs (F K : Type) where
  tke : Int → Option K
  field : F → Int → Option K

/-- Modelled from the spec: the active part of column `jc` of block `jb`. -/
def column_view {F K : Type} (dolic_c : Int → Int → Int) (inputs : F → Int → Int → Int → K)
    (tke : Int → Int → Int → K) (jb jc : Int) : active_inputs F K :=
  { tke := fun k => if 0 ≤ k ∧ k < dolic_c jb jc then some (tke jb k jc) else none,
    field := fun f k => if 0 ≤ k ∧ k < dolic_c jb jc then some (inputs f jb k jc) else none }

/-- Modelled from the spec: the effect of one `calc_impl_cells` invocation on the
TKE and on the diagnostic fields. The TKE is updated as in `calc_impl_cells`,
the system of a column being assembled from its active part (`assemble`, steps 1
to 3). Step 7: every diagnostic term is written back "for the full column, zero
below `dolic`", for the columns `start_index <= jc <= end_index` of block
`blockNo` and the levels `0 .. nlevs - 1`; `physics` stands for the value of a
term at an active level, computed from the active part of the column. -/
def calc_impl_cells_full {F K : Type} [LinearOrderedField K]
    (assemble : cells_call K → Int → active_inputs F K → tridiag K)
    (physics : cells_call K → Int → active_inputs F K → diagnostic → Int → K)
    (dolic_c : Int → Int → Int) (inputs : F → Int → Int → Int → K)
    (c : cells_call K) (s : cell_fields K) : cell_fields K :=
  { tke := calc_impl_cells
      (fun c jc tke => assemble c jc (column_view dolic_c inputs tke c.blockNo jc))
      dolic_c c s.tke,
    diag := fun d jb k jc =>
      if jb = c.blockNo ∧ (c.start_index ≤ jc ∧ jc ≤ c.end_index) ∧
          (0 ≤ k ∧ k < c.p_constant.nlevs) then
        (if k < dolic_c jb jc then
          physics c jc (column_view dolic_c inputs s.tke jb jc) d k
        else 0)
      else s.diag d jb k jc }

/-- Modelled from the spec: the edge kernel writes the edge viscosity only; it
leaves the TKE and the diagnostic fields as they are. -/
def calc_impl_edges_cell_fields {K : Type} (_c : edges_call K) (s : cell_fields K) :
    cell_fields K := s

/-- Two families of input fields and two TKE fields agree on the active levels of
every column. -/
def agree_on_active {F K : Type} (dolic_c : Int → Int → Int)
    (inputs inputs' : F → Int → Int → Int → K) (tke tke' : Int → Int → Int → K) : Prop :=
  ∀ jb k jc : Int, 0 ≤ k → k < dolic_c jb jc →
    tke jb k jc = tke' jb k jc ∧ ∀ f : F, inputs f jb k jc = inputs' f jb k jc

/-- The relation two runs keep when their inputs agree on the active levels: the
TKE fields agree on the active levels, and every diagnostic entry is the same in
both runs or is, in both, the entry from before the call. -/
def runs_agree {K : Type} (dolic_c : Int → Int → Int) (s0 s0' s s' : cell_fields K) : Prop :=
  (∀ jb k jc : Int, 0 ≤ k → k < dolic_c jb jc → s.tke jb k jc = s'.tke jb k jc) ∧
  (∀ (d : diagnostic) (jb k jc : Int),
    s.diag d jb k jc = s'.diag d jb k jc ∨
      (s.diag d jb k jc = s0.diag d jb k jc ∧ s'.diag d jb k jc = s0'.diag d jb k jc))

/-! ## The loops of `calc_impl` with their `int` counter -/

/-- The loop `for (int jb = start; jb <= end; jb++)` with its 32-bit counter: the
blocks visited in the first `n` evaluations of the loop test, in order, and
whether the loop has exited by then. The increment `jb++` is an `int` addition
and goes through `wrap_int`. -/
def for_blocks_int : Nat → Int → Int → List Int × Bool
  | 0, _, _ => ([], false)
  | n + 1, jb, end_block =>
    if jb ≤ end_block then
      (jb :: (for_blocks_int n (wrap_int (jb + 1)) end_block).1,
       (for_blocks_int n (wrap_int (jb + 1)) end_block).2)
    else ([], true)

/-- The member function `TKE_cpu::calc_impl` with the `int` counters of its two
loops, run for at most `fuel` evaluations of each loop test: the new backend and
the trace of the call when both loops have exited, `none` when the call has not
returned within this bound (the edge loop starts only after the cell loop has
exited). -/
def calc_impl_int {T : Type} (fuel : Nat) (b : TKE_backend T) (a : calc_args) :
    Option (TKE_backend T × List (Event T)) :=
  let s := init_views b a
  let b1 := s.1
  let cells := for_blocks_int fuel a.cells_start_block a.cells_end_block
  if cells.2 = true then
    let edges := for_blocks_int fuel a.edges_start_block a.edges_end_block
    if edges.2 = true then
      some (b1,
        s.2 ++ cells.1.map (fun jb => Event.cells (cells_body b1 a jb))
          ++ edges.1.map (fun jb => Event.edges (edges_body b1 a jb)))
    else none
  else none

/-- The block ranges of a call are ranges of `int`s whose last block is below
`INT_MAX`, so that no increment of a loop counter overflows. -/
def calc_args.blocks_below_int_max (a : calc_args) : Prop :=
  (INT_MIN ≤ a.cells_start_block ∧ a.cells_end_block < INT_MAX) ∧
    (INT_MIN ≤ a.edges_start_block ∧ a.edges_end_block < INT_MAX)

instance (a : calc_args) : Decidable a.blocks_below_int_max := by
  unfold calc_args.blocks_below_int_max; infer_instance

/-- The number of loop-test evaluations within which both loops of a call exit
when no counter overflows: the longer of the two ranges, and one more for the
exit. -/
def calc_args.loop_bound (a : calc_args) : Nat :=
  max ((a.cells_end_block + 1 - a.cells_start_block).toNat + 1)
    ((a.edges_end_block + 1 - a.edges_start_block).toNat + 1)

/-- The call of `main` with the cell range `[INT_MAX, INT_MAX]`. -/
def example_args_int_max : calc_args :=
  { example_args 0 with cells_start_block := 2147483647, cells_end_block := 2147483647 }

/-- The coefficient matrix of a system of `n` levels is nonsingular: with these
coefficients the system has a solution for every right-hand side. -/
def nonsingular {K : Type} [Field K] (s : tridiag K) (n : Nat) : Prop :=
  ∀ d : Nat → K, ∃ x : Nat → K, ∀ k : Nat, k < n → row_lhs s n x k = d k

/-- The discrete Laplacian on three levels, with rows `2 x0 - x1 = 1`,
`-x0 + 2 x1 - x2 = 0`, `-x1 + 2 x2 = 1` and solution `(1, 1, 1)`; its middle row
is dominant without being strictly dominant. -/
def laplacian_system : tridiag ℚ :=
  { a := fun _ => -1, b := fun _ => 2, c := fun _ => -1, d := fun k => if k = 1 then 0 else 1 }

/-! # Theorems -/

/-! ## Loops over blocks -/

theorem for_blocks_eq_range (n : Nat) (jb end_block : Int) :
    for_blocks n jb end_block
      = (List.range (min n (end_block + 1 - jb).toNat)).map (fun i : Nat => jb + (i : Int)) := by
  induction n generalizing jb with
  | zero => simp [for_blocks]
  | succ n ih =>
    unfold for_blocks
    split_ifs with h
    · rw [ih]
      have h1 : (end_block + 1 - jb).toNat = (end_block + 1 - (jb + 1)).toNat + 1 := by omega
      rw [h1, Nat.succ_min_succ, List.range_succ_eq_map]
      simp only [List.map_cons, List.map_map, Nat.cast_zero, add_zero, List.cons.injEq, true_and]
      apply List.map_congr_left
      intro i _
      simp only [Function.comp_apply, Nat.cast_succ]
      ring
    · have h1 : (end_block + 1 - jb).toNat = 0 := by omega
      simp [h1]

theorem block_loop_eq_range (s e : Int) :
    block_loop s e = (List.range (e + 1 - s).toNat).map (fun i : Nat => s + (i : Int)) := by
  unfold block_loop
  rw [for_blocks_eq_range]
  congr 2
  omega

/-- The loop over blocks does not depend on the iteration bound, once the bound
lets the loop reach its exit test. -/
theorem for_blocks_enough (n : Nat) (s e : Int) (h : (e + 1 - s).toNat + 1 ≤ n) :
    for_blocks n s e = block_loop s e := by
  rw [for_blocks_eq_range, block_loop_eq_range]
  congr 2
  omega

theorem mem_block_loop (s e jb : Int) : jb ∈ block_loop s e ↔ s ≤ jb ∧ jb ≤ e := by
  rw [block_loop_eq_range]
  simp only [List.mem_map, List.mem_range]
  constructor
  · rintro ⟨i, hi, rfl⟩
    omega
  · rintro ⟨h1, h2⟩
    exact ⟨(jb - s).toNat, by omega, by omega⟩

theorem block_loop_pairwise (s e : Int) : (block_loop s e).Pairwise (fun x y => x < y) := by
  rw [block_loop_eq_range, List.pairwise_map]
  refine (List.pairwise_lt_range _).imp ?_
  intro a b hab
  omega

theorem block_loop_nodup (s e : Int) : (block_loop s e).Nodup :=
  (block_loop_pairwise s e).imp (fun h => ne_of_lt h)

theorem block_loop_count (s e jb : Int) :
    (block_loop s e).count jb = if s ≤ jb ∧ jb ≤ e then 1 else 0 := by
  split_ifs with h
  · exact List.count_eq_one_of_mem (block_loop_nodup s e) ((mem_block_loop s e jb).2 h)
  · exact List.count_eq_zero_of_not_mem (fun hm => h ((mem_block_loop s e jb).1 hm))

theorem block_loop_empty (s e : Int) (h : e < s) : block_loop s e = [] := by
  rw [block_loop_eq_range]
  have : (e + 1 - s).toNat = 0 := by omega
  simp [this]

theorem block_loop_single (s : Int) : block_loop s s = [s] := by
  rw [block_loop_eq_range]
  have : (s + 1 - s).toNat = 1 := by omega
  rw [this]
  simp [List.range_succ]

/-! ## The trace of `calc_impl` -/

section trace
variable {T : Type}

theorem init_views_flag (b : TKE_backend T) (a : calc_args) :
    (init_views b a).1.m_is_view_init = true := by
  unfold init_views
  cases h : b.m_is_view_init <;> simp [h]

theorem init_views_of_ready (b : TKE_backend T) (a : calc_args)
    (h : b.m_is_view_init = true) : init_views b a = (b, []) := by
  simp [init_views, h]

theorem init_views_of_uninit (b : TKE_backend T) (a : calc_args)
    (h : b.m_is_view_init = false) :
    (init_views b a).1.bundles = built_bundles b.p_constant a ∧
      (init_views b a).2 = built_events b.p_constant a := by
  simp [init_views, h, TKE_backend.bundles, built_bundles, built_events]

theorem init_views_frame (b : TKE_backend T) (a : calc_args) :
    (init_views b a).1.p_constant = b.p_constant ∧
      (init_views b a).1.p_constant_tke = b.p_constant_tke ∧
      (init_views b a).1.p_internal_view = b.p_internal_view := by
  unfold init_views
  cases h : b.m_is_view_init <;> simp [h]

theorem init_views_trace_fill (b : TKE_backend T) (a : calc_args) :
    ∀ e ∈ (init_views b a).2, e.is_fill = true := by
  unfold init_views
  cases h : b.m_is_view_init <;> simp [h, Event.is_fill]

theorem cells_calls_append (l1 l2 : List (Event T)) :
    cells_calls (l1 ++ l2) = cells_calls l1 ++ cells_calls l2 := by
  induction l1 with
  | nil => rfl
  | cons e l ih => cases e <;> simp [cells_calls, ih]

theorem edges_calls_append (l1 l2 : List (Event T)) :
    edges_calls (l1 ++ l2) = edges_calls l1 ++ edges_calls l2 := by
  induction l1 with
  | nil => rfl
  | cons e l ih => cases e <;> simp [edges_calls, ih]

theorem cells_calls_of_fill (l : List (Event T)) (h : ∀ e ∈ l, e.is_fill = true) :
    cells_calls l = [] := by
  induction l with
  | nil => rfl
  | cons e l ih =>
    have he := h e (List.mem_cons_self _ _)
    have hl := ih (fun x hx => h x (List.mem_cons_of_mem _ hx))
    cases e <;> simp_all [cells_calls, Event.is_fill]

theorem edges_calls_of_fill (l : List (Event T)) (h : ∀ e ∈ l, e.is_fill = true) :
    edges_calls l = [] := by
  induction l with
  | nil => rfl
  | cons e l ih =>
    have he := h e (List.mem_cons_self _ _)
    have hl := ih (fun x hx => h x (List.mem_cons_of_mem _ hx))
    cases e <;> simp_all [edges_calls, Event.is_fill]

theorem cells_calls_map_cells (l : List (cells_call T)) :
    cells_calls (l.map Event.cells) = l := by
  induction l with
  | nil => rfl
  | cons c l ih => simp [cells_calls, ih]

theorem cells_calls_map_edges (l : List (edges_call T)) :
    cells_calls (l.map Event.edges) = [] := by
  induction l with
  | nil => rfl
  | cons c l ih => simp [cells_calls, ih]

theorem edges_calls_map_edges (l : List (edges_call T)) :
    edges_calls (l.map Event.edges) = l := by
  induction l with
  | nil => rfl
  | cons c l ih => simp [edges_calls, ih]

theorem edges_calls_map_cells (l : List (cells_call T)) :
    edges_calls (l.map Event.cells) = [] := by
  induction l with
  | nil => rfl
  | cons c l ih => simp [edges_calls, ih]

theorem calc_impl_fst (b : TKE_backend T) (a : calc_args) :
    (calc_impl b a).1 = (init_views b a).1 := rfl

theorem calc_impl_snd (b : TKE_backend T) (a : calc_args) :
    (calc_impl b a).2 = (init_views b a).2
      ++ (block_loop a.cells_start_block a.cells_end_block).map
          (fun jb => Event.cells (cells_body (init_views b a).1 a jb))
      ++ (block_loop a.edges_start_block a.edges_end_block).map
          (fun jb => Event.edges (edges_body (init_views b a).1 a jb)) := rfl

theorem cells_calls_calc_impl (b : TKE_backend T) (a : calc_args) :
    cells_calls (calc_impl b a).2
      = (block_loop a.cells_start_block a.cells_end_block).map
          (cells_body (init_views b a).1 a) := by
  rw [calc_impl_snd, cells_calls_append, cells_calls_append,
    cells_calls_of_fill _ (init_views_trace_fill b a)]
  have hc : ∀ (f : Int → cells_call T) (l : List Int),
      l.map (fun jb => Event.cells (f jb)) = (l.map f).map Event.cells := by
    intro f l; rw [List.map_map]; rfl
  have he : ∀ (f : Int → edges_call T) (l : List Int),
      l.map (fun jb => Event.edges (f jb)) = (l.map f).map Event.edges := by
    intro f l; rw [List.map_map]; rfl
  rw [hc, he, cells_calls_map_cells, cells_calls_map_edges]
  simp

theorem edges_calls_calc_impl (b : TKE_backend T) (a : calc_args) :
    edges_calls (calc_impl b a).2
      = (block_loop a.edges_start_block a.edges_end_block).map
          (edges_body (init_views b a).1 a) := by
  rw [calc_impl_snd, edges_calls_append, edges_calls_append,
    edges_calls_of_fill _ (init_views_trace_fill b a)]
  have hc : ∀ (f : Int → cells_call T) (l : List Int),
      l.map (fun jb => Event.cells (f jb)) = (l.map f).map Event.cells := by
    intro f l; rw [List.map_map]; rfl
  have he : ∀ (f : Int → edges_call T) (l : List Int),
      l.map (fun jb => Event.edges (f jb)) = (l.map f).map Event.edges := by
    intro f l; rw [List.map_map]; rfl
  rw [hc, he, edges_calls_map_cells, edges_calls_map_edges]
  simp

theorem kernel_calls_calc_impl (b : TKE_backend T) (a : calc_args) :
    kernel_calls (calc_impl b a).2
      = (block_loop a.cells_start_block a.cells_end_block).map
          (fun jb => Event.cells (cells_body (init_views b a).1 a jb))
        ++ (block_loop a.edges_start_block a.edges_end_block).map
          (fun jb => Event.edges (edges_body (init_views b a).1 a jb)) := by
  rw [calc_impl_snd]
  unfold kernel_calls
  rw [List.filter_append, List.filter_append]
  have h1 : List.filter (fun e : Event T => !e.is_fill) (init_views b a).2 = [] := by
    rw [List.filter_eq_nil_iff]
    intro e he
    simp [init_views_trace_fill b a e he]
  rw [h1, List.nil_append]
  congr 1
  · rw [List.filter_eq_self]
    intro e he
    rw [List.mem_map] at he
    obtain ⟨jb, _, rfl⟩ := he
    rfl
  · rw [List.filter_eq_self]
    intro e he
    rw [List.mem_map] at he
    obtain ⟨jb, _, rfl⟩ := he
    rfl

theorem fill_calls_calc_impl (b : TKE_backend T) (a : calc_args) :
    fill_calls (calc_impl b a).2 = (init_views b a).2 := by
  rw [calc_impl_snd]
  unfold fill_calls
  rw [List.filter_append, List.filter_append]
  have h1 : List.filter (fun e : Event T => e.is_fill) (init_views b a).2
      = (init_views b a).2 := by
    rw [List.filter_eq_self]
    exact init_views_trace_fill b a
  have h2 : ∀ l : List Int, List.filter (fun e : Event T => e.is_fill)
      (l.map (fun jb => Event.cells (cells_body (init_views b a).1 a jb))) = [] := by
    intro l
    rw [List.filter_eq_nil_iff]
    intro e he
    rw [List.mem_map] at he
    obtain ⟨jb, _, rfl⟩ := he
    simp [Event.is_fill]
  have h3 : ∀ l : List Int, List.filter (fun e : Event T => e.is_fill)
      (l.map (fun jb => Event.edges (edges_body (init_views b a).1 a jb))) = [] := by
    intro l
    rw [List.filter_eq_nil_iff]
    intro e he
    rw [List.mem_map] at he
    obtain ⟨jb, _, rfl⟩ := he
    simp [Event.is_fill]
  rw [h1, h2, h3]
  simp

end trace

/-! ## Sequences of `calc_impl` calls -/

section sequences
variable {T : Type}

theorem calc_impl_of_ready (s : TKE_backend T) (a : calc_args)
    (hs : s.m_is_view_init = true) : (calc_impl s a).1 = s := by
  rw [calc_impl_fst, init_views_of_ready s a hs]

theorem calc_states_flag (b : TKE_backend T) (calls : List calc_args) :
    ∀ s ∈ calc_states b calls, s.m_is_view_init = true := by
  induction calls generalizing b with
  | nil => intro s hs; simp [calc_states] at hs
  | cons a rest ih =>
    intro s hs
    simp only [calc_states, List.mem_cons] at hs
    rcases hs with rfl | hs
    · exact init_views_flag b a
    · exact ih _ s hs

theorem calc_states_of_ready (s : TKE_backend T) (hs : s.m_is_view_init = true)
    (rest : List calc_args) : ∀ q ∈ calc_states s rest, q = s := by
  induction rest with
  | nil => intro q hq; simp [calc_states] at hq
  | cons a rest ih =>
    intro q hq
    simp only [calc_states, List.mem_cons] at hq
    rw [calc_impl_of_ready s a hs] at hq
    rcases hq with rfl | hq
    · rfl
    · exact ih q hq

theorem cells_bundles_calc_impl (b : TKE_backend T) (a : calc_args) :
    ∀ c ∈ cells_calls (calc_impl b a).2, c.bundles = (calc_impl b a).1.bundles := by
  intro c hc
  rw [cells_calls_calc_impl, List.mem_map] at hc
  obtain ⟨jb, _, rfl⟩ := hc
  rfl

theorem edges_bundles_calc_impl (b : TKE_backend T) (a : calc_args) :
    ∀ c ∈ edges_calls (calc_impl b a).2,
      c.p_patch = (calc_impl b a).1.bundles.p_patch ∧
        c.p_cvmix = (calc_impl b a).1.bundles.p_cvmix := by
  intro c hc
  rw [edges_calls_calc_impl, List.mem_map] at hc
  obtain ⟨jb, _, rfl⟩ := hc
  exact ⟨rfl, rfl⟩

theorem calc_seq_of_ready (s : TKE_backend T) (hs : s.m_is_view_init = true)
    (rest : List calc_args) :
    ∀ tr ∈ (calc_seq s rest).2,
      fill_calls tr = [] ∧ (∀ c ∈ cells_calls tr, c.bundles = s.bundles) ∧
        (∀ c ∈ edges_calls tr,
          c.p_patch = s.bundles.p_patch ∧ c.p_cvmix = s.bundles.p_cvmix) := by
  induction rest with
  | nil => intro tr htr; simp [calc_seq] at htr
  | cons a rest ih =>
    intro tr htr
    simp only [calc_seq, List.mem_cons] at htr
    rcases htr with rfl | htr
    · refine ⟨?_, ?_, ?_⟩
      · rw [fill_calls_calc_impl, init_views_of_ready s a hs]
      · have h := cells_bundles_calc_impl s a
        rw [calc_impl_of_ready s a hs] at h
        exact h
      · have h := edges_bundles_calc_impl s a
        rw [calc_impl_of_ready s a hs] at h
        exact h
    · rw [calc_impl_of_ready s a hs] at htr
      exact ih tr htr

theorem run_trace_kernel_calls {M : Type} (cell_kernel : cells_call T → M → M)
    (edge_kernel : edges_call T → M → M) (tr : List (Event T)) (m : M) :
    run_trace cell_kernel edge_kernel (kernel_calls tr) m
      = run_trace cell_kernel edge_kernel tr m := by
  unfold run_trace kernel_calls
  induction tr generalizing m with
  | nil => rfl
  | cons e tr ih =>
    cases he : e.is_fill
    · simp only [List.filter_cons, he, Bool.not_false, if_true, List.foldl_cons]
      exact ih _
    · have hrun : run_event cell_kernel edge_kernel e m = m := by
        cases e <;> simp_all [Event.is_fill, run_event]
      simp only [List.filter_cons, he, Bool.not_true, Bool.false_eq_true, if_false,
        List.foldl_cons, hrun]
      exact ih m

end sequences

/-! ## The loops with their `int` counter -/

theorem wrap_int_of_range (x : Int) (h1 : INT_MIN ≤ x) (h2 : x ≤ INT_MAX) : wrap_int x = x := by
  unfold wrap_int
  unfold INT_MIN at h1
  unfold INT_MAX at h2
  omega

theorem wrap_int_range (x : Int) : INT_MIN ≤ wrap_int x ∧ wrap_int x ≤ INT_MAX := by
  unfold wrap_int INT_MIN INT_MAX
  omega

theorem block_loop_cons (s e : Int) (h : s ≤ e) : block_loop s e = s :: block_loop (s + 1) e := by
  rw [block_loop_eq_range, block_loop_eq_range]
  have h1 : (e + 1 - s).toNat = (e + 1 - (s + 1)).toNat + 1 := by omega
  rw [h1, List.range_succ_eq_map]
  simp only [List.map_cons, List.map_map, Nat.cast_zero, add_zero, List.cons.injEq, true_and]
  apply List.map_congr_left
  intro i _
  simp only [Function.comp_apply, Nat.cast_succ]
  ring

/-- Below `INT_MAX` the loop with the `int` counter exits, within the bound of
`block_loop`, and has visited the blocks of `block_loop`. -/
theorem for_blocks_int_exits (n : Nat) (s e : Int) (hs : INT_MIN ≤ s) (he : e < INT_MAX)
    (hn : (e + 1 - s).toNat + 1 ≤ n) : for_blocks_int n s e = (block_loop s e, true) := by
  induction n generalizing s with
  | zero => omega
  | succ n ih =>
    unfold for_blocks_int
    by_cases h : s ≤ e
    · have hw : wrap_int (s + 1) = s + 1 := wrap_int_of_range (s + 1) (by omega) (by omega)
      rw [if_pos h, hw, ih (s + 1) (by omega) (by omega), block_loop_cons s e h]
    · rw [if_neg h, block_loop_empty s e (by omega)]

/-- With `end_block = INT_MAX` the loop with the `int` counter never exits: after
any number of evaluations of its test it has not exited, and every evaluation
was followed by a kernel invocation. -/
theorem for_blocks_int_never_exits (n : Nat) (jb : Int) (h1 : INT_MIN ≤ jb)
    (h2 : jb ≤ INT_MAX) :
    (for_blocks_int n jb INT_MAX).2 = false ∧ (for_blocks_int n jb INT_MAX).1.length = n := by
  induction n generalizing jb with
  | zero => exact ⟨rfl, rfl⟩
  | succ n ih =>
    unfold for_blocks_int
    rw [if_pos h2]
    have hr := wrap_int_range (jb + 1)
    have := ih (wrap_int (jb + 1)) hr.1 hr.2
    exact ⟨this.1, by simp [this.2]⟩

section int_loops
variable {T : Type}

/-- When the last blocks of both ranges are below `INT_MAX`, `calc_impl` with the
`int` counters returns, and returns what `calc_impl` gives. -/
theorem calc_impl_int_returns (b : TKE_backend T) (a : calc_args)
    (h : a.blocks_below_int_max) (fuel : Nat) (hf : a.loop_bound ≤ fuel) :
    calc_impl_int fuel b a = some (calc_impl b a) := by
  unfold calc_args.loop_bound at hf
  have hc := for_blocks_int_exits fuel a.cells_start_block a.cells_end_block h.1.1 h.1.2
    (le_trans (le_max_left _ _) hf)
  have he := for_blocks_int_exits fuel a.edges_start_block a.edges_end_block h.2.1 h.2.2
    (le_trans (le_max_right _ _) hf)
  unfold calc_impl_int calc_impl
  simp only [hc, he, if_true]

/-- When the cell range ends at `INT_MAX`, `calc_impl` with the `int` counters does
not return, whatever the bound. -/
theorem calc_impl_int_never_returns (b : TKE_backend T) (a : calc_args)
    (h1 : INT_MIN ≤ a.cells_start_block) (h2 : a.cells_start_block ≤ INT_MAX)
    (h3 : a.cells_end_block = INT_MAX) (fuel : Nat) : calc_impl_int fuel b a = none := by
  have hc := (for_blocks_int_never_exits fuel a.cells_start_block h1 h2).1
  unfold calc_impl_int
  simp only [h3, hc, Bool.false_eq_true, if_false]

end int_loops

/-! ## The claims on the dispatch of `calc_impl` -/

section dispatch
variable {T : Type}

/-- C1: the views-ready flag is a two-state machine. After any `calc_impl` call
the flag is true; along every sequence of calls on one backend the flag is true
after the first call and after every later one; and a call on a backend in any
of these states makes no transition (it leaves the backend as it is and
constructs no view). -/
theorem views_ready_two_state (b : TKE_backend T) (calls : List calc_args) :
    (∀ a : calc_args, (calc_impl b a).1.m_is_view_init = true) ∧
    (∀ s ∈ calc_states b calls, s.m_is_view_init = true) ∧
    (∀ s ∈ calc_states b calls, ∀ a : calc_args,
      init_views s a = (s, []) ∧ (calc_impl s a).1 = s) := by
  refine ⟨fun a => init_views_flag b a, calc_states_flag b calls, ?_⟩
  intro s hs a
  have h := calc_states_flag b calls s hs
  exact ⟨init_views_of_ready s a h, calc_impl_of_ready s a h⟩

/-- C2: on a backend whose views are not built yet, a sequence of calls `a ::
rest` builds the six bundles of external views exactly once: the first call
makes the six constructions over its own pointers, no later call makes any; the
backend holds the bundles of the first call after every call of the sequence;
and every kernel invocation of every call receives the bundles of the first
call, whatever the pointers of the later calls are. -/
theorem views_built_once (b : TKE_backend T) (a : calc_args) (rest : List calc_args)
    (h : b.m_is_view_init = false) :
    fill_calls (calc_impl b a).2 = built_events b.p_constant a ∧
    (∀ tr ∈ (calc_seq (calc_impl b a).1 rest).2, fill_calls tr = []) ∧
    (∀ s ∈ calc_states b (a :: rest), s.bundles = built_bundles b.p_constant a) ∧
    (∀ tr ∈ (calc_seq b (a :: rest)).2,
      (∀ c ∈ cells_calls tr, c.bundles = built_bundles b.p_constant a) ∧
      (∀ c ∈ edges_calls tr,
        c.p_patch = (built_bundles b.p_constant a).p_patch ∧
          c.p_cvmix = (built_bundles b.p_constant a).p_cvmix)) := by
  have hready : (calc_impl b a).1.m_is_view_init = true := init_views_flag b a
  have hb : (calc_impl b a).1.bundles = built_bundles b.p_constant a :=
    (init_views_of_uninit b a h).1
  refine ⟨?_, ?_, ?_, ?_⟩
  · rw [fill_calls_calc_impl]
    exact (init_views_of_uninit b a h).2
  · intro tr htr
    exact (calc_seq_of_ready _ hready rest tr htr).1
  · intro s hs
    simp only [calc_states, List.mem_cons] at hs
    rcases hs with rfl | hs
    · exact hb
    · rw [calc_states_of_ready _ hready rest s hs]
      exact hb
  · intro tr htr
    simp only [calc_seq, List.mem_cons] at htr
    rcases htr with rfl | htr
    · refine ⟨?_, ?_⟩
      · intro c hc
        rw [cells_bundles_calc_impl b a c hc, hb]
      · intro c hc
        have := edges_bundles_calc_impl b a c hc
        rw [hb] at this
        exact this
    · have := calc_seq_of_ready _ hready rest tr htr
      rw [hb] at this
      exact ⟨this.2.1, this.2.2⟩

/-- C3, for block ranges that end below `INT_MAX`: when the block ranges of the
call are ranges of `int`s with `cells_end_block < INT_MAX` and `edges_end_block <
INT_MAX`, the call with the `int` loop counters returns, with the trace of
`calc_impl`; in it the cell kernel is invoked exactly once for each block `jb`
with `cells_start_block <= jb <= cells_end_block` and for no other block, in
ascending order of `jb`; the same holds for the edge kernel and the edge block
range; and every cell-kernel invocation precedes every edge-kernel invocation. -/
theorem block_visits (b : TKE_backend T) (a : calc_args) (h : a.blocks_below_int_max) :
    (∀ fuel : Nat, a.loop_bound ≤ fuel → calc_impl_int fuel b a = some (calc_impl b a)) ∧
    (∀ jb : Int, ((cells_calls (calc_impl b a).2).map (fun c => c.blockNo)).count jb
        = if a.cells_start_block ≤ jb ∧ jb ≤ a.cells_end_block then 1 else 0) ∧
    ((cells_calls (calc_impl b a).2).map (fun c => c.blockNo)).Pairwise (fun x y => x < y) ∧
    (∀ jb : Int, ((edges_calls (calc_impl b a).2).map (fun c => c.blockNo)).count jb
        = if a.edges_start_block ≤ jb ∧ jb ≤ a.edges_end_block then 1 else 0) ∧
    ((edges_calls (calc_impl b a).2).map (fun c => c.blockNo)).Pairwise (fun x y => x < y) ∧
    kernel_calls (calc_impl b a).2
      = (cells_calls (calc_impl b a).2).map Event.cells
        ++ (edges_calls (calc_impl b a).2).map Event.edges := by
  have hc : (cells_calls (calc_impl b a).2).map (fun c => c.blockNo)
      = block_loop a.cells_start_block a.cells_end_block := by
    rw [cells_calls_calc_impl, List.map_map]
    exact List.map_id _
  have he : (edges_calls (calc_impl b a).2).map (fun c => c.blockNo)
      = block_loop a.edges_start_block a.edges_end_block := by
    rw [edges_calls_calc_impl, List.map_map]
    exact List.map_id _
  rw [hc, he]
  refine ⟨fun fuel hf => calc_impl_int_returns b a h fuel hf,
    fun jb => block_loop_count _ _ jb, block_loop_pairwise _ _,
    fun jb => block_loop_count _ _ jb, block_loop_pairwise _ _, ?_⟩
  rw [kernel_calls_calc_impl, cells_calls_calc_impl, edges_calls_calc_impl,
    List.map_map, List.map_map]
  rfl

/-- C4: the in-block column range handed to a kernel is clamped only at the
first and the last block. Every block of the cell range gets one cell-kernel
invocation, and every cell-kernel invocation for block `jb` has `start_index =
cells_start_index` when `jb = cells_start_block` and `0` otherwise, and
`end_index = cells_end_index` when `jb = cells_end_block` and `cells_block_size -
1` otherwise; the same for edges. When first and last block coincide the only
invocation has the range `[start_index, end_index]`, whatever the block size;
the call of the example invokes each kernel once, on block `0` with range
`[0, 24]`. -/
theorem index_range_clamped (b : TKE_backend T) (a : calc_args) :
    (∀ jb : Int, a.cells_start_block ≤ jb → jb ≤ a.cells_end_block →
      ∃ c ∈ cells_calls (calc_impl b a).2, c.blockNo = jb) ∧
    (∀ c ∈ cells_calls (calc_impl b a).2,
      c.start_index = (if c.blockNo = a.cells_start_block then a.cells_start_index else 0) ∧
      c.end_index
        = (if c.blockNo = a.cells_end_block then a.cells_end_index
            else a.cells_block_size - 1)) ∧
    (∀ jb : Int, a.edges_start_block ≤ jb → jb ≤ a.edges_end_block →
      ∃ c ∈ edges_calls (calc_impl b a).2, c.blockNo = jb) ∧
    (∀ c ∈ edges_calls (calc_impl b a).2,
      c.start_index = (if c.blockNo = a.edges_start_block then a.edges_start_index else 0) ∧
      c.end_index
        = (if c.blockNo = a.edges_end_block then a.edges_end_index
            else a.edges_block_size - 1)) ∧
    (a.cells_start_block = a.cells_end_block →
      (cells_calls (calc_impl b a).2).map cells_call.range
        = [(a.cells_start_block, a.cells_start_index, a.cells_end_index)]) ∧
    (a.edges_start_block = a.edges_end_block →
      (edges_calls (calc_impl b a).2).map edges_call.range
        = [(a.edges_start_block, a.edges_start_index, a.edges_end_index)]) ∧
    (cells_calls (calc_impl example_backend (example_args 0)).2).map cells_call.range
      = [(0, 0, 24)] ∧
    (edges_calls (calc_impl example_backend (example_args 0)).2).map edges_call.range
      = [(0, 0, 24)] := by
  have single_c : ∀ (b : TKE_backend T) (a : calc_args),
      a.cells_start_block = a.cells_end_block →
      (cells_calls (calc_impl b a).2).map cells_call.range
        = [(a.cells_start_block, a.cells_start_index, a.cells_end_index)] := by
    intro b a h
    rw [cells_calls_calc_impl, ← h, block_loop_single]
    simp [cells_body, get_index_range, cells_call.range, h]
  have single_e : ∀ (b : TKE_backend T) (a : calc_args),
      a.edges_start_block = a.edges_end_block →
      (edges_calls (calc_impl b a).2).map edges_call.range
        = [(a.edges_start_block, a.edges_start_index, a.edges_end_index)] := by
    intro b a h
    rw [edges_calls_calc_impl, ← h, block_loop_single]
    simp [edges_body, get_index_range, edges_call.range, h]
  refine ⟨?_, ?_, ?_, ?_, single_c b a, single_e b a, ?_, ?_⟩
  · intro jb h1 h2
    rw [cells_calls_calc_impl]
    exact ⟨cells_body (init_views b a).1 a jb,
      List.mem_map.2 ⟨jb, (mem_block_loop _ _ jb).2 ⟨h1, h2⟩, rfl⟩, rfl⟩
  · intro c hc
    rw [cells_calls_calc_impl, List.mem_map] at hc
    obtain ⟨jb, _, rfl⟩ := hc
    exact ⟨rfl, rfl⟩
  · intro jb h1 h2
    rw [edges_calls_calc_impl]
    exact ⟨edges_body (init_views b a).1 a jb,
      List.mem_map.2 ⟨jb, (mem_block_loop _ _ jb).2 ⟨h1, h2⟩, rfl⟩, rfl⟩
  · intro c hc
    rw [edges_calls_calc_impl, List.mem_map] at hc
    obtain ⟨jb, _, rfl⟩ := hc
    exact ⟨rfl, rfl⟩
  · rw [cells_calls_calc_impl]
    decide
  · rw [edges_calls_calc_impl]
    decide

/-- C8: calling `calc_impl` twice with the same arguments. The second call issues
the same sequence of kernel invocations as the first (an invocation records its
block, in-block range, views, scratch views and constants); it constructs no
view and leaves the backend as the first call left it; the first call changes
nothing of the backend but the flag and the six bundles of external views; and
for any two kernels, run from the same buffer contents the two calls produce
the same buffer contents. -/
theorem calc_twice (b : TKE_backend T) (a : calc_args) :
    kernel_calls (calc_impl (calc_impl b a).1 a).2 = kernel_calls (calc_impl b a).2 ∧
    fill_calls (calc_impl (calc_impl b a).1 a).2 = [] ∧
    (calc_impl (calc_impl b a).1 a).1 = (calc_impl b a).1 ∧
    ((calc_impl b a).1.p_constant = b.p_constant ∧
      (calc_impl b a).1.p_constant_tke = b.p_constant_tke ∧
      (calc_impl b a).1.p_internal_view = b.p_internal_view) ∧
    (∀ (M : Type) (cell_kernel : cells_call T → M → M) (edge_kernel : edges_call T → M → M)
      (m : M),
      run_trace cell_kernel edge_kernel (calc_impl (calc_impl b a).1 a).2 m
        = run_trace cell_kernel edge_kernel (calc_impl b a).2 m) := by
  have hready : (calc_impl b a).1.m_is_view_init = true := init_views_flag b a
  have hk : kernel_calls (calc_impl (calc_impl b a).1 a).2 = kernel_calls (calc_impl b a).2 := by
    rw [kernel_calls_calc_impl, kernel_calls_calc_impl, init_views_of_ready _ a hready]
    rfl
  refine ⟨hk, ?_, calc_impl_of_ready _ a hready, init_views_frame b a, ?_⟩
  · rw [fill_calls_calc_impl, init_views_of_ready _ a hready]
  · intro M ck ek m
    rw [← run_trace_kernel_calls ck ek (calc_impl (calc_impl b a).1 a).2, hk,
      run_trace_kernel_calls]

end dispatch

/-! ## Views over caller buffers -/

theorem radix_unique (n q r q' r' : Int) (hr : 0 ≤ r) (hrn : r < n) (hr' : 0 ≤ r')
    (hrn' : r' < n) (h : q * n + r = q' * n + r') : q = q' ∧ r = r' := by
  have hn : n ≠ 0 := by omega
  have e1 : (q * n + r) / n = q := by
    rw [Int.add_comm, Int.add_mul_ediv_right _ _ hn, Int.ediv_eq_zero_of_lt hr hrn, zero_add]
  have e2 : (q' * n + r') / n = q' := by
    rw [Int.add_comm, Int.add_mul_ediv_right _ _ hn, Int.ediv_eq_zero_of_lt hr' hrn', zero_add]
  have hq : q = q' := by rw [← e1, ← e2, h]
  subst hq
  exact ⟨rfl, by omega⟩

theorem offset_2d_exact (data : Ptr) (nblocks nproma jb jc : Int)
    (hN : nproma * nblocks ≤ INT_MAX)
    (hjb : 0 ≤ jb ∧ jb < nblocks) (hjc : 0 ≤ jc ∧ jc < nproma) :
    (cpu_mdspan_impl.memview_2d data nblocks nproma).offset jb jc = jb * nproma + jc ∧
      0 ≤ jb * nproma + jc ∧ jb * nproma + jc < nproma * nblocks := by
  have h0 : 0 ≤ jb * nproma := mul_nonneg hjb.1 (by omega)
  have h1 : jb * nproma ≤ (nblocks - 1) * nproma :=
    mul_le_mul_of_nonneg_right (by omega) (by omega)
  have h2 : (nblocks - 1) * nproma = nproma * nblocks - nproma := by ring
  have hmin : INT_MIN ≤ 0 := by unfold INT_MIN; omega
  refine ⟨?_, by omega, by omega⟩
  unfold mdspan_2d.offset cpu_mdspan_impl.memview_2d
  simp only
  rw [wrap_int_of_range (jb * nproma) (by omega) (by omega),
    wrap_int_of_range (jb * nproma + jc) (by omega) (by omega)]

theorem offset_3d_exact (data : Ptr) (nblocks nlevs nproma jb jk jc : Int)
    (hN : nproma * nlevs * nblocks ≤ INT_MAX)
    (hjb : 0 ≤ jb ∧ jb < nblocks) (hjk : 0 ≤ jk ∧ jk < nlevs) (hjc : 0 ≤ jc ∧ jc < nproma) :
    (cpu_mdspan_impl.memview_3d data nblocks nlevs nproma).offset jb jk jc
        = (jb * nlevs + jk) * nproma + jc ∧
      0 ≤ (jb * nlevs + jk) * nproma + jc ∧
      (jb * nlevs + jk) * nproma + jc < nproma * nlevs * nblocks := by
  have h0 : 0 ≤ jb * nlevs := mul_nonneg hjb.1 (by omega)
  have h1 : jb * nlevs ≤ (nblocks - 1) * nlevs :=
    mul_le_mul_of_nonneg_right (by omega) (by omega)
  have h2 : (nblocks - 1) * nlevs = nlevs * nblocks - nlevs := by ring
  have h3 : 0 ≤ (jb * nlevs + jk) * nproma := mul_nonneg (by omega) (by omega)
  have h4 : (jb * nlevs + jk) * nproma ≤ (nlevs * nblocks - 1) * nproma :=
    mul_le_mul_of_nonneg_right (by omega) (by omega)
  have h5 : (nlevs * nblocks - 1) * nproma = nproma * nlevs * nblocks - nproma := by ring
  have h6 : jb * nlevs + jk ≤ (jb * nlevs + jk) * nproma := by
    have : (jb * nlevs + jk) * 1 ≤ (jb * nlevs + jk) * nproma :=
      mul_le_mul_of_nonneg_left (by omega) (by omega)
    omega
  have hmin : INT_MIN ≤ 0 := by unfold INT_MIN; omega
  refine ⟨?_, by omega, by omega⟩
  unfold mdspan_3d.offset cpu_mdspan_impl.memview_3d
  simp only
  rw [wrap_int_of_range (jb * nlevs) (by omega) (by omega),
    wrap_int_of_range (jb * nlevs + jk) (by omega) (by omega),
    wrap_int_of_range ((jb * nlevs + jk) * nproma) (by omega) (by omega),
    wrap_int_of_range ((jb * nlevs + jk) * nproma + jc) (by omega) (by omega)]

theorem memview_2d_addresses (data : Ptr) (nblocks nproma : Int)
    (_hb : 0 ≤ nblocks) (hp : 0 ≤ nproma) (hN : nproma * nblocks ≤ INT_MAX) :
    (cpu_mdspan_impl.memview_2d data nblocks nproma).addresses (nproma * nblocks) := by
  unfold mdspan_2d.addresses
  refine ⟨?_, ?_, ?_⟩
  · rintro ⟨jb, jc⟩ ⟨hjb, hjc⟩
    have h := offset_2d_exact data nblocks nproma jb jc hN hjb hjc
    simp only [Set.mem_Ico]
    rw [h.1]
    exact h.2
  · rintro ⟨jb, jc⟩ ⟨hjb, hjc⟩ ⟨jb', jc'⟩ ⟨hjb', hjc'⟩ heq
    have h := offset_2d_exact data nblocks nproma jb jc hN hjb hjc
    have h' := offset_2d_exact data nblocks nproma jb' jc' hN hjb' hjc'
    simp only [h.1, h'.1] at heq
    have hj : 0 ≤ jc ∧ jc < nproma := hjc
    have hj' : 0 ≤ jc' ∧ jc' < nproma := hjc'
    obtain ⟨e1, e2⟩ := radix_unique nproma jb jc jb' jc' hj.1 hj.2 hj'.1 hj'.2 heq
    simp [e1, e2]
  · intro o ho
    simp only [Set.mem_Ico] at ho
    have hp0 : 0 < nproma := by
      rcases eq_or_lt_of_le hp with h | h
      · rw [← h] at ho; simp at ho; omega
      · exact h
    have hjc : 0 ≤ o % nproma ∧ o % nproma < nproma :=
      ⟨Int.emod_nonneg _ (ne_of_gt hp0), Int.emod_lt_of_pos _ hp0⟩
    have hjb : 0 ≤ o / nproma ∧ o / nproma < nblocks :=
      ⟨Int.ediv_nonneg ho.1 hp, Int.ediv_lt_of_lt_mul hp0 (by rw [mul_comm]; exact ho.2)⟩
    refine ⟨(o / nproma, o % nproma), ⟨hjb, hjc⟩, ?_⟩
    have h := offset_2d_exact data nblocks nproma _ _ hN hjb hjc
    simp only [h.1]
    have := Int.ediv_add_emod o nproma
    rw [mul_comm]
    exact this

theorem memview_3d_addresses (data : Ptr) (nblocks nlevs nproma : Int)
    (_hb : 0 ≤ nblocks) (hl : 0 ≤ nlevs) (hp : 0 ≤ nproma)
    (hN : nproma * nlevs * nblocks ≤ INT_MAX) :
    (cpu_mdspan_impl.memview_3d data nblocks nlevs nproma).addresses
      (nproma * nlevs * nblocks) := by
  unfold mdspan_3d.addresses
  refine ⟨?_, ?_, ?_⟩
  · rintro ⟨jb, jk, jc⟩ ⟨hjb, hjk, hjc⟩
    have h := offset_3d_exact data nblocks nlevs nproma jb jk jc hN hjb hjk hjc
    simp only [Set.mem_Ico]
    rw [h.1]
    exact h.2
  · rintro ⟨jb, jk, jc⟩ ⟨hjb, hjk, hjc⟩ ⟨jb', jk', jc'⟩ ⟨hjb', hjk', hjc'⟩ heq
    have h := offset_3d_exact data nblocks nlevs nproma jb jk jc hN hjb hjk hjc
    have h' := offset_3d_exact data nblocks nlevs nproma jb' jk' jc' hN hjb' hjk' hjc'
    simp only [h.1, h'.1] at heq
    have hj : 0 ≤ jc ∧ jc < nproma := hjc
    have hj' : 0 ≤ jc' ∧ jc' < nproma := hjc'
    have hk : 0 ≤ jk ∧ jk < nlevs := hjk
    have hk' : 0 ≤ jk' ∧ jk' < nlevs := hjk'
    obtain ⟨e1, e2⟩ := radix_unique nproma _ jc _ jc' hj.1 hj.2 hj'.1 hj'.2 heq
    obtain ⟨e3, e4⟩ := radix_unique nlevs jb jk jb' jk' hk.1 hk.2 hk'.1 hk'.2 e1
    simp [e2, e3, e4]
  · intro o ho
    simp only [Set.mem_Ico] at ho
    have hp0 : 0 < nproma := by
      rcases eq_or_lt_of_le hp with h | h
      · rw [← h] at ho; simp at ho; omega
      · exact h
    have hl0 : 0 < nlevs := by
      rcases eq_or_lt_of_le hl with h | h
      · rw [← h] at ho; simp at ho; omega
      · exact h
    have hjc : 0 ≤ o % nproma ∧ o % nproma < nproma :=
      ⟨Int.emod_nonneg _ (ne_of_gt hp0), Int.emod_lt_of_pos _ hp0⟩
    have hq : 0 ≤ o / nproma ∧ o / nproma < nlevs * nblocks :=
      ⟨Int.ediv_nonneg ho.1 hp,
        Int.ediv_lt_of_lt_mul hp0 (by
          have : nlevs * nblocks * nproma = nproma * nlevs * nblocks := by ring
          rw [this]; exact ho.2)⟩
    have hjk : 0 ≤ o / nproma % nlevs ∧ o / nproma % nlevs < nlevs :=
      ⟨Int.emod_nonneg _ (ne_of_gt hl0), Int.emod_lt_of_pos _ hl0⟩
    have hjb : 0 ≤ o / nproma / nlevs ∧ o / nproma / nlevs < nblocks :=
      ⟨Int.ediv_nonneg hq.1 hl, Int.ediv_lt_of_lt_mul hl0 (by rw [mul_comm]; exact hq.2)⟩
    refine ⟨(o / nproma / nlevs, o / nproma % nlevs, o % nproma), ⟨hjb, hjk, hjc⟩, ?_⟩
    have h := offset_3d_exact data nblocks nlevs nproma _ _ _ hN hjb hjk hjc
    simp only [h.1]
    have e1 := Int.ediv_add_emod (o / nproma) nlevs
    have e2 := Int.ediv_add_emod o nproma
    have e3 : o / nproma / nlevs * nlevs + o / nproma % nlevs = o / nproma := by
      rw [mul_comm]; exact e1
    rw [e3, mul_comm]
    exact e2

theorem memview_1d_addresses (data : Ptr) (nlevs : Int) :
    (cpu_mdspan_impl.memview_1d data nlevs).addresses nlevs := by
  unfold mdspan_1d.addresses
  refine ⟨?_, ?_, ?_⟩
  · intro jk hjk
    exact hjk
  · intro jk _ jk' _ heq
    exact heq
  · intro o ho
    exact ⟨o, ho, rfl⟩

/-- C6, as the code has it: `memview` keeps the base pointer and the extents it
is given, and the view addresses exactly the caller's buffer whenever the number
of elements is representable in the index type `int` of the view: for
non-negative sizes with `nproma * nlevs * nblocks <= INT_MAX` the offset map of
the 3D view is a bijection from the in-range indices onto `[0, nproma * nlevs *
nblocks)` and equals `(jb * nlevs + jk) * nproma + jc`; with `nproma * nblocks <=
INT_MAX` the 2D view maps its indices bijectively onto `[0, nproma * nblocks)`
by `jb * nproma + jc`; the 1D view maps `jk` onto `[0, nlevs)`. -/
theorem memview_addresses_buffer (data : Ptr) (nblocks nlevs nproma : Int)
    (hb : 0 ≤ nblocks) (hl : 0 ≤ nlevs) (hp : 0 ≤ nproma) :
    (nproma * nlevs * nblocks ≤ INT_MAX →
      (cpu_mdspan_impl.memview_3d data nblocks nlevs nproma).data = data ∧
      (cpu_mdspan_impl.memview_3d data nblocks nlevs nproma).extent0 = nblocks ∧
      (cpu_mdspan_impl.memview_3d data nblocks nlevs nproma).extent1 = nlevs ∧
      (cpu_mdspan_impl.memview_3d data nblocks nlevs nproma).extent2 = nproma ∧
      (∀ jb jk jc : Int,
        (cpu_mdspan_impl.memview_3d data nblocks nlevs nproma).in_range (jb, jk, jc) →
        (cpu_mdspan_impl.memview_3d data nblocks nlevs nproma).offset jb jk jc
          = (jb * nlevs + jk) * nproma + jc) ∧
      (cpu_mdspan_impl.memview_3d data nblocks nlevs nproma).addresses
        (nproma * nlevs * nblocks)) ∧
    (nproma * nblocks ≤ INT_MAX →
      (cpu_mdspan_impl.memview_2d data nblocks nproma).data = data ∧
      (cpu_mdspan_impl.memview_2d data nblocks nproma).extent0 = nblocks ∧
      (cpu_mdspan_impl.memview_2d data nblocks nproma).extent1 = nproma ∧
      (∀ jb jc : Int,
        (cpu_mdspan_impl.memview_2d data nblocks nproma).in_range (jb, jc) →
        (cpu_mdspan_impl.memview_2d data nblocks nproma).offset jb jc = jb * nproma + jc) ∧
      (cpu_mdspan_impl.memview_2d data nblocks nproma).addresses (nproma * nblocks)) ∧
    ((cpu_mdspan_impl.memview_1d data nlevs).data = data ∧
      (cpu_mdspan_impl.memview_1d data nlevs).extent0 = nlevs ∧
      (∀ jk : Int, (cpu_mdspan_impl.memview_1d data nlevs).offset jk = jk) ∧
      (cpu_mdspan_impl.memview_1d data nlevs).addresses nlevs) := by
  refine ⟨fun hN => ⟨rfl, rfl, rfl, rfl, ?_, memview_3d_addresses data _ _ _ hb hl hp hN⟩,
    fun hN => ⟨rfl, rfl, rfl, ?_, memview_2d_addresses data _ _ hb hp hN⟩,
    rfl, rfl, fun _ => rfl, memview_1d_addresses data nlevs⟩
  · intro jb jk jc h
    exact (offset_3d_exact data nblocks nlevs nproma jb jk jc hN h.1 h.2.1 h.2.2).1
  · intro jb jc h
    exact (offset_2d_exact data nblocks nproma jb jc hN h.1 h.2).1

/-- C6 fails as stated: the view `memview(data, 8, 32768, 32768)` over a buffer
of `2^33` elements does not address that buffer; the in-range indices `(4, 0,
0)` and `(0, 0, 0)` have the same offset `0` in the `int` arithmetic of the
view. -/
theorem memview_3d_not_bijective :
    (0 : Int) ≤ 8 ∧ (0 : Int) ≤ 32768 ∧
    (cpu_mdspan_impl.memview_3d 1000 8 32768 32768).offset 4 0 0 = 0 ∧
    (cpu_mdspan_impl.memview_3d 1000 8 32768 32768).offset 0 0 0 = 0 ∧
    ¬ (cpu_mdspan_impl.memview_3d 1000 8 32768 32768).addresses (32768 * 32768 * 8) := by
  refine ⟨by decide, by decide, by decide, by decide, ?_⟩
  intro h
  have hinj := h.2.1
  have h1 : ((4 : Int), (0 : Int), (0 : Int)) ∈
      {i | (cpu_mdspan_impl.memview_3d 1000 8 32768 32768).in_range i} := by
    simp [mdspan_3d.in_range, cpu_mdspan_impl.memview_3d]
  have h2 : ((0 : Int), (0 : Int), (0 : Int)) ∈
      {i | (cpu_mdspan_impl.memview_3d 1000 8 32768 32768).in_range i} := by
    simp [mdspan_3d.in_range, cpu_mdspan_impl.memview_3d]
  have := hinj h1 h2 (by decide)
  simp at this

/-! ## Construction and scratch allocation -/

theorem internal_fields_handles (malloc : Nat → Nat → Ptr) (dims : Nat → Int × Int × Int)
    (i : Nat) (hi : i < 22) (hfail : ∀ n : Nat, malloc i n = nullptr) :
    (internal_fields_wrap malloc dims).handles.get? i = some nullptr := by
  interval_cases i <;>
    simp [t_tke_internal_view.handles, internal_fields_wrap,
      cpu_mdspan_impl.memview_malloc_1d, cpu_mdspan_impl.memview_malloc_2d,
      cpu_mdspan_impl.memview_malloc_3d, hfail]

theorem new_of_null_handle {T : Type} (k : t_constant T) (ktke : t_constant_tke T)
    (malloc : Nat → Nat → Ptr) (dims : Nat → Int × Int × Int)
    (h : nullptr ∈ (internal_fields_wrap malloc dims).handles) :
    TKE_cpu.new k ktke malloc dims = Outcome.aborted := by
  unfold TKE_cpu.new internal_fields_malloc
  rw [if_pos h]

theorem new_of_no_null_handle {T : Type} (k : t_constant T) (ktke : t_constant_tke T)
    (malloc : Nat → Nat → Ptr) (dims : Nat → Int × Int × Int)
    (h : nullptr ∉ (internal_fields_wrap malloc dims).handles) :
    TKE_cpu.new k ktke malloc dims
      = Outcome.returned
          { TKE_backend.init k ktke with p_internal_view := internal_fields_wrap malloc dims } := by
  unfold TKE_cpu.new internal_fields_malloc
  rw [if_neg h]

/-- C7: scratch-allocation failure at construction is fatal. `memview_malloc` itself
returns the view over whatever `malloc` answered, the null pointer included,
with the requested extents; the construction of a `TKE_cpu` aborts whenever one
of its allocations fails (the `i`-th request is answered by the null pointer, or
any scratch view comes back over the null buffer), and a construction that
returns a backend returns one none of whose scratch views has a null base
pointer. -/
theorem scratch_allocation_failure_aborts {T : Type} (k : t_constant T)
    (ktke : t_constant_tke T) (malloc : Nat → Nat → Ptr) (dims : Nat → Int × Int × Int) :
    (∀ (m : Nat → Ptr) (elem_size : Nat) (field : Ptr) (dim1 dim2 dim3 : Int),
      cpu_mdspan_impl.memview_malloc_1d m elem_size field dim1
          = { data := m (cpu_mdspan_impl.malloc_bytes_1d dim1 elem_size), extent0 := dim1 } ∧
      cpu_mdspan_impl.memview_malloc_2d m elem_size field dim1 dim2
          = { data := m (cpu_mdspan_impl.malloc_bytes_2d dim1 dim2 elem_size),
              extent0 := dim1, extent1 := dim2 } ∧
      cpu_mdspan_impl.memview_malloc_3d m elem_size field dim1 dim2 dim3
          = { data := m (cpu_mdspan_impl.malloc_bytes_3d dim1 dim2 dim3 elem_size),
              extent0 := dim1, extent1 := dim2, extent2 := dim3 }) ∧
    ((∃ i : Nat, i < 22 ∧ ∀ n : Nat, malloc i n = nullptr) →
      TKE_cpu.new k ktke malloc dims = Outcome.aborted) ∧
    (nullptr ∈ (internal_fields_wrap malloc dims).handles →
      TKE_cpu.new k ktke malloc dims = Outcome.aborted) ∧
    (∀ b : TKE_backend T, TKE_cpu.new k ktke malloc dims = Outcome.returned b →
      (∀ p ∈ b.p_internal_view.handles, p ≠ nullptr) ∧
      b.p_internal_view = internal_fields_wrap malloc dims ∧
      b.m_is_view_init = false ∧ b.p_constant = k) := by
  refine ⟨fun m es f d1 d2 d3 => ⟨rfl, rfl, rfl⟩, ?_, new_of_null_handle k ktke malloc dims, ?_⟩
  · rintro ⟨i, hi, hfail⟩
    apply new_of_null_handle
    exact List.get?_mem (internal_fields_handles malloc dims i hi hfail)
  · intro b hb
    by_cases h : nullptr ∈ (internal_fields_wrap malloc dims).handles
    · rw [new_of_null_handle k ktke malloc dims h] at hb
      exact absurd hb (by simp)
    · rw [new_of_no_null_handle k ktke malloc dims h] at hb
      have hb' := Outcome.returned.inj hb
      subst hb'
      refine ⟨?_, rfl, rfl, rfl⟩
      intro p hp hnull
      rw [hnull] at hp
      exact h hp

/-- With the allocator that fails on every request the construction of the example
backend aborts; with the allocator that succeeds on every request it returns a
backend that is not yet Ready and whose scratch view `tke_old` is the view over
the fourth allocation. -/
theorem scratch_allocation_failure_aborts_witness :
    (∃ i : Nat, i < 22 ∧ ∀ n : Nat, malloc_failing i n = nullptr) ∧
    TKE_cpu.new example_constant { tke_min := 1 / 1000000 } malloc_failing example_dims
      = Outcome.aborted ∧
    (nullptr ∉ (internal_fields_wrap malloc_succeeding example_dims).handles) ∧
    ∃ b : TKE_backend ℚ,
      TKE_cpu.new example_constant { tke_min := 1 / 1000000 } malloc_succeeding example_dims
        = Outcome.returned b ∧
      b.p_internal_view.tke_old = { data := 16384, extent0 := 40, extent1 := 25 } ∧
      b.m_is_view_init = false := by
  have hok : nullptr ∉ (internal_fields_wrap malloc_succeeding example_dims).handles := by
    decide
  refine ⟨⟨0, by decide, fun _ => rfl⟩, ?_, hok, _, new_of_no_null_handle _ _ _ _ hok, rfl, rfl⟩
  exact (scratch_allocation_failure_aborts example_constant { tke_min := 1 / 1000000 }
    malloc_failing example_dims).2.1 ⟨0, by decide, fun _ => rfl⟩

/-! ## The tridiagonal solve -/

section thomas
variable {K : Type} [LinearOrderedField K]

theorem thomas_cp_eq (s : tridiag K) (k : Nat) :
    thomas_cp s k = s.c k / thomas_den s k := by
  cases k <;> rfl

theorem thomas_dp_zero (s : tridiag K) : thomas_dp s 0 = s.d 0 / thomas_den s 0 := rfl

theorem thomas_dp_succ (s : tridiag K) (k : Nat) :
    thomas_dp s (k + 1) = (s.d (k + 1) - thomas_dp s k * s.a (k + 1)) / thomas_den s (k + 1) :=
  rfl

theorem thomas_den_succ (s : tridiag K) (k : Nat) :
    thomas_den s (k + 1) = s.b (k + 1) - thomas_cp s k * s.a (k + 1) := rfl

theorem thomas_den_bound (s : tridiag K) (n : Nat) (h : diag_dominant s n) :
    ∀ k : Nat, k < n → (if k + 1 = n then 0 else |s.c k|) < |thomas_den s k| := by
  intro k
  induction k with
  | zero =>
    intro hk
    have h0 := h 0 hk
    simpa [thomas_den] using h0
  | succ k ih =>
    intro hk
    have hk1 : k + 1 ≠ n := by omega
    have ihk := ih (by omega)
    rw [if_neg hk1] at ihk
    have hden_pos : 0 < |thomas_den s k| := lt_of_le_of_lt (abs_nonneg _) ihk
    have hcp : |thomas_cp s k| ≤ 1 := by
      rw [thomas_cp_eq, abs_div]
      exact le_of_lt ((div_lt_one hden_pos).2 ihk)
    have hdom := h (k + 1) hk
    rw [if_neg (Nat.succ_ne_zero k)] at hdom
    have h1 : |s.b (k + 1)| - |thomas_cp s k * s.a (k + 1)|
        ≤ |s.b (k + 1) - thomas_cp s k * s.a (k + 1)| := abs_sub_abs_le_abs_sub _ _
    have h2 : |thomas_cp s k * s.a (k + 1)| ≤ |s.a (k + 1)| := by
      rw [abs_mul]
      exact mul_le_of_le_one_left (abs_nonneg _) hcp
    rw [thomas_den_succ]
    linarith

theorem thomas_den_ne_zero (s : tridiag K) (n : Nat) (h : diag_dominant s n) (k : Nat)
    (hk : k < n) : thomas_den s k ≠ 0 := by
  have hb := thomas_den_bound s n h k hk
  have h0 : (0 : K) ≤ (if k + 1 = n then 0 else |s.c k|) := by
    split_ifs
    · exact le_refl _
    · exact abs_nonneg _
  exact abs_pos.1 (lt_of_le_of_lt h0 hb)

theorem solve_tridiag_last (s : tridiag K) (n : Nat) :
    solve_tridiag s n (n - 1) = thomas_dp s (n - 1) := by
  unfold solve_tridiag
  rw [Nat.sub_self]
  rfl

theorem solve_tridiag_step (s : tridiag K) (n k : Nat) (hk : k + 1 < n) :
    solve_tridiag s n k = thomas_dp s k - thomas_cp s k * solve_tridiag s n (k + 1) := by
  unfold solve_tridiag
  have e : n - 1 - k = (n - 1 - (k + 1)) + 1 := by omega
  have e2 : n - 1 - ((n - 1 - (k + 1)) + 1) = k := by omega
  rw [e, thomas_back, e2]

theorem thomas_row_of_den (s : tridiag K) (n : Nat) (k : Nat) (hk : k < n)
    (hD : thomas_den s k ≠ 0) : row_lhs s n (solve_tridiag s n) k = s.d k := by
  have hcp : thomas_cp s k * thomas_den s k = s.c k := by
    rw [thomas_cp_eq]
    exact div_mul_cancel₀ _ hD
  unfold row_lhs
  cases k with
  | zero =>
    have hdp : thomas_dp s 0 * thomas_den s 0 = s.d 0 := by
      rw [thomas_dp_zero]
      exact div_mul_cancel₀ _ hD
    have hb : thomas_den s 0 = s.b 0 := rfl
    rw [hb] at hdp hcp
    by_cases hn : 0 + 1 = n
    · have hl : solve_tridiag s n 0 = thomas_dp s 0 := by
        have e : n - 1 = 0 := by omega
        have := solve_tridiag_last s n
        rw [e] at this
        exact this
      rw [if_pos rfl, if_pos hn, hl]
      linear_combination hdp
    · rw [if_pos rfl, if_neg hn, solve_tridiag_step s n 0 (by omega)]
      linear_combination hdp - solve_tridiag s n (0 + 1) * hcp
  | succ j =>
    have hdp : thomas_dp s (j + 1) * thomas_den s (j + 1)
        = s.d (j + 1) - thomas_dp s j * s.a (j + 1) := by
      rw [thomas_dp_succ]
      exact div_mul_cancel₀ _ hD
    rw [thomas_den_succ] at hdp hcp
    have hprev := solve_tridiag_step s n j hk
    rw [if_neg (Nat.succ_ne_zero j), Nat.add_sub_cancel, hprev]
    by_cases hn : j + 1 + 1 = n
    · have hl : solve_tridiag s n (j + 1) = thomas_dp s (j + 1) := by
        have e : n - 1 = j + 1 := by omega
        have := solve_tridiag_last s n
        rw [e] at this
        exact this
      rw [if_pos hn, hl]
      linear_combination hdp
    · rw [if_neg hn, solve_tridiag_step s n (j + 1) (by omega)]
      linear_combination hdp - solve_tridiag s n (j + 1 + 1) * hcp

theorem thomas_row (s : tridiag K) (n : Nat) (h : diag_dominant s n) (k : Nat) (hk : k < n) :
    row_lhs s n (solve_tridiag s n) k = s.d k :=
  thomas_row_of_den s n k hk (thomas_den_ne_zero s n h k hk)

/-- A strictly diagonally dominant system is diagonally dominant. -/
theorem diag_dominant_weak_of_strict (s : tridiag K) (n : Nat) (h : diag_dominant s n) :
    diag_dominant_weak s n := fun k hk => le_of_lt (h k hk)

/-- A strictly diagonally dominant system is nonsingular: the solve gives a
solution for every right-hand side. -/
theorem nonsingular_of_diag_dominant (s : tridiag K) (n : Nat) (h : diag_dominant s n) :
    nonsingular s n := by
  intro d
  have h' : diag_dominant { s with d := d } n := fun k hk => h k hk
  exact ⟨solve_tridiag { s with d := d } n, fun k hk => thomas_row { s with d := d } n h' k hk⟩

theorem thomas_den_bound_weak (s : tridiag K) (n : Nat) (h : diag_dominant_weak s n) :
    ∀ k : Nat, k < n → (∀ j : Nat, j < k → thomas_den s j ≠ 0) →
      (if k + 1 = n then 0 else |s.c k|) ≤ |thomas_den s k| := by
  intro k
  induction k with
  | zero =>
    intro hk _
    have h0 := h 0 hk
    simpa [thomas_den] using h0
  | succ k ih =>
    intro hk hden
    have hk1 : k + 1 ≠ n := by omega
    have ihk := ih (by omega) (fun j hj => hden j (by omega))
    rw [if_neg hk1] at ihk
    have hden_pos : 0 < |thomas_den s k| := abs_pos.2 (hden k (by omega))
    have hcp : |thomas_cp s k| ≤ 1 := by
      rw [thomas_cp_eq, abs_div]
      exact (div_le_one hden_pos).2 ihk
    have hdom := h (k + 1) hk
    rw [if_neg (Nat.succ_ne_zero k)] at hdom
    have h1 : |s.b (k + 1)| - |thomas_cp s k * s.a (k + 1)|
        ≤ |s.b (k + 1) - thomas_cp s k * s.a (k + 1)| := abs_sub_abs_le_abs_sub _ _
    have h2 : |thomas_cp s k * s.a (k + 1)| ≤ |s.a (k + 1)| := by
      rw [abs_mul]
      exact mul_le_of_le_one_left (abs_nonneg _) hcp
    rw [thomas_den_succ]
    linarith

/-- Forward elimination on the rows above level `k` when their right-hand sides
are zero: row `k` of the system becomes `den_k * x_k + c_k * x_(k+1)`. -/
theorem thomas_elim_zero (s : tridiag K) (n : Nat) (x : Nat → K) :
    ∀ k : Nat, k < n → (∀ j : Nat, j < k → thomas_den s j ≠ 0) →
      (∀ j : Nat, j < k → row_lhs s n x j = 0) →
      thomas_den s k * x k + (if k + 1 = n then 0 else s.c k * x (k + 1))
        = row_lhs s n x k := by
  intro k
  induction k with
  | zero =>
    intro _ _ _
    unfold row_lhs
    simp [thomas_den]
  | succ j ih =>
    intro hk hden hrows
    have hj1 : j + 1 ≠ n := by omega
    have e := ih (by omega) (fun i hi => hden i (by omega)) (fun i hi => hrows i (by omega))
    rw [if_neg hj1, hrows j (by omega)] at e
    have hD := hden j (by omega)
    have hcp : thomas_cp s j * thomas_den s j = s.c j := by
      rw [thomas_cp_eq]
      exact div_mul_cancel₀ _ hD
    have hx : x j + thomas_cp s j * x (j + 1) = 0 := by
      have hm : (x j + thomas_cp s j * x (j + 1)) * thomas_den s j = 0 := by
        linear_combination e + x (j + 1) * hcp
      rcases mul_eq_zero.1 hm with h | h
      · exact h
      · exact absurd h hD
    unfold row_lhs
    rw [if_neg (Nat.succ_ne_zero j), Nat.add_sub_cancel, thomas_den_succ]
    linear_combination (-s.a (j + 1)) * hx

/-- In a diagonally dominant nonsingular system no divisor of the forward
elimination is zero. -/
theorem thomas_den_ne_zero_weak (s : tridiag K) (n : Nat) (h : diag_dominant_weak s n)
    (hs : nonsingular s n) : ∀ k : Nat, k < n → thomas_den s k ≠ 0 := by
  intro k
  induction k using Nat.strong_induction_on with
  | _ k ih =>
    intro hk hzero
    have hden : ∀ j : Nat, j < k → thomas_den s j ≠ 0 := fun j hj => ih j hj (by omega)
    obtain ⟨x, hx⟩ := hs (fun j => if j = k then 1 else 0)
    have hrows : ∀ j : Nat, j < k → row_lhs s n x j = 0 := by
      intro j hj
      rw [hx j (by omega), if_neg (Nat.ne_of_lt hj)]
    have hrow : row_lhs s n x k = 1 := by
      rw [hx k hk, if_pos rfl]
    have hb := thomas_den_bound_weak s n h k hk hden
    have e := thomas_elim_zero s n x k hk hden hrows
    rw [hzero, zero_mul, zero_add, hrow] at e
    rw [hzero, abs_zero] at hb
    by_cases hn : k + 1 = n
    · rw [if_pos hn] at e
      exact zero_ne_one e
    · rw [if_neg hn] at e hb
      have hc : s.c k = 0 := abs_eq_zero.1 (le_antisymm hb (abs_nonneg _))
      rw [hc, zero_mul] at e
      exact zero_ne_one e

/-- Forward elimination on a profile that satisfies every row: the profile obeys
the recurrence of the back-substitution. -/
theorem thomas_elim (s : tridiag K) (n : Nat) (x : Nat → K)
    (hden : ∀ k : Nat, k < n → thomas_den s k ≠ 0)
    (hx : ∀ k : Nat, k < n → row_lhs s n x k = s.d k) :
    ∀ k : Nat, k < n →
      x k + (if k + 1 = n then 0 else thomas_cp s k * x (k + 1)) = thomas_dp s k := by
  intro k
  induction k with
  | zero =>
    intro hk
    have hD := hden 0 hk
    have hcp : thomas_cp s 0 * thomas_den s 0 = s.c 0 := by
      rw [thomas_cp_eq]
      exact div_mul_cancel₀ _ hD
    have hdp : thomas_dp s 0 * thomas_den s 0 = s.d 0 := by
      rw [thomas_dp_zero]
      exact div_mul_cancel₀ _ hD
    have hrow := hx 0 hk
    unfold row_lhs at hrow
    rw [if_pos rfl] at hrow
    have hb : thomas_den s 0 = s.b 0 := rfl
    rw [hb] at hcp hdp hD
    apply mul_right_cancel₀ hD
    by_cases hn : 0 + 1 = n
    · rw [if_pos hn] at hrow ⊢
      linear_combination hrow - hdp
    · rw [if_neg hn] at hrow ⊢
      linear_combination hrow - hdp + x (0 + 1) * hcp
  | succ j ih =>
    intro hk
    have hj1 : j + 1 ≠ n := by omega
    have e := ih (by omega)
    rw [if_neg hj1] at e
    have hD := hden (j + 1) hk
    have hcp : thomas_cp s (j + 1) * thomas_den s (j + 1) = s.c (j + 1) := by
      rw [thomas_cp_eq]
      exact div_mul_cancel₀ _ hD
    have hdp : thomas_dp s (j + 1) * thomas_den s (j + 1)
        = s.d (j + 1) - thomas_dp s j * s.a (j + 1) := by
      rw [thomas_dp_succ]
      exact div_mul_cancel₀ _ hD
    have hrow := hx (j + 1) hk
    unfold row_lhs at hrow
    rw [if_neg (Nat.succ_ne_zero j), Nat.add_sub_cancel] at hrow
    rw [thomas_den_succ] at hcp hdp hD
    apply mul_right_cancel₀ hD
    by_cases hn : j + 1 + 1 = n
    · rw [if_pos hn] at hrow ⊢
      linear_combination hrow - hdp - s.a (j + 1) * e
    · rw [if_neg hn] at hrow ⊢
      linear_combination hrow - hdp - s.a (j + 1) * e + x (j + 1 + 1) * hcp

/-- A profile that satisfies every row is the profile the solve returns. -/
theorem thomas_unique (s : tridiag K) (n : Nat) (x : Nat → K)
    (hden : ∀ k : Nat, k < n → thomas_den s k ≠ 0)
    (hx : ∀ k : Nat, k < n → row_lhs s n x k = s.d k) :
    ∀ k : Nat, k < n → x k = solve_tridiag s n k := by
  have hel := thomas_elim s n x hden hx
  have key : ∀ m : Nat, m < n → x (n - 1 - m) = solve_tridiag s n (n - 1 - m) := by
    intro m
    induction m with
    | zero =>
      intro hm
      have e := hel (n - 1) (by omega)
      rw [if_pos (by omega), add_zero] at e
      rw [Nat.sub_zero, e, solve_tridiag_last]
    | succ m ih =>
      intro hm
      have e := hel (n - 1 - (m + 1)) (by omega)
      have hne : n - 1 - (m + 1) + 1 ≠ n := by omega
      have hidx : n - 1 - (m + 1) + 1 = n - 1 - m := by omega
      rw [if_neg hne, hidx, ih (by omega)] at e
      rw [solve_tridiag_step s n (n - 1 - (m + 1)) (by omega), hidx]
      linear_combination e
  intro k hk
  have := key (n - 1 - k) (by omega)
  have hidx : n - 1 - (n - 1 - k) = k := by omega
  rw [hidx] at this
  exact this

/-- C10: for every diagonally dominant tridiagonal system of `n >= 1` levels (so for
sizes 1, 2 and `nlevs`) that has a solution, its coefficient matrix being
nonsingular, every divisor of the forward elimination is nonzero, the modified
coefficients are quotients by these divisors only, the profile returned by the
solve satisfies `a_k * x_(k-1) + b_k * x_k + c_k * x_(k+1) = d_k` at every level
`k`, and every profile that does so is the returned one. Dominance is meant in
the usual sense, `|b_k| >= |a_k| + |c_k|` in every row. -/
theorem thomas_solve_correct (s : tridiag K) (n : Nat) (hn : 0 < n)
    (h : diag_dominant_weak s n) (hs : nonsingular s n) :
    (∀ k : Nat, k < n → thomas_den s k ≠ 0) ∧
    (∀ k : Nat, thomas_cp s k = s.c k / thomas_den s k) ∧
    (thomas_dp s 0 = s.d 0 / thomas_den s 0 ∧
      ∀ k : Nat, thomas_dp s (k + 1)
        = (s.d (k + 1) - thomas_dp s k * s.a (k + 1)) / thomas_den s (k + 1)) ∧
    (∀ k : Nat, k < n → row_lhs s n (solve_tridiag s n) k = s.d k) ∧
    (∀ x : Nat → K, (∀ k : Nat, k < n → row_lhs s n x k = s.d k) →
      ∀ k : Nat, k < n → x k = solve_tridiag s n k) ∧
    solve_tridiag s n (n - 1) = thomas_dp s (n - 1) := by
  have _ := hn
  have hden := thomas_den_ne_zero_weak s n h hs
  exact ⟨hden, thomas_cp_eq s, ⟨thomas_dp_zero s, thomas_dp_succ s⟩,
    fun k hk => thomas_row_of_den s n k hk (hden k hk),
    fun x hx => thomas_unique s n x hden hx, solve_tridiag_last s n⟩

/-- A strictly diagonally dominant system of `n >= 1` levels is diagonally dominant
and nonsingular: the divisors of its forward elimination are nonzero and the
solve returns its solution. -/
theorem thomas_solve_strict (s : tridiag K) (n : Nat) (h : diag_dominant s n) :
    diag_dominant_weak s n ∧ nonsingular s n ∧
    (∀ k : Nat, k < n → thomas_den s k ≠ 0) ∧
    (∀ k : Nat, k < n → row_lhs s n (solve_tridiag s n) k = s.d k) :=
  ⟨diag_dominant_weak_of_strict s n h, nonsingular_of_diag_dominant s n h,
    fun k hk => thomas_den_ne_zero s n h k hk, fun k hk => thomas_row s n h k hk⟩

theorem example_system_dominant : diag_dominant example_system 2 := by
  intro k hk
  interval_cases k <;> simp [example_system]

theorem laplacian_dominant : diag_dominant_weak laplacian_system 3 := by
  intro k hk
  interval_cases k <;> simp [laplacian_system]
  norm_num

theorem laplacian_not_strict : ¬ diag_dominant laplacian_system 3 := by
  intro h
  have h1 := h 1 (by decide)
  simp [laplacian_system] at h1
  norm_num at h1

theorem laplacian_nonsingular : nonsingular laplacian_system 3 := by
  intro d
  refine ⟨fun k => if k = 0 then (3 * d 0 + 2 * d 1 + d 2) / 4
    else if k = 1 then (2 * d 0 + 4 * d 1 + 2 * d 2) / 4
    else (d 0 + 2 * d 1 + 3 * d 2) / 4, ?_⟩
  intro k hk
  interval_cases k <;> simp [row_lhs, laplacian_system] <;> ring

/-- The discrete Laplacian on three levels is diagonally dominant, not strictly,
and nonsingular; the solve is defined on it and returns its solution
`(1, 1, 1)`. -/
theorem thomas_solve_correct_witness :
    0 < 3 ∧ diag_dominant_weak laplacian_system 3 ∧ nonsingular laplacian_system 3 ∧
    ¬ diag_dominant laplacian_system 3 ∧
    (∀ k : Nat, k < 3 → thomas_den laplacian_system k ≠ 0) ∧
    (∀ k : Nat, k < 3 →
      row_lhs laplacian_system 3 (solve_tridiag laplacian_system 3) k = laplacian_system.d k) ∧
    solve_tridiag laplacian_system 3 0 = 1 ∧ solve_tridiag laplacian_system 3 1 = 1 ∧
    solve_tridiag laplacian_system 3 2 = 1 := by
  have h := thomas_solve_correct laplacian_system 3 (by decide) laplacian_dominant
    laplacian_nonsingular
  refine ⟨by decide, laplacian_dominant, laplacian_nonsingular, laplacian_not_strict,
    h.1, h.2.2.2.1, ?_, ?_, ?_⟩
  · norm_num [solve_tridiag, thomas_back, thomas_dp, thomas_cp, laplacian_system]
  · norm_num [solve_tridiag, thomas_back, thomas_dp, thomas_cp, laplacian_system]
  · norm_num [solve_tridiag, thomas_back, thomas_dp, thomas_cp, laplacian_system]

/-! ## The floor of the updated TKE -/

theorem clip_tke_ge (tke_min x : K) : tke_min ≤ clip_tke tke_min x := by
  unfold clip_tke
  split_ifs with h
  · exact le_refl _
  · exact not_lt.1 h

theorem run_trace_append {T M : Type} (ck : cells_call T → M → M) (ek : edges_call T → M → M)
    (l1 l2 : List (Event T)) (m : M) :
    run_trace ck ek (l1 ++ l2) m = run_trace ck ek l2 (run_trace ck ek l1 m) := by
  unfold run_trace
  rw [List.foldl_append]

theorem run_trace_cons {T M : Type} (ck : cells_call T → M → M) (ek : edges_call T → M → M)
    (e : Event T) (l : List (Event T)) (m : M) :
    run_trace ck ek (e :: l) m = run_trace ck ek l (run_event ck ek e m) := rfl

theorem run_trace_edges_tke {T : Type}
    (ck : cells_call T → (Int → Int → Int → T) → Int → Int → Int → T)
    (l : List (edges_call T)) (tke : Int → Int → Int → T) :
    run_trace ck calc_impl_edges_tke (l.map Event.edges) tke = tke := by
  induction l with
  | nil => rfl
  | cons c l ih =>
    rw [List.map_cons, run_trace_cons]
    exact ih

theorem cells_fold_floor
    (assemble : cells_call K → Int → (Int → Int → Int → K) → tridiag K)
    (dolic_c : Int → Int → Int) (b1 : TKE_backend K) (a : calc_args) (jb k jc : Int)
    (hjc : (get_index_range a.cells_block_size a.cells_start_block a.cells_end_block
        a.cells_start_index a.cells_end_index jb).1 ≤ jc ∧
      jc ≤ (get_index_range a.cells_block_size a.cells_start_block a.cells_end_block
        a.cells_start_index a.cells_end_index jb).2)
    (hk : 0 ≤ k ∧ k < dolic_c jb jc) :
    ∀ (l : List Int) (tke : Int → Int → Int → K),
      (jb ∈ l ∨ b1.p_constant_tke.tke_min ≤ tke jb k jc) →
      b1.p_constant_tke.tke_min ≤
        run_trace (calc_impl_cells assemble dolic_c) calc_impl_edges_tke
          (l.map (fun x => Event.cells (cells_body b1 a x))) tke jb k jc := by
  intro l
  induction l with
  | nil =>
    intro tke h
    rcases h with h | h
    · simp at h
    · exact h
  | cons x l ih =>
    intro tke h
    rw [List.map_cons, run_trace_cons]
    apply ih
    by_cases hx : jb = x
    · right
      subst hx
      show b1.p_constant_tke.tke_min ≤
        calc_impl_cells assemble dolic_c (cells_body b1 a jb) tke jb k jc
      unfold calc_impl_cells
      rw [if_pos ⟨rfl, hjc.1, hjc.2⟩]
      unfold tke_column_update
      rw [if_pos hk]
      exact clip_tke_ge _ _
    · rcases h with h | h
      · left
        rcases List.mem_cons.1 h with h | h
        · exact absurd h hx
        · exact h
      · right
        show b1.p_constant_tke.tke_min ≤
          calc_impl_cells assemble dolic_c (cells_body b1 a x) tke jb k jc
        unfold calc_impl_cells
        rw [if_neg (fun hc => hx hc.1)]
        exact h

/-- C9: whatever the inputs (the system `assemble` builds for a column is
arbitrary, and so are the field before the call and the bottom indices), after
`calc_impl` the TKE at every level `0 <= k < dolic` of every column `jc` of the
in-block range of every block `jb` of the cell range is at least the floor
`tke_min` of the backend; it is non-negative when the floor is. -/
theorem tke_floor (assemble : cells_call K → Int → (Int → Int → Int → K) → tridiag K)
    (dolic_c : Int → Int → Int) (b : TKE_backend K) (a : calc_args)
    (tke : Int → Int → Int → K) (jb k jc : Int)
    (hjb : a.cells_start_block ≤ jb ∧ jb ≤ a.cells_end_block)
    (hjc : (get_index_range a.cells_block_size a.cells_start_block a.cells_end_block
        a.cells_start_index a.cells_end_index jb).1 ≤ jc ∧
      jc ≤ (get_index_range a.cells_block_size a.cells_start_block a.cells_end_block
        a.cells_start_index a.cells_end_index jb).2)
    (hk : 0 ≤ k ∧ k < dolic_c jb jc) :
    b.p_constant_tke.tke_min ≤
        run_trace (calc_impl_cells assemble dolic_c) calc_impl_edges_tke
          (calc_impl b a).2 tke jb k jc ∧
    (0 ≤ b.p_constant_tke.tke_min →
      0 ≤ run_trace (calc_impl_cells assemble dolic_c) calc_impl_edges_tke
          (calc_impl b a).2 tke jb k jc) := by
  have key : b.p_constant_tke.tke_min ≤
      run_trace (calc_impl_cells assemble dolic_c) calc_impl_edges_tke
        (calc_impl b a).2 tke jb k jc := by
    rw [← run_trace_kernel_calls, kernel_calls_calc_impl, run_trace_append]
    have he : ∀ (l : List Int) (m : Int → Int → Int → K),
        run_trace (calc_impl_cells assemble dolic_c) calc_impl_edges_tke
          (l.map (fun x => Event.edges (edges_body (init_views b a).1 a x))) m = m := by
      intro l m
      have := run_trace_edges_tke (calc_impl_cells assemble dolic_c)
        (l.map (edges_body (init_views b a).1 a)) m
      rw [List.map_map] at this
      exact this
    rw [he]
    have hfl := cells_fold_floor assemble dolic_c (init_views b a).1 a jb k jc hjc hk
      (block_loop a.cells_start_block a.cells_end_block) tke
      (Or.inl ((mem_block_loop _ _ jb).2 hjb))
    rw [(init_views_frame b a).2.1] at hfl
    exact hfl
  exact ⟨key, fun h0 => le_trans h0 key⟩

end thomas

/-- On the example call, with a field of negative values before the call, the
TKE of level `0` of column `0` of block `0` is at least the floor afterwards. -/
theorem tke_floor_witness :
    (1 / 1000000 : ℚ) ≤
      run_trace (calc_impl_cells (fun _ _ _ => example_system) (fun _ _ => 2))
        calc_impl_edges_tke (calc_impl example_backend (example_args 0)).2
        (fun _ _ _ => -5) 0 0 0 :=
  (tke_floor (fun _ _ _ => example_system) (fun _ _ => 2) example_backend (example_args 0)
    (fun _ _ _ => -5) 0 0 0 (by decide) (by decide) (by decide)).1

/-! ## Instances on the example driver -/

/-- On the example backend, a second call with other pointers (addresses `101,
102, ...`) constructs no view, and its kernels receive the views over the
buffers of the first call (addresses `1, 2, ...`). -/
theorem views_built_once_witness :
    example_backend.m_is_view_init = false ∧
    (fill_calls (calc_impl example_backend (example_args 0)).2
        = built_events example_constant (example_args 0)) ∧
    (∀ tr ∈ (calc_seq (calc_impl example_backend (example_args 0)).1 [example_args 100]).2,
      fill_calls tr = []) ∧
    (∀ tr ∈ (calc_seq example_backend [example_args 0, example_args 100]).2,
      ∀ c ∈ cells_calls tr, c.bundles = built_bundles example_constant (example_args 0)) :=
  ⟨rfl,
    (views_built_once example_backend (example_args 0) [example_args 100] rfl).1,
    (views_built_once example_backend (example_args 0) [example_args 100] rfl).2.1,
    fun tr htr =>
      ((views_built_once example_backend (example_args 0) [example_args 100] rfl).2.2.2
        tr htr).1⟩

/-- The views of the example (`nblocks = 1`, `nlevs = 40`, `nproma = 25`) address
exactly the buffers `main` allocates: `1000`, `25` and `40` elements. -/
theorem memview_addresses_buffer_witness :
    (0 : Int) ≤ 1 ∧ (0 : Int) ≤ 40 ∧ (0 : Int) ≤ 25 ∧ (25 : Int) * 40 * 1 ≤ INT_MAX ∧
    (25 : Int) * 1 ≤ INT_MAX ∧
    (cpu_mdspan_impl.memview_3d 15 1 40 25).addresses (25 * 40 * 1) ∧
    (cpu_mdspan_impl.memview_2d 17 1 25).addresses (25 * 1) ∧
    (cpu_mdspan_impl.memview_1d 7 40).addresses 40 :=
  ⟨by decide, by decide, by decide, by decide, by decide,
    ((memview_addresses_buffer 15 1 40 25 (by decide) (by decide) (by decide)).1
      (by decide)).2.2.2.2.2,
    ((memview_addresses_buffer 17 1 40 25 (by decide) (by decide) (by decide)).2.1
      (by decide)).2.2.2.2,
    (memview_addresses_buffer 7 1 40 25 (by decide) (by decide) (by decide)).2.2.2.2.2⟩

/-- The hypothesis of nonsingularity is needed: the system of two levels
`x0 + x1 = 1`, `x0 + x1 = 2` is diagonally dominant and has no solution; on it
the divisor of the forward elimination at level `1` is zero. -/
theorem thomas_singular_divisor_zero :
    diag_dominant_weak singular_system 2 ∧
    thomas_den singular_system 1 = 0 ∧
    row_lhs singular_system 2 (solve_tridiag singular_system 2) 1 ≠ singular_system.d 1 := by
  refine ⟨?_, ?_, ?_⟩
  · intro k hk
    interval_cases k <;> simp [singular_system]
  · norm_num [thomas_den, thomas_cp, singular_system]
  · norm_num [row_lhs, solve_tridiag, thomas_back, thomas_dp, thomas_cp, singular_system]

/-! ## Inverted block ranges -/

/-- C15: `launch_kernel` is pure delegation to the launch policy. For every policy
and all arguments its effect is the effect of `launch` with the same four
arguments in the same order; with the calls to the policy recorded, one call is
added to the record, it has `threadsPerBlock` as units per group, `blocksPerGrid`
as group count, and `func` and `args` unchanged, and the state of the policy is
that after this one call. -/
theorem launch_kernel_delegates {σ : Type} (P : launch_policy σ)
    (threadsPerBlock blocksPerGrid : Int) (func args : Ptr) (s : σ)
    (calls : List launch_call) :
    TKE_gpu.launch_kernel P threadsPerBlock blocksPerGrid func args s
      = P.launch threadsPerBlock blocksPerGrid func args s ∧
    TKE_gpu.launch_kernel P.traced threadsPerBlock blocksPerGrid func args (s, calls)
      = (P.launch threadsPerBlock blocksPerGrid func args s,
         calls ++ [{ unitsPerGroup := threadsPerBlock, groupCount := blocksPerGrid,
                     kernel := func, args := args }]) ∧
    (TKE_gpu.launch_kernel P.traced threadsPerBlock blocksPerGrid func args (s, calls)).2.length
      = calls.length + 1 := by
  refine ⟨rfl, rfl, ?_⟩
  simp [TKE_gpu.launch_kernel, launch_policy.traced]

/-! ## Allocate-and-wrap -/

theorem wrap_size_cast (x : Int) (h0 : 0 ≤ x) (h1 : x < 18446744073709551616) :
    ((wrap_size x : Nat) : Int) = x := by
  unfold wrap_size
  rw [Int.toNat_of_nonneg (Int.emod_nonneg _ (by decide))]
  exact Int.emod_eq_of_lt h0 h1

theorem malloc_bytes_1d_exact (dim1 : Int) (elem_size : Nat)
    (helem : elem_size = sizeof_double ∨ elem_size = sizeof_int)
    (h1 : 0 ≤ dim1) (hN : dim1 ≤ INT_MAX) :
    ((cpu_mdspan_impl.malloc_bytes_1d dim1 elem_size : Nat) : Int) = dim1 * elem_size := by
  unfold cpu_mdspan_impl.malloc_bytes_1d
  unfold INT_MAX at hN
  rcases helem with rfl | rfl
  · apply wrap_size_cast <;> simp only [sizeof_double, Nat.cast_ofNat] <;> omega
  · apply wrap_size_cast <;> simp only [sizeof_int, Nat.cast_ofNat] <;> omega

theorem malloc_bytes_2d_exact (dim1 dim2 : Int) (elem_size : Nat)
    (helem : elem_size = sizeof_double ∨ elem_size = sizeof_int)
    (h1 : 0 ≤ dim1) (h2 : 0 ≤ dim2) (hN : dim1 * dim2 ≤ INT_MAX) :
    ((cpu_mdspan_impl.malloc_bytes_2d dim1 dim2 elem_size : Nat) : Int)
      = dim1 * dim2 * elem_size := by
  unfold cpu_mdspan_impl.malloc_bytes_2d
  have hP : 0 ≤ dim1 * dim2 := mul_nonneg h1 h2
  have hmin : INT_MIN ≤ 0 := by unfold INT_MIN; omega
  rw [wrap_int_of_range _ (by omega) hN]
  unfold INT_MAX at hN
  rcases helem with rfl | rfl
  · apply wrap_size_cast <;> simp only [sizeof_double, Nat.cast_ofNat] <;> omega
  · apply wrap_size_cast <;> simp only [sizeof_int, Nat.cast_ofNat] <;> omega

theorem malloc_bytes_3d_exact (dim1 dim2 dim3 : Int) (elem_size : Nat)
    (helem : elem_size = sizeof_double ∨ elem_size = sizeof_int)
    (h1 : 0 ≤ dim1) (h2 : 0 ≤ dim2) (h3 : 0 ≤ dim3) (hN : dim1 * dim2 * dim3 ≤ INT_MAX) :
    ((cpu_mdspan_impl.malloc_bytes_3d dim1 dim2 dim3 elem_size : Nat) : Int)
      = dim1 * dim2 * dim3 * elem_size := by
  unfold cpu_mdspan_impl.malloc_bytes_3d
  have hP : 0 ≤ dim1 * dim2 := mul_nonneg h1 h2
  have hQ : 0 ≤ dim1 * dim2 * dim3 := mul_nonneg hP h3
  have hmin : INT_MIN ≤ 0 := by unfold INT_MIN; omega
  have hprod : wrap_int (wrap_int (dim1 * dim2) * dim3) = dim1 * dim2 * dim3 := by
    rcases eq_or_lt_of_le h3 with h | h
    · rw [← h, mul_zero, mul_zero]
      exact wrap_int_of_range 0 hmin (by unfold INT_MAX; omega)
    · have hle : dim1 * dim2 * 1 ≤ dim1 * dim2 * dim3 :=
        mul_le_mul_of_nonneg_left (by omega) hP
      rw [wrap_int_of_range (dim1 * dim2) (by omega) (by omega),
        wrap_int_of_range _ (by omega) hN]
  rw [hprod]
  unfold INT_MAX at hN
  rcases helem with rfl | rfl
  · apply wrap_size_cast <;> simp only [sizeof_double, Nat.cast_ofNat] <;> omega
  · apply wrap_size_cast <;> simp only [sizeof_int, Nat.cast_ofNat] <;> omega

theorem inside_of_lt (bytes elem_size : Nat) (n off : Int) (hb : (bytes : Int) = n * elem_size)
    (h0 : 0 ≤ off) (h1 : off < n) : inside_allocation bytes elem_size off := by
  refine ⟨h0, ?_⟩
  rw [hb]
  exact mul_le_mul_of_nonneg_right (by omega) (Int.ofNat_nonneg _)

/-- C13, for sizes the `int` arithmetic can hold: `memview_malloc` returns the view
over the answer of `malloc` with the extents it is given; for non-negative
dimensions with `dim1 * dim2 * dim3 <= INT_MAX` the 3D overload requests exactly
`dim1 * dim2 * dim3 * sizeof(elem)` bytes and every in-range index of the
returned view lies inside an allocation of that size; likewise the 2D overload
when `dim1 * dim2 <= INT_MAX` and the 1D overload for every non-negative `int`;
`elem_size` is `sizeof(double)` or `sizeof(int)`, for the overloads on `double *`
and on `int *`. -/
theorem memview_malloc_sized (malloc : Nat → Ptr) (elem_size : Nat)
    (helem : elem_size = sizeof_double ∨ elem_size = sizeof_int) (field : Ptr)
    (dim1 dim2 dim3 : Int) (h1 : 0 ≤ dim1) (h2 : 0 ≤ dim2) (h3 : 0 ≤ dim3) :
    (dim1 * dim2 * dim3 ≤ INT_MAX →
      ((cpu_mdspan_impl.malloc_bytes_3d dim1 dim2 dim3 elem_size : Nat) : Int)
        = dim1 * dim2 * dim3 * elem_size ∧
      cpu_mdspan_impl.memview_malloc_3d malloc elem_size field dim1 dim2 dim3
        = { data := malloc (cpu_mdspan_impl.malloc_bytes_3d dim1 dim2 dim3 elem_size),
            extent0 := dim1, extent1 := dim2, extent2 := dim3 } ∧
      ∀ i0 i1 i2 : Int,
        (cpu_mdspan_impl.memview_malloc_3d malloc elem_size field dim1 dim2 dim3).in_range
          (i0, i1, i2) →
        inside_allocation (cpu_mdspan_impl.malloc_bytes_3d dim1 dim2 dim3 elem_size) elem_size
          ((cpu_mdspan_impl.memview_malloc_3d malloc elem_size field dim1 dim2 dim3).offset
            i0 i1 i2)) ∧
    (dim1 * dim2 ≤ INT_MAX →
      ((cpu_mdspan_impl.malloc_bytes_2d dim1 dim2 elem_size : Nat) : Int)
        = dim1 * dim2 * elem_size ∧
      cpu_mdspan_impl.memview_malloc_2d malloc elem_size field dim1 dim2
        = { data := malloc (cpu_mdspan_impl.malloc_bytes_2d dim1 dim2 elem_size),
            extent0 := dim1, extent1 := dim2 } ∧
      ∀ i0 i1 : Int,
        (cpu_mdspan_impl.memview_malloc_2d malloc elem_size field dim1 dim2).in_range (i0, i1) →
        inside_allocation (cpu_mdspan_impl.malloc_bytes_2d dim1 dim2 elem_size) elem_size
          ((cpu_mdspan_impl.memview_malloc_2d malloc elem_size field dim1 dim2).offset i0 i1)) ∧
    (dim1 ≤ INT_MAX →
      ((cpu_mdspan_impl.malloc_bytes_1d dim1 elem_size : Nat) : Int) = dim1 * elem_size ∧
      cpu_mdspan_impl.memview_malloc_1d malloc elem_size field dim1
        = { data := malloc (cpu_mdspan_impl.malloc_bytes_1d dim1 elem_size),
            extent0 := dim1 } ∧
      ∀ i0 : Int,
        (cpu_mdspan_impl.memview_malloc_1d malloc elem_size field dim1).in_range i0 →
        inside_allocation (cpu_mdspan_impl.malloc_bytes_1d dim1 elem_size) elem_size
          ((cpu_mdspan_impl.memview_malloc_1d malloc elem_size field dim1).offset i0)) := by
  refine ⟨fun hN => ⟨malloc_bytes_3d_exact _ _ _ _ helem h1 h2 h3 hN, rfl, ?_⟩,
    fun hN => ⟨malloc_bytes_2d_exact _ _ _ helem h1 h2 hN, rfl, ?_⟩,
    fun hN => ⟨malloc_bytes_1d_exact _ _ helem h1 hN, rfl, ?_⟩⟩
  · intro i0 i1 i2 hr
    have hN' : dim3 * dim2 * dim1 ≤ INT_MAX := by
      have : dim3 * dim2 * dim1 = dim1 * dim2 * dim3 := by ring
      rw [this]; exact hN
    have h := offset_3d_exact
      (malloc (cpu_mdspan_impl.malloc_bytes_3d dim1 dim2 dim3 elem_size))
      dim1 dim2 dim3 i0 i1 i2 hN' hr.1 hr.2.1 hr.2.2
    have hoff : (cpu_mdspan_impl.memview_malloc_3d malloc elem_size field dim1 dim2
        dim3).offset i0 i1 i2 = (i0 * dim2 + i1) * dim3 + i2 := h.1
    rw [hoff]
    refine inside_of_lt _ _ (dim1 * dim2 * dim3) _
      (malloc_bytes_3d_exact _ _ _ _ helem h1 h2 h3 hN) h.2.1 ?_
    have : dim1 * dim2 * dim3 = dim3 * dim2 * dim1 := by ring
    rw [this]; exact h.2.2
  · intro i0 i1 hr
    have hN' : dim2 * dim1 ≤ INT_MAX := by rw [mul_comm]; exact hN
    have h := offset_2d_exact
      (malloc (cpu_mdspan_impl.malloc_bytes_2d dim1 dim2 elem_size))
      dim1 dim2 i0 i1 hN' hr.1 hr.2
    have hoff : (cpu_mdspan_impl.memview_malloc_2d malloc elem_size field dim1
        dim2).offset i0 i1 = i0 * dim2 + i1 := h.1
    rw [hoff]
    refine inside_of_lt _ _ (dim1 * dim2) _
      (malloc_bytes_2d_exact _ _ _ helem h1 h2 hN) h.2.1 ?_
    have : dim1 * dim2 = dim2 * dim1 := mul_comm _ _
    rw [this]; exact h.2.2
  · intro i0 hr
    exact inside_of_lt _ _ dim1 _ (malloc_bytes_1d_exact _ _ helem h1 hN) hr.1 hr.2

/-- C13 fails as stated: for the non-negative dimensions `(2048, 2048, 1024)` the
`int` product wraps to `0`, so `memview_malloc` requests `0` bytes and not `2^32 *
sizeof(double)`; the returned view has the extents `(2048, 2048, 1024)`, and its
in-range index `(0, 0, 0)` does not lie inside the allocation. -/
theorem memview_malloc_overflow :
    (0 : Int) ≤ 2048 ∧ (0 : Int) ≤ 1024 ∧
    cpu_mdspan_impl.malloc_bytes_3d 2048 2048 1024 sizeof_double = 0 ∧
    ((cpu_mdspan_impl.malloc_bytes_3d 2048 2048 1024 sizeof_double : Nat) : Int)
      ≠ 2048 * 2048 * 1024 * (sizeof_double : Int) ∧
    cpu_mdspan_impl.memview_malloc_3d (fun _ => 1000) sizeof_double nullptr 2048 2048 1024
      = { data := 1000, extent0 := 2048, extent1 := 2048, extent2 := 1024 } ∧
    (cpu_mdspan_impl.memview_malloc_3d (fun _ => 1000) sizeof_double nullptr 2048 2048
      1024).in_range (0, 0, 0) ∧
    ¬ inside_allocation (cpu_mdspan_impl.malloc_bytes_3d 2048 2048 1024 sizeof_double)
      sizeof_double
      ((cpu_mdspan_impl.memview_malloc_3d (fun _ => 1000) sizeof_double nullptr 2048 2048
        1024).offset 0 0 0) := by
  refine ⟨by decide, by decide, by decide, by decide, rfl, by decide, by decide⟩

/-- The scratch sizes of the example (`nlevs = 40`, `nproma = 25`, one block):
the request is `40 * 25 * 1 * 8` bytes and the last in-range index lies inside
it. -/
theorem memview_malloc_sized_witness :
    (sizeof_double = sizeof_double ∨ sizeof_double = sizeof_int) ∧
    (0 : Int) ≤ 40 ∧ (0 : Int) ≤ 25 ∧ (0 : Int) ≤ 1 ∧ (40 : Int) * 25 * 1 ≤ INT_MAX ∧
    ((cpu_mdspan_impl.malloc_bytes_3d 40 25 1 sizeof_double : Nat) : Int)
      = 40 * 25 * 1 * (sizeof_double : Int) ∧
    inside_allocation (cpu_mdspan_impl.malloc_bytes_3d 40 25 1 sizeof_double) sizeof_double
      ((cpu_mdspan_impl.memview_malloc_3d (fun _ => 1000) sizeof_double nullptr 40 25
        1).offset 39 24 0) := by
  have h := (memview_malloc_sized (fun _ => 1000) sizeof_double (Or.inl rfl) nullptr 40 25 1
    (by decide) (by decide) (by decide)).1 (by decide)
  exact ⟨Or.inl rfl, by decide, by decide, by decide, by decide, h.1,
    h.2.2 39 24 0 (by decide)⟩

/-! ## The 2D wrap of the two memory policies -/

theorem cuda_offset_2d_exact (data : Ptr) (nblocks nproma jb jc : Int)
    (hbi : nblocks ≤ INT_MAX) (hpi : nproma ≤ INT_MAX)
    (hjb : 0 ≤ jb ∧ jb < nblocks) (hjc : 0 ≤ jc ∧ jc < nproma) :
    (((cuda_mdspan_impl.memview_2d_impl data nblocks nproma).offset jb jc : Nat) : Int)
      = jb * nproma + jc := by
  unfold INT_MAX at hbi hpi
  have e1 : ((wrap_size jb : Nat) : Int) = jb := wrap_size_cast jb hjb.1 (by omega)
  have e2 : ((wrap_size nproma : Nat) : Int) = nproma :=
    wrap_size_cast nproma (by omega) (by omega)
  have e3 : ((wrap_size jc : Nat) : Int) = jc := wrap_size_cast jc hjc.1 (by omega)
  have hprod0 : 0 ≤ jb * nproma := mul_nonneg hjb.1 (by omega)
  have hprod1 : jb * nproma ≤ 2147483647 * 2147483647 :=
    mul_le_mul (by omega) (by omega) (by omega) (by omega)
  have a1 : ((wrap_size jb * wrap_size nproma : Nat) : Int) = jb * nproma := by
    rw [Nat.cast_mul, e1, e2]
  have a2 : ((wrap_size ((wrap_size jb * wrap_size nproma : Nat) : Int) : Nat) : Int)
      = jb * nproma := by
    rw [a1]
    exact wrap_size_cast _ hprod0 (by omega)
  have a3 : ((wrap_size ((wrap_size jb * wrap_size nproma : Nat) : Int) + wrap_size jc : Nat)
      : Int) = jb * nproma + jc := by
    rw [Nat.cast_add, a2, e3]
  unfold cuda_mdspan_2d.offset cuda_mdspan_impl.memview_2d_impl
  simp only
  rw [a3]
  exact wrap_size_cast _ (by omega) (by omega)

/-- C16, for sizes the `int` index of the CPU view can hold: for non-negative `int`
sizes the CPU wrap and the GPU wrap of a 2D field have the same base pointer and
the same extents `(nblocks, nproma)` and describe the same indices as in range;
the GPU view maps every in-range index `(jb, jc)` to the offset `jb * nproma + jc`;
and when `nproma * nblocks <= INT_MAX` the CPU view maps it to the same offset. -/
theorem memview_2d_cpu_gpu_agree (data : Ptr) (nblocks nproma : Int)
    (hb : 0 ≤ nblocks) (hp : 0 ≤ nproma) (hbi : nblocks ≤ INT_MAX) (hpi : nproma ≤ INT_MAX) :
    (cpu_mdspan_impl.memview_2d data nblocks nproma).data
      = (cuda_mdspan_impl.memview_2d_impl data nblocks nproma).data ∧
    (cpu_mdspan_impl.memview_2d data nblocks nproma).data = data ∧
    ((cpu_mdspan_impl.memview_2d data nblocks nproma).extent0 = nblocks ∧
      (((cuda_mdspan_impl.memview_2d_impl data nblocks nproma).extent0 : Nat) : Int)
        = nblocks) ∧
    ((cpu_mdspan_impl.memview_2d data nblocks nproma).extent1 = nproma ∧
      (((cuda_mdspan_impl.memview_2d_impl data nblocks nproma).extent1 : Nat) : Int)
        = nproma) ∧
    (∀ jb jc : Int, (cpu_mdspan_impl.memview_2d data nblocks nproma).in_range (jb, jc) ↔
      (cuda_mdspan_impl.memview_2d_impl data nblocks nproma).in_range (jb, jc)) ∧
    (∀ jb jc : Int, (cuda_mdspan_impl.memview_2d_impl data nblocks nproma).in_range (jb, jc) →
      (((cuda_mdspan_impl.memview_2d_impl data nblocks nproma).offset jb jc : Nat) : Int)
        = jb * nproma + jc) ∧
    (nproma * nblocks ≤ INT_MAX →
      ∀ jb jc : Int, (cpu_mdspan_impl.memview_2d data nblocks nproma).in_range (jb, jc) →
        (cpu_mdspan_impl.memview_2d data nblocks nproma).offset jb jc = jb * nproma + jc ∧
        (cpu_mdspan_impl.memview_2d data nblocks nproma).offset jb jc
          = (((cuda_mdspan_impl.memview_2d_impl data nblocks nproma).offset jb jc : Nat)
              : Int)) := by
  have hbi' := hbi
  have hpi' := hpi
  unfold INT_MAX at hbi' hpi'
  have x0 : ((wrap_size nblocks : Nat) : Int) = nblocks := wrap_size_cast _ hb (by omega)
  have x1 : ((wrap_size nproma : Nat) : Int) = nproma := wrap_size_cast _ hp (by omega)
  have hrange : ∀ jb jc : Int,
      (cpu_mdspan_impl.memview_2d data nblocks nproma).in_range (jb, jc) ↔
        (cuda_mdspan_impl.memview_2d_impl data nblocks nproma).in_range (jb, jc) := by
    intro jb jc
    unfold mdspan_2d.in_range cuda_mdspan_2d.in_range cpu_mdspan_impl.memview_2d
      cuda_mdspan_impl.memview_2d_impl
    simp only [x0, x1]
  refine ⟨rfl, rfl, ⟨rfl, x0⟩, ⟨rfl, x1⟩, hrange, ?_, ?_⟩
  · intro jb jc h
    have h' := (hrange jb jc).2 h
    exact cuda_offset_2d_exact data nblocks nproma jb jc hbi hpi h'.1 h'.2
  · intro hN jb jc h
    have hc := (offset_2d_exact data nblocks nproma jb jc hN h.1 h.2).1
    refine ⟨hc, ?_⟩
    rw [hc, cuda_offset_2d_exact data nblocks nproma jb jc hbi hpi h.1 h.2]

/-- C16 fails as stated: for `nblocks = nproma = 65536` the index `(32768, 0)` is in
range of both views; the GPU view maps it to the offset `2^31`, the CPU view,
whose offsets are `int`, to `-2^31`. -/
theorem memview_2d_cpu_gpu_differ :
    (0 : Int) ≤ 65536 ∧ (65536 : Int) ≤ INT_MAX ∧
    (cpu_mdspan_impl.memview_2d 1000 65536 65536).in_range (32768, 0) ∧
    (cuda_mdspan_impl.memview_2d_impl 1000 65536 65536).in_range (32768, 0) ∧
    (cuda_mdspan_impl.memview_2d_impl 1000 65536 65536).offset 32768 0 = 2147483648 ∧
    (cpu_mdspan_impl.memview_2d 1000 65536 65536).offset 32768 0 = -2147483648 ∧
    (cpu_mdspan_impl.memview_2d 1000 65536 65536).offset 32768 0
      ≠ (((cuda_mdspan_impl.memview_2d_impl 1000 65536 65536).offset 32768 0 : Nat) : Int) := by
  refine ⟨by decide, by decide, by decide, by decide, by decide, by decide, by decide⟩

/-- For the 2D fields of the example (`nblocks = 1`, `nproma = 25`) the two views
agree on the offset of the last column. -/
theorem memview_2d_cpu_gpu_agree_witness :
    (0 : Int) ≤ 1 ∧ (0 : Int) ≤ 25 ∧ (1 : Int) ≤ INT_MAX ∧ (25 : Int) ≤ INT_MAX ∧
    (25 : Int) * 1 ≤ INT_MAX ∧
    (cpu_mdspan_impl.memview_2d 17 1 25).in_range (0, 24) ∧
    (cpu_mdspan_impl.memview_2d 17 1 25).offset 0 24 = 0 * 25 + 24 ∧
    (cpu_mdspan_impl.memview_2d 17 1 25).offset 0 24
      = (((cuda_mdspan_impl.memview_2d_impl 17 1 25).offset 0 24 : Nat) : Int) :=
  ⟨by decide, by decide, by decide, by decide, by decide, by decide,
    ((memview_2d_cpu_gpu_agree 17 1 25 (by decide) (by decide) (by decide)
      (by decide)).2.2.2.2.2.2 (by decide) 0 24 (by decide)).1,
    ((memview_2d_cpu_gpu_agree 17 1 25 (by decide) (by decide) (by decide)
      (by decide)).2.2.2.2.2.2 (by decide) 0 24 (by decide)).2⟩

/-! ## The edge interpolation -/

section edges
variable {K : Type} [LinearOrderedField K]

theorem edge_interpolate_one (valid : Int → Int → Bool) (dolic_c : Int → Int → Int)
    (tke_Av : Int → Int → Int → K)
    (hAv : ∀ jb jc k : Int, 0 ≤ k → k < dolic_c jb jc → tke_Av jb k jc = 1)
    (n1 n2 : Int × Int) (k : Int) (hk : 0 ≤ k ∧ k < edge_levels valid dolic_c n1 n2) :
    edge_interpolate valid tke_Av n1 n2 k = 1 := by
  unfold edge_levels at hk
  unfold edge_interpolate
  by_cases h12 : valid n1.1 n1.2 = true ∧ valid n2.1 n2.2 = true
  · rw [if_pos h12] at hk
    rw [if_pos h12, hAv n1.1 n1.2 k hk.1 (lt_of_lt_of_le hk.2 (min_le_left _ _)),
      hAv n2.1 n2.2 k hk.1 (lt_of_lt_of_le hk.2 (min_le_right _ _))]
    norm_num
  · rw [if_neg h12] at hk
    rw [if_neg h12]
    by_cases h1 : valid n1.1 n1.2 = true
    · rw [if_pos h1] at hk
      rw [if_pos h1]
      exact hAv n1.1 n1.2 k hk.1 hk.2
    · rw [if_neg h1] at hk
      rw [if_neg h1]
      by_cases h2 : valid n2.1 n2.2 = true
      · rw [if_pos h2] at hk
        exact hAv n2.1 n2.2 k hk.1 hk.2
      · rw [if_neg h2] at hk
        omega

theorem run_trace_cells_edge_field {T : Type}
    (ek : edges_call T → (Int → Int → Int → T) → Int → Int → Int → T)
    (l : List (cells_call T)) (e : Int → Int → Int → T) :
    run_trace calc_impl_cells_edge_field ek (l.map Event.cells) e = e := by
  induction l with
  | nil => rfl
  | cons c l ih =>
    rw [List.map_cons, run_trace_cons]
    exact ih

theorem edges_fold_one (valid : Int → Int → Bool) (dolic_c : Int → Int → Int)
    (edges_cell_blk edges_cell_idx : Int → Int → Int → Int) (tke_Av : Int → Int → Int → K)
    (hAv : ∀ jb jc k : Int, 0 ≤ k → k < dolic_c jb jc → tke_Av jb k jc = 1)
    (b1 : TKE_backend K) (a : calc_args) (jb k je : Int)
    (hje : (get_index_range a.edges_block_size a.edges_start_block a.edges_end_block
        a.edges_start_index a.edges_end_index jb).1 ≤ je ∧
      je ≤ (get_index_range a.edges_block_size a.edges_start_block a.edges_end_block
        a.edges_start_index a.edges_end_index jb).2)
    (hk : 0 ≤ k ∧ k < edge_levels valid dolic_c
        (edges_cell_blk jb 0 je, edges_cell_idx jb 0 je)
        (edges_cell_blk jb 1 je, edges_cell_idx jb 1 je)) :
    ∀ (l : List Int) (e : Int → Int → Int → K), (jb ∈ l ∨ e jb k je = 1) →
      run_trace calc_impl_cells_edge_field
        (calc_impl_edges valid dolic_c edges_cell_blk edges_cell_idx tke_Av)
        (l.map (fun x => Event.edges (edges_body b1 a x))) e jb k je = 1 := by
  intro l
  induction l with
  | nil =>
    intro e h
    rcases h with h | h
    · simp at h
    · exact h
  | cons x l ih =>
    intro e h
    rw [List.map_cons, run_trace_cons]
    apply ih
    by_cases hx : jb = x
    · right
      subst hx
      show calc_impl_edges valid dolic_c edges_cell_blk edges_cell_idx tke_Av
        (edges_body b1 a jb) e jb k je = 1
      unfold calc_impl_edges
      rw [if_pos ⟨rfl, hje, hk⟩]
      exact edge_interpolate_one valid dolic_c tke_Av hAv _ _ k hk
    · rcases h with h | h
      · left
        rcases List.mem_cons.1 h with h | h
        · exact absurd h hx
        · exact h
      · right
        show calc_impl_edges valid dolic_c edges_cell_blk edges_cell_idx tke_Av
          (edges_body b1 a x) e jb k je = 1
        unfold calc_impl_edges
        rw [if_neg (fun hc => hx hc.1)]
        exact h

/-- C11: whatever the maps from an edge to its two neighbouring cells are, and
whichever neighbours are valid, if the cell-centred viscosity is `1` at every
level `0 <= k < dolic` of every cell column, then after `calc_impl` the edge
viscosity is `1` at every level of every edge `je` of the in-block range of
every block `jb` of the edge range, the levels of an edge being those down to
the shallower valid neighbour's `dolic`. -/
theorem edge_interpolation_identity (valid : Int → Int → Bool) (dolic_c : Int → Int → Int)
    (edges_cell_blk edges_cell_idx : Int → Int → Int → Int) (tke_Av : Int → Int → Int → K)
    (hAv : ∀ jb jc k : Int, 0 ≤ k → k < dolic_c jb jc → tke_Av jb k jc = 1)
    (b : TKE_backend K) (a : calc_args) (a_veloc_v : Int → Int → Int → K) (jb k je : Int)
    (hjb : a.edges_start_block ≤ jb ∧ jb ≤ a.edges_end_block)
    (hje : (get_index_range a.edges_block_size a.edges_start_block a.edges_end_block
        a.edges_start_index a.edges_end_index jb).1 ≤ je ∧
      je ≤ (get_index_range a.edges_block_size a.edges_start_block a.edges_end_block
        a.edges_start_index a.edges_end_index jb).2)
    (hk : 0 ≤ k ∧ k < edge_levels valid dolic_c
        (edges_cell_blk jb 0 je, edges_cell_idx jb 0 je)
        (edges_cell_blk jb 1 je, edges_cell_idx jb 1 je)) :
    run_trace calc_impl_cells_edge_field
      (calc_impl_edges valid dolic_c edges_cell_blk edges_cell_idx tke_Av)
      (calc_impl b a).2 a_veloc_v jb k je = 1 := by
  rw [← run_trace_kernel_calls, kernel_calls_calc_impl, run_trace_append]
  have hc : ∀ (l : List Int) (m : Int → Int → Int → K),
      run_trace calc_impl_cells_edge_field
        (calc_impl_edges valid dolic_c edges_cell_blk edges_cell_idx tke_Av)
        (l.map (fun x => Event.cells (cells_body (init_views b a).1 a x))) m = m := by
    intro l m
    have := run_trace_cells_edge_field
      (calc_impl_edges valid dolic_c edges_cell_blk edges_cell_idx tke_Av)
      (l.map (cells_body (init_views b a).1 a)) m
    rw [List.map_map] at this
    exact this
  rw [hc]
  exact edges_fold_one valid dolic_c edges_cell_blk edges_cell_idx tke_Av hAv
    (init_views b a).1 a jb k je hje hk
    (block_loop a.edges_start_block a.edges_end_block) a_veloc_v
    (Or.inl ((mem_block_loop _ _ jb).2 hjb))

end edges

/-- On the example call, with a neighbour map whose second neighbour is invalid
for every edge (index `-1`), a uniform cell viscosity `1` and an edge field
holding `7` before the call, the edge viscosity of level `1` of edge `3` of block
`0` is `1` afterwards. -/
theorem edge_interpolation_identity_witness :
    run_trace calc_impl_cells_edge_field
      (calc_impl_edges (fun _ i => decide (0 ≤ i)) (fun _ _ => 2) (fun _ _ _ => 0)
        (fun _ n je => if n = 0 then je else -1) (fun _ _ _ => (1 : ℚ)))
      (calc_impl example_backend (example_args 0)).2 (fun _ _ _ => 7) 0 1 3 = 1 :=
  edge_interpolation_identity (fun _ i => decide (0 ≤ i)) (fun _ _ => 2) (fun _ _ _ => 0)
    (fun _ n je => if n = 0 then je else -1) (fun _ _ _ => (1 : ℚ))
    (fun _ _ _ _ _ => rfl) example_backend (example_args 0) (fun _ _ _ => 7) 0 1 3
    (by decide) (by decide) (by decide)

/-! ## Levels below the bottom of a column -/

section inactive
variable {F K : Type} [LinearOrderedField K]

theorem column_view_congr {G T : Type} (dolic_c : Int → Int → Int)
    (inputs inputs' : G → Int → Int → Int → T) (tke tke' : Int → Int → Int → T)
    (h : agree_on_active dolic_c inputs inputs' tke tke') (jb jc : Int) :
    column_view dolic_c inputs tke jb jc = column_view dolic_c inputs' tke' jb jc := by
  unfold column_view
  congr 1
  · funext k
    by_cases hk : 0 ≤ k ∧ k < dolic_c jb jc
    · rw [if_pos hk, if_pos hk, (h jb k jc hk.1 hk.2).1]
    · rw [if_neg hk, if_neg hk]
  · funext f k
    by_cases hk : 0 ≤ k ∧ k < dolic_c jb jc
    · rw [if_pos hk, if_pos hk, (h jb k jc hk.1 hk.2).2 f]
    · rw [if_neg hk, if_neg hk]

theorem cells_full_diag_below
    (assemble : cells_call K → Int → active_inputs F K → tridiag K)
    (physics : cells_call K → Int → active_inputs F K → diagnostic → Int → K)
    (dolic_c : Int → Int → Int) (inputs : F → Int → Int → Int → K)
    (c : cells_call K) (s : cell_fields K) (d : diagnostic) (jb k jc : Int)
    (hk : dolic_c jb jc ≤ k) :
    (calc_impl_cells_full assemble physics dolic_c inputs c s).diag d jb k jc = 0 ∨
      (calc_impl_cells_full assemble physics dolic_c inputs c s).diag d jb k jc
        = s.diag d jb k jc := by
  unfold calc_impl_cells_full
  simp only
  split_ifs with h1 h2
  · omega
  · exact Or.inl rfl
  · exact Or.inr rfl

theorem run_full_diag_below
    (assemble : cells_call K → Int → active_inputs F K → tridiag K)
    (physics : cells_call K → Int → active_inputs F K → diagnostic → Int → K)
    (dolic_c : Int → Int → Int) (inputs : F → Int → Int → Int → K)
    (s0 : cell_fields K) (d : diagnostic) (jb k jc : Int) (hk : dolic_c jb jc ≤ k) :
    ∀ (tr : List (Event K)) (s : cell_fields K),
      (s.diag d jb k jc = 0 ∨ s.diag d jb k jc = s0.diag d jb k jc) →
      (run_trace (calc_impl_cells_full assemble physics dolic_c inputs)
          calc_impl_edges_cell_fields tr s).diag d jb k jc = 0 ∨
        (run_trace (calc_impl_cells_full assemble physics dolic_c inputs)
          calc_impl_edges_cell_fields tr s).diag d jb k jc = s0.diag d jb k jc := by
  intro tr
  induction tr with
  | nil => intro s h; exact h
  | cons e tr ih =>
    intro s h
    rw [run_trace_cons]
    apply ih
    cases e with
    | cells c =>
      show (calc_impl_cells_full assemble physics dolic_c inputs c s).diag d jb k jc = 0 ∨
        (calc_impl_cells_full assemble physics dolic_c inputs c s).diag d jb k jc
          = s0.diag d jb k jc
      rcases cells_full_diag_below assemble physics dolic_c inputs c s d jb k jc hk with h1 | h1
      · exact Or.inl h1
      · rw [h1]; exact h
    | edges c => exact h
    | fill_cvmix _ _ _ _ => exact h
    | fill_patch _ _ _ _ => exact h
    | fill_ocean_state _ _ _ _ => exact h
    | fill_atmo_fluxes _ _ _ => exact h
    | fill_atmos_for_ocean _ _ _ => exact h
    | fill_sea_ice _ _ _ => exact h

theorem cells_full_agree
    (assemble : cells_call K → Int → active_inputs F K → tridiag K)
    (physics : cells_call K → Int → active_inputs F K → diagnostic → Int → K)
    (dolic_c : Int → Int → Int) (inputs inputs' : F → Int → Int → Int → K)
    (hin : ∀ (f : F) (jb k jc : Int), 0 ≤ k → k < dolic_c jb jc →
      inputs f jb k jc = inputs' f jb k jc)
    (c : cells_call K) (s0 s0' s s' : cell_fields K) (h : runs_agree dolic_c s0 s0' s s') :
    runs_agree dolic_c s0 s0'
      (calc_impl_cells_full assemble physics dolic_c inputs c s)
      (calc_impl_cells_full assemble physics dolic_c inputs' c s') := by
  have hag : agree_on_active dolic_c inputs inputs' s.tke s'.tke :=
    fun jb k jc h0 h1 => ⟨h.1 jb k jc h0 h1, fun f => hin f jb k jc h0 h1⟩
  have hview := column_view_congr dolic_c inputs inputs' s.tke s'.tke hag
  constructor
  · intro jb k jc h0 h1
    unfold calc_impl_cells_full calc_impl_cells
    simp only
    by_cases hc : jb = c.blockNo ∧ c.start_index ≤ jc ∧ jc ≤ c.end_index
    · rw [if_pos hc, if_pos hc, hview c.blockNo jc]
      unfold tke_column_update
      rw [if_pos ⟨h0, h1⟩, if_pos ⟨h0, h1⟩]
    · rw [if_neg hc, if_neg hc]
      exact h.1 jb k jc h0 h1
  · intro d jb k jc
    unfold calc_impl_cells_full
    simp only
    by_cases hc : jb = c.blockNo ∧ (c.start_index ≤ jc ∧ jc ≤ c.end_index) ∧
        (0 ≤ k ∧ k < c.p_constant.nlevs)
    · rw [if_pos hc, if_pos hc, hview jb jc]
      exact Or.inl rfl
    · rw [if_neg hc, if_neg hc]
      exact h.2 d jb k jc

theorem run_full_agree
    (assemble : cells_call K → Int → active_inputs F K → tridiag K)
    (physics : cells_call K → Int → active_inputs F K → diagnostic → Int → K)
    (dolic_c : Int → Int → Int) (inputs inputs' : F → Int → Int → Int → K)
    (hin : ∀ (f : F) (jb k jc : Int), 0 ≤ k → k < dolic_c jb jc →
      inputs f jb k jc = inputs' f jb k jc)
    (s0 s0' : cell_fields K) :
    ∀ (tr : List (Event K)) (s s' : cell_fields K), runs_agree dolic_c s0 s0' s s' →
      runs_agree dolic_c s0 s0'
        (run_trace (calc_impl_cells_full assemble physics dolic_c inputs)
          calc_impl_edges_cell_fields tr s)
        (run_trace (calc_impl_cells_full assemble physics dolic_c inputs')
          calc_impl_edges_cell_fields tr s') := by
  intro tr
  induction tr with
  | nil => intro s s' h; exact h
  | cons e tr ih =>
    intro s s' h
    rw [run_trace_cons, run_trace_cons]
    apply ih
    cases e with
    | cells c => exact cells_full_agree assemble physics dolic_c inputs inputs' hin c s0 s0' s s' h
    | edges c => exact h
    | fill_cvmix _ _ _ _ => exact h
    | fill_patch _ _ _ _ => exact h
    | fill_ocean_state _ _ _ _ => exact h
    | fill_atmo_fluxes _ _ _ => exact h
    | fill_atmos_for_ocean _ _ _ => exact h
    | fill_sea_ice _ _ _ => exact h

/-- C12: levels at or below the bottom index of a column are excluded. Whatever the
fields hold before the call, after `calc_impl` every diagnostic entry at a level
`k >= dolic` of its column is zero or is the entry from before the call. And no
result depends on what is stored at such levels: two runs of the call whose
input fields and TKE agree on the levels `0 <= k < dolic` of every column end
with the same TKE on those levels, and every diagnostic entry is the same in
both runs or was written in neither; in particular the diagnostic fields end
equal when they were equal before. -/
theorem inactive_levels_excluded
    (assemble : cells_call K → Int → active_inputs F K → tridiag K)
    (physics : cells_call K → Int → active_inputs F K → diagnostic → Int → K)
    (dolic_c : Int → Int → Int) (b : TKE_backend K) (a : calc_args) :
    (∀ (inputs : F → Int → Int → Int → K) (s0 : cell_fields K) (d : diagnostic)
      (jb k jc : Int), dolic_c jb jc ≤ k →
      (run_trace (calc_impl_cells_full assemble physics dolic_c inputs)
          calc_impl_edges_cell_fields (calc_impl b a).2 s0).diag d jb k jc = 0 ∨
        (run_trace (calc_impl_cells_full assemble physics dolic_c inputs)
          calc_impl_edges_cell_fields (calc_impl b a).2 s0).diag d jb k jc
            = s0.diag d jb k jc) ∧
    (∀ (inputs inputs' : F → Int → Int → Int → K) (s0 s0' : cell_fields K),
      agree_on_active dolic_c inputs inputs' s0.tke s0'.tke →
      (∀ jb k jc : Int, 0 ≤ k → k < dolic_c jb jc →
        (run_trace (calc_impl_cells_full assemble physics dolic_c inputs)
            calc_impl_edges_cell_fields (calc_impl b a).2 s0).tke jb k jc
          = (run_trace (calc_impl_cells_full assemble physics dolic_c inputs')
            calc_impl_edges_cell_fields (calc_impl b a).2 s0').tke jb k jc) ∧
      (∀ (d : diagnostic) (jb k jc : Int),
        (run_trace (calc_impl_cells_full assemble physics dolic_c inputs)
            calc_impl_edges_cell_fields (calc_impl b a).2 s0).diag d jb k jc
          = (run_trace (calc_impl_cells_full assemble physics dolic_c inputs')
            calc_impl_edges_cell_fields (calc_impl b a).2 s0').diag d jb k jc ∨
        ((run_trace (calc_impl_cells_full assemble physics dolic_c inputs)
            calc_impl_edges_cell_fields (calc_impl b a).2 s0).diag d jb k jc
          = s0.diag d jb k jc ∧
         (run_trace (calc_impl_cells_full assemble physics dolic_c inputs')
            calc_impl_edges_cell_fields (calc_impl b a).2 s0').diag d jb k jc
          = s0'.diag d jb k jc)) ∧
      (s0.diag = s0'.diag →
        (run_trace (calc_impl_cells_full assemble physics dolic_c inputs)
            calc_impl_edges_cell_fields (calc_impl b a).2 s0).diag
          = (run_trace (calc_impl_cells_full assemble physics dolic_c inputs')
            calc_impl_edges_cell_fields (calc_impl b a).2 s0').diag)) := by
  constructor
  · intro inputs s0 d jb k jc hk
    exact run_full_diag_below assemble physics dolic_c inputs s0 d jb k jc hk
      (calc_impl b a).2 s0 (Or.inr rfl)
  · intro inputs inputs' s0 s0' hag
    have hrun := run_full_agree assemble physics dolic_c inputs inputs'
      (fun f jb k jc h0 h1 => (hag jb k jc h0 h1).2 f) s0 s0' (calc_impl b a).2 s0 s0'
      ⟨fun jb k jc h0 h1 => (hag jb k jc h0 h1).1, fun d jb k jc => Or.inr ⟨rfl, rfl⟩⟩
    refine ⟨hrun.1, hrun.2, ?_⟩
    intro hd
    funext d jb k jc
    rcases hrun.2 d jb k jc with h | ⟨h1, h2⟩
    · exact h
    · rw [h1, h2, hd]

end inactive

/-- On the example call with bottom index `2` for every column and diagnostic
fields holding `9` before the call, the total-tendency diagnostic at level `5`
of column `0` of block `0` is zero or untouched afterwards. -/
theorem inactive_levels_excluded_witness :
    (run_trace
        (calc_impl_cells_full (fun _ _ (_ : active_inputs Unit ℚ) => example_system)
          (fun _ _ _ _ _ => 3) (fun _ _ => 2) (fun _ _ _ _ => -1))
        calc_impl_edges_cell_fields (calc_impl example_backend (example_args 0)).2
        { tke := fun _ _ _ => -5, diag := fun _ _ _ _ => 9 }).diag diagnostic.tke_Ttot 0 5 0 = 0 ∨
    (run_trace
        (calc_impl_cells_full (fun _ _ (_ : active_inputs Unit ℚ) => example_system)
          (fun _ _ _ _ _ => 3) (fun _ _ => 2) (fun _ _ _ _ => -1))
        calc_impl_edges_cell_fields (calc_impl example_backend (example_args 0)).2
        { tke := fun _ _ _ => -5, diag := fun _ _ _ _ => 9 }).diag diagnostic.tke_Ttot 0 5 0
      = (9 : ℚ) :=
  (inactive_levels_excluded (fun _ _ (_ : active_inputs Unit ℚ) => example_system)
    (fun _ _ _ _ _ => 3) (fun _ _ => 2) example_backend (example_args 0)).1
    (fun _ _ _ _ => -1) { tke := fun _ _ _ => -5, diag := fun _ _ _ _ => 9 }
    diagnostic.tke_Ttot 0 5 0 (by decide)

/-! ## Block ranges that end at `INT_MAX` -/

/-- C3 fails as stated: for the cell range `[INT_MAX, INT_MAX]` the increment of the
`int` counter overflows after the first cell-kernel invocation; the second
invocation is for block `-2147483648`, which is not in the range, the cell loop
never exits, and the call never returns (so that no edge kernel is invoked). -/
theorem block_visits_fails_at_int_max :
    (for_blocks_int 2 example_args_int_max.cells_start_block
      example_args_int_max.cells_end_block).1 = [2147483647, -2147483648] ∧
    ¬ (example_args_int_max.cells_start_block ≤ -2147483648 ∧
        -2147483648 ≤ example_args_int_max.cells_end_block) ∧
    (∀ n : Nat, (for_blocks_int n example_args_int_max.cells_start_block
      example_args_int_max.cells_end_block).2 = false ∧
      (for_blocks_int n example_args_int_max.cells_start_block
        example_args_int_max.cells_end_block).1.length = n) ∧
    (∀ fuel : Nat, calc_impl_int fuel example_backend example_args_int_max = none) := by
  refine ⟨by decide, by decide, ?_, ?_⟩
  · intro n
    exact for_blocks_int_never_exits n 2147483647 (by decide) (by decide)
  · intro fuel
    exact calc_impl_int_never_returns example_backend example_args_int_max
      (by decide) (by decide) rfl fuel

/-- The call of the example has block ranges below `INT_MAX`: with the `int`
counters it returns within two evaluations of each loop test, and the cell and
the edge kernel are each invoked once, for block `0`. -/
theorem block_visits_witness :
    (example_args 0).blocks_below_int_max ∧
    calc_impl_int 2 example_backend (example_args 0)
      = some (calc_impl example_backend (example_args 0)) ∧
    (∀ jb : Int,
      ((cells_calls (calc_impl example_backend (example_args 0)).2).map
        (fun c => c.blockNo)).count jb
        = if (example_args 0).cells_start_block ≤ jb ∧ jb ≤ (example_args 0).cells_end_block
          then 1 else 0) :=
  ⟨by decide,
    (block_visits example_backend (example_args 0) (by decide)).1 2 (by decide),
    (block_visits example_backend (example_args 0) (by decide)).2.1⟩

end TKE
